import Mathlib

/-!
# The Blackmagic gate (`blackmagic_gate.c`)

A shallow embedding of the gate: the ticketed lock (`dl_gate_lock`,
`dl_gate_lock_interrupt`, `dl_gate_unlock`), the keyed event table
(`get_event`, `put_event`) and the combined wait and wake operations
(`dl_gate_sleep`, `dl_gate_wakeup`).

Every function that runs under `gate->lock` is a pure function on the record
`blackmagic_gate`.  The places where the C code drops the spinlock
(`schedule_timeout`, `schedule`, the bottom half inside `__dl_gate_unlock`)
separate the atomic steps of the interleaving model `GateSys.step`.

The second part embeds the write ring buffer and the open state of the serial
port (`blackmagic_serial.c`).
-/

namespace Blackmagic

/-! ## Machine integers and constants -/

/-- The modulus of `unsigned int` arithmetic. -/
def UINT_MOD : Nat := 2 ^ 32

/-- Conversion of an `unsigned int` value to `int` (two's complement, as gcc does). -/
def to_int (u : Nat) : Int :=
  if u < 2 ^ 31 then (u : Int) else (u : Int) - 2 ^ 32

/-- The largest value of a C `int`, 2 ^ 31 - 1. -/
def INT_MAX : Nat := 2147483647

/-- The value an `int` holds after an arithmetic step whose result over the
integers is `x`: the result modulo 2 ^ 32, taken in the range from
-2 ^ 31 to 2 ^ 31 - 1 (two's complement wrap-around, as gcc does in a build
of the kernel, which passes `-fno-strict-overflow`). -/
def wrap_int (x : Int) : Int :=
  (x + 2147483648) % 4294967296 - 2147483648

/-- The macro `#define EVENT_TABLE_BITS 6`. -/
def EVENT_TABLE_BITS : Nat := 6

/-- The macro `#define EVENT_TABLE_SIZE (1 << EVENT_TABLE_BITS)`. -/
def EVENT_TABLE_SIZE : Nat := 1 <<< EVENT_TABLE_BITS

/-- Modelled from the spec: `ENOMEM` comes from the kernel's errno headers, which
are not among the sources; it is the out-of-memory error number, 12. -/
def ENOMEM : Int := 12

/-- Modelled from the spec: `ERESTARTSYS` comes from the kernel's errno headers,
which are not among the sources; it is the error number of an interrupted
wait, 512. -/
def ERESTARTSYS : Int := 512

/-- Modelled from the spec: `MAX_SCHEDULE_TIMEOUT` is the kernel's name for an
unbounded wait (`LONG_MAX`); the spec's "default is unbounded wait". -/
def MAX_SCHEDULE_TIMEOUT : Int := 2 ^ 63 - 1

/-- Modelled from the spec: `schedule_timeout` is a kernel primitive, not among
the sources.  It suspends the caller and returns the part of the budget that
is left; an unbounded budget (`MAX_SCHEDULE_TIMEOUT`) is returned unchanged.
`elapsed` is the time the caller was suspended. -/
def schedule_timeout (timeout : Int) (elapsed : Nat) : Int :=
  if timeout = MAX_SCHEDULE_TIMEOUT then MAX_SCHEDULE_TIMEOUT
  else if timeout - (elapsed : Int) < 0 then 0 else timeout - (elapsed : Int)

/-- Modelled from the spec: the two outcomes `dl_gate_sleep` names,
`THREAD_AWAKENED` and `THREAD_INTERRUPTED`, are declared in `blackmagic_iml.h`,
which is not among the sources. -/
inductive ThreadResult where
  | THREAD_AWAKENED
  | THREAD_INTERRUPTED
  deriving DecidableEq, Repr

/-! ## Data model -/

/-- The `struct blackmagic_gate_event`: one channel of the event table.
`addr` is the identity of the `kmalloc`ed object (what a
`struct blackmagic_gate_event*` points to), `event` the key, `ref` the
reference count and `wqh` the task list of the wait queue head: the waiters
registered on the channel, oldest first, each named by its thread. -/
structure blackmagic_gate_event where
  addr : Nat
  event : Nat
  ref : Int
  wqh : List Nat
  deriving DecidableEq, Repr

/-- The array `events[EVENT_TABLE_SIZE]` of bucket lists. -/
abbrev EventTable := Fin EVENT_TABLE_SIZE → List blackmagic_gate_event

/-- Modelled from the spec: `struct blackmagic_device` is declared in
`blackmagic_core.h`, which is not among the sources; the gate reads its
`driver` handle and its `work` item only. -/
structure blackmagic_device where
  driver : Nat
  work : Nat
  deriving DecidableEq, Repr

/-- The `struct blackmagic_gate` without its spinlock.  A
`struct blackmagic_gate_waiter` lives on the stack of the thread that queued
it, so `wait_list` and `next` name waiters by their thread. -/
structure blackmagic_gate where
  count : Nat
  wait_list : List Nat
  next : Option Nat
  dev : Option blackmagic_device
  run_bh_on_unlock : Bool
  events : EventTable

/-- The gate `dl_alloc_gate` returns. -/
def dl_alloc_gate : blackmagic_gate :=
  { count := 1, wait_list := [], next := none, dev := none,
    run_bh_on_unlock := false, events := fun _ => [] }

/-- The function `dl_gate_set_device`. -/
def dl_gate_set_device (gate : blackmagic_gate) (dev : Option blackmagic_device) :
    blackmagic_gate :=
  { gate with dev := dev }

/-! ## The ticketed lock -/

/-- The entry of `__dl_gate_lock`, up to the first `schedule_timeout`: the fast
path takes the gate (`true`), the slow path appends the caller's waiter to
`wait_list` (`false`). -/
def __dl_gate_lock_enter (gate : blackmagic_gate) (waiter : Nat) : blackmagic_gate × Bool :=
  if 0 < gate.count then
    ({ gate with count := gate.count - 1 }, true)
  else
    ({ gate with wait_list := gate.wait_list ++ [waiter] }, false)

/-- How one pass of the wait loop of `__dl_gate_lock` ends. -/
inductive LockPass where
  | claimed
  | timed_out
  | again
  deriving DecidableEq, Repr

/-- One pass of the `for (;;)` loop of `__dl_gate_lock` after `schedule_timeout`
returned `timeout`: claim the hand-off if `gate->next` is the caller's waiter,
else give up when the budget is used up (`list_del`), else suspend again. -/
def __dl_gate_lock_resume (gate : blackmagic_gate) (waiter : Nat) (timeout : Int) :
    blackmagic_gate × LockPass :=
  if gate.next = some waiter then
    ({ gate with next := none }, LockPass.claimed)
  else if timeout ≤ 0 then
    ({ gate with wait_list := gate.wait_list.erase waiter }, LockPass.timed_out)
  else
    (gate, LockPass.again)

/-- The function `dl_gate_lock_interrupt`: `count = gate->count - 1` is computed
in `unsigned int` and stored in an `int`. -/
def dl_gate_lock_interrupt (gate : blackmagic_gate) : blackmagic_gate × Bool :=
  let count : Int := to_int ((gate.count + UINT_MOD - 1) % UINT_MOD)
  if 0 ≤ count then
    ({ gate with count := count.toNat }, true)
  else
    match gate.next with
    | some w => ({ gate with wait_list := w :: gate.wait_list, next := none }, true)
    | none => ({ gate with run_bh_on_unlock := true }, false)

/-- What `__dl_gate_unlock` does outside the gate's own fields. `tasklet` is the
call `dl_tasklet_handler_gated(gate->dev->driver)`, recorded with the gate as
it is at the call; `schedule_work` is `schedule_work(&gate->dev->work)`;
`wake_up_process` wakes the thread of the waiter that receives the hand-off. -/
inductive Effect where
  | tasklet (driver : Nat) (count : Nat) (wait_list : List Nat) (next : Option Nat)
      (run_bh_on_unlock : Bool)
  | schedule_work (work : Nat)
  | wake_up_process (task : Nat)
  deriving DecidableEq, Repr

/-- Whether an effect is a call of the deferred-dispatch hook. -/
def Effect.is_tasklet : Effect → Bool
  | Effect.tasklet _ _ _ _ _ => true
  | _ => false

/-- The first half of `__dl_gate_unlock` when `run_bh_on_unlock` is set: the
flag is cleared under the lock, before the lock is dropped. -/
def __dl_gate_unlock_clear (gate : blackmagic_gate) : blackmagic_gate :=
  { gate with run_bh_on_unlock := false }

/-- The bottom half `__dl_gate_unlock` runs with the lock dropped:
`dl_tasklet_handler_gated` is called if a device is bound, and
`schedule_work` if its status has a bit of `DL_INTERRUPT_SCHED_WORK`.  The
handler and the mask are declared outside the sources and are arguments. -/
def __dl_gate_unlock_bh (DL_INTERRUPT_SCHED_WORK : Nat)
    (dl_tasklet_handler_gated : Nat → Nat) (gate : blackmagic_gate) : List Effect :=
  match gate.dev with
  | none => []
  | some dev =>
    let status := dl_tasklet_handler_gated dev.driver
    Effect.tasklet dev.driver gate.count gate.wait_list gate.next gate.run_bh_on_unlock ::
      (if status &&& DL_INTERRUPT_SCHED_WORK ≠ 0 then [Effect.schedule_work dev.work] else [])

/-- The second half of `__dl_gate_unlock`, under the lock: free the gate
(`++gate->count`, in `unsigned int`) when nobody waits, else hand it to the
first waiter of `wait_list` and wake that thread. -/
def __dl_gate_unlock_tail (gate : blackmagic_gate) : blackmagic_gate × List Effect :=
  match gate.wait_list with
  | [] => ({ gate with count := (gate.count + 1) % UINT_MOD }, [])
  | waiter :: rest =>
    ({ gate with wait_list := rest, next := some waiter }, [Effect.wake_up_process waiter])

/-- The function `__dl_gate_unlock`.  While the bottom half runs the lock is
dropped, so other contexts may change the gate: `window` is what they did
between the unlock and the relock. -/
def __dl_gate_unlock (DL_INTERRUPT_SCHED_WORK : Nat) (dl_tasklet_handler_gated : Nat → Nat)
    (window : blackmagic_gate → blackmagic_gate) (gate : blackmagic_gate) :
    blackmagic_gate × List Effect :=
  if gate.run_bh_on_unlock then
    let g1 := __dl_gate_unlock_clear gate
    let bh := __dl_gate_unlock_bh DL_INTERRUPT_SCHED_WORK dl_tasklet_handler_gated g1
    let (g2, tl) := __dl_gate_unlock_tail (window g1)
    (g2, bh ++ tl)
  else
    __dl_gate_unlock_tail gate

/-! ## The event table -/

/-- The scan of one bucket in `get_event`: the first channel whose key is
`event` gets `++ev->ref`, an increment of an `int` that wraps around past
`INT_MAX`, and its address is returned; `none` when the bucket holds no
channel for the key. -/
def get_event_scan (event : Nat) :
    List blackmagic_gate_event → Option (List blackmagic_gate_event × Nat)
  | [] => none
  | ev :: rest =>
    if ev.event = event then
      some ({ ev with ref := wrap_int (ev.ref + 1) } :: rest, ev.addr)
    else
      match get_event_scan event rest with
      | some (rest1, p) => some (ev :: rest1, p)
      | none => none

/-- The function `get_event`.  `hash_ptr` is the kernel's hash of the key into
a bucket index; `kmalloc` is what the `GFP_ATOMIC` allocation returns if it is
reached: `none` when it fails, else the address of the new object.  The
result is the new table and the returned pointer (`none` for `NULL`). -/
def get_event (hash_ptr : Nat → Fin EVENT_TABLE_SIZE) (events : EventTable) (event : Nat)
    (create : Bool) (kmalloc : Option Nat) : EventTable × Option Nat :=
  let idx := hash_ptr event
  match get_event_scan event (events idx) with
  | some (bucket, p) => (Function.update events idx bucket, some p)
  | none =>
    if create then
      match kmalloc with
      | none => (events, none)
      | some p =>
        (Function.update events idx
          ({ addr := p, event := event, ref := 1, wqh := [] } :: events idx), some p)
    else
      (events, none)

/-- The effect of `put_event` on the hlist that holds the object at address `p`:
`--event->ref`, a decrement of an `int` that wraps around below the least
`int`, and the node is unlinked (and freed) when the count reaches 0. -/
def put_event_bucket (p : Nat) : List blackmagic_gate_event → List blackmagic_gate_event
  | [] => []
  | ev :: rest =>
    if ev.addr = p then
      (if wrap_int (ev.ref - 1) = 0 then rest
       else { ev with ref := wrap_int (ev.ref - 1) } :: rest)
    else
      ev :: put_event_bucket p rest

/-- The function `put_event`, given the pointer `p`.  It does not take the gate:
`hlist_del` unlinks the node from whichever bucket holds it. -/
def put_event (events : EventTable) (p : Nat) : EventTable :=
  fun i => put_event_bucket p (events i)

/-- The channel at address `p`, if the table holds it. -/
def find_event (events : EventTable) (p : Nat) : Option blackmagic_gate_event :=
  (List.finRange EVENT_TABLE_SIZE).findSome? (fun i => (events i).find? (fun ev => ev.addr = p))

/-- The table with the wait queue of the channel at address `p` replaced. -/
def set_wqh (events : EventTable) (p : Nat) (wqh : List Nat) : EventTable :=
  fun i => (events i).map (fun ev => if ev.addr = p then { ev with wqh := wqh } else ev)

/-! ## Threads -/

/-- Modelled from the spec: the scheduler state of a thread (`TASK_RUNNING`,
`TASK_INTERRUPTIBLE`, `TASK_UNINTERRUPTIBLE`) is kernel state, not among the
sources.  A thread that is not `TASK_RUNNING` when it yields is suspended
until a wake targeted at it. -/
inductive TaskState where
  | TASK_RUNNING
  | TASK_INTERRUPTIBLE
  | TASK_UNINTERRUPTIBLE
  deriving DecidableEq, Repr

/-- Where a thread stands between two atomic steps of the gate's code. -/
inductive Pc where
  /-- outside every gate function -/
  | idle
  /-- in `dl_gate_lock`, inside `schedule_timeout` -/
  | lock_wait
  /-- in `dl_gate_unlock`, running the bottom half with the lock dropped -/
  | unlock_bh
  /-- in `dl_gate_sleep`, in the bottom half of its `__dl_gate_unlock` -/
  | sleep_bh (event : Nat)
  /-- in `dl_gate_sleep`, inside `schedule()`, registered on the channel -/
  | sleep_wait (event : Nat)
  /-- in `dl_gate_sleep`, inside the `schedule_timeout` of its `__dl_gate_lock` -/
  | sleep_lock_wait (result : Int)
  /-- at the `return` of `dl_gate_sleep`, with the local `result` -/
  | sleep_ret (result : Int)
  /-- in `dl_gate_wakeup`, after the lookup, before the walk -/
  | wake_walk (event : Nat)
  /-- in `dl_gate_wakeup`, after the walk, before `put_event` -/
  | wake_put (event : Nat)
  deriving DecidableEq, Repr

/-- The part of a thread the gate's code reads and writes: its place in the
code, its scheduler state, `signal_pending(current)`, and the locals
`waiter.triggered` of `dl_gate_sleep` and `timeout` of `__dl_gate_lock`. -/
structure Task where
  pc : Pc
  state : TaskState
  signal_pending : Bool
  triggered : Bool
  timeout : Int
  deriving DecidableEq, Repr

/-- Modelled from the spec: `try_to_wake_up(task, TASK_NORMAL)` is a kernel
primitive, not among the sources.  It makes a thread that is not running
runnable and reports 1; on a running thread it reports 0. -/
def try_to_wake_up (tk : Task) : Task × Bool :=
  if tk.state = TaskState.TASK_RUNNING then (tk, false)
  else ({ tk with state := TaskState.TASK_RUNNING }, true)

/-- The loop of `dl_gate_wakeup` over the task list of a channel
(`list_for_each_safe`): each waiter met gets `triggered = true`, then its
wake function `curr->func` is called, and the loop is left as soon as that
call reports a non-zero value.  The wake function is the one `init_wait`
installs, `autoremove_wake_function`: `try_to_wake_up` on the thread, and on
success the entry is unlinked from the list.  The result is the threads and
the task list after the walk. -/
def wakeup_walk : List Nat → (Nat → Task) → (Nat → Task) × List Nat
  | [], tasks => (tasks, [])
  | w :: rest, tasks =>
    let marked := Function.update tasks w { tasks w with triggered := true }
    let woken := try_to_wake_up (marked w)
    if woken.2 then
      (Function.update marked w woken.1, rest)
    else
      let r := wakeup_walk rest (Function.update marked w woken.1)
      (r.1, w :: r.2)

/-- The test at the head of the wait loop of `dl_gate_sleep`, given
`waiter.triggered` and `signal_pending(current)`: `some result` when the loop
is left with that value of the local `result`, `none` when the thread goes to
`schedule()`. -/
def sleep_check (result : Int) (triggered signal_pending : Bool) : Option Int :=
  if triggered then some result
  else if !signal_pending then none
  else some (-ERESTARTSYS)

/-- The `return` statement of `dl_gate_sleep`. -/
def sleep_return (result : Int) : ThreadResult :=
  if result ≠ 0 then ThreadResult.THREAD_INTERRUPTED else ThreadResult.THREAD_AWAKENED

/-- The wait loop of `dl_gate_sleep` as a function of what the thread reads at
each pass, `(waiter.triggered, signal_pending(current))`, first pass first:
the value of the local `result` when the loop is left, `none` when the
passes listed all end in `schedule()`. -/
def sleep_loop (result : Int) : List (Bool × Bool) → Option Int
  | [] => none
  | (triggered, signal_pending) :: rest =>
    match sleep_check result triggered signal_pending with
    | some r => some r
    | none => sleep_loop result rest

/-! ## The interleaving model

The threads of the system take turns, one atomic step at a time.  A step is
a stretch of code under `gate->lock` (or under the channel lock alone, for
the walk of `dl_gate_wakeup`).  `holder`, `queued` and `granted` are history
variables: the caller that holds the gate, the waiters in the order in which
`__dl_gate_lock` appended them to `wait_list`, and the waiters in the order
in which they claimed a hand-off. -/

/-- The state of the gate and of the threads that use it. -/
structure GateSys where
  gate : blackmagic_gate
  task : Nat → Task
  holder : Option Nat
  queued : List Nat
  granted : List Nat

/-- A thread that has not called into the gate. -/
def Task.fresh : Task :=
  { pc := Pc.idle, state := TaskState.TASK_RUNNING, signal_pending := false,
    triggered := false, timeout := MAX_SCHEDULE_TIMEOUT }

/-- A freshly created gate that no thread has used yet. -/
def GateSys.init : GateSys :=
  { gate := dl_alloc_gate, task := fun _ => Task.fresh, holder := none,
    queued := [], granted := [] }

/-- Replace the record of thread `t`. -/
def GateSys.set_task (s : GateSys) (t : Nat) (tk : Task) : GateSys :=
  { s with task := Function.update s.task t tk }

/-- Move thread `t` to the place `pc`. -/
def GateSys.set_pc (s : GateSys) (t : Nat) (pc : Pc) : GateSys :=
  s.set_task t { s.task t with pc := pc }

/-- The threads after the calls to `wake_up_process` among `effects`. -/
def wake_effects : List Effect → (Nat → Task) → (Nat → Task)
  | [], tasks => tasks
  | Effect.wake_up_process w :: rest, tasks =>
    wake_effects rest (Function.update tasks w (try_to_wake_up (tasks w)).1)
  | _ :: rest, tasks => wake_effects rest tasks

/-- The second half of `__dl_gate_unlock` in the system: the caller stops being
the holder. -/
def GateSys.unlock_tail (s : GateSys) : GateSys :=
  let r := __dl_gate_unlock_tail s.gate
  { s with gate := r.1, task := wake_effects r.2 s.task, holder := none }

/-- The entry of `__dl_gate_lock` by thread `t`: on the fast path `t` holds the
gate and goes on at `done`; on the slow path its waiter is queued, the thread
sets `TASK_UNINTERRUPTIBLE`, drops the lock and suspends at `wait`. -/
def GateSys.lock_enter (s : GateSys) (t : Nat) (done wait : Pc) : GateSys :=
  let r := __dl_gate_lock_enter s.gate t
  if r.2 then
    { s with gate := r.1, holder := some t,
             task := Function.update s.task t
               { s.task t with pc := done, timeout := MAX_SCHEDULE_TIMEOUT } }
  else
    { s with gate := r.1, queued := s.queued ++ [t],
             task := Function.update s.task t
               { s.task t with pc := wait, state := TaskState.TASK_UNINTERRUPTIBLE,
                               timeout := MAX_SCHEDULE_TIMEOUT } }

/-- One pass of the loop of `__dl_gate_lock` by thread `t`, when
`schedule_timeout` returns after `elapsed`. -/
def GateSys.lock_resume (s : GateSys) (t : Nat) (elapsed : Nat) (done : Pc) : GateSys :=
  let timeout := schedule_timeout (s.task t).timeout elapsed
  let r := __dl_gate_lock_resume s.gate t timeout
  match r.2 with
  | LockPass.claimed =>
    { s with gate := r.1, holder := some t, granted := s.granted ++ [t],
             task := Function.update s.task t { s.task t with pc := done, timeout := timeout } }
  | LockPass.timed_out =>
    { s with gate := r.1,
             task := Function.update s.task t { s.task t with pc := done, timeout := timeout } }
  | LockPass.again =>
    { s with gate := r.1,
             task := Function.update s.task t
               { s.task t with state := TaskState.TASK_UNINTERRUPTIBLE, timeout := timeout } }

/-- The task list of the channel at address `p`. -/
def GateSys.wqh (s : GateSys) (p : Nat) : List Nat :=
  match find_event s.gate.events p with
  | some ev => ev.wqh
  | none => []

/-- Replace the task list of the channel at address `p`. -/
def GateSys.set_wqh (s : GateSys) (p : Nat) (wqh : List Nat) : GateSys :=
  { s with gate := { s.gate with events := Blackmagic.set_wqh s.gate.events p wqh } }

/-- The end of `dl_gate_sleep` once the wait loop is left with `result`:
`__remove_wait_queue`, `__set_current_state(TASK_RUNNING)`, `put_event` and
the entry of `__dl_gate_lock`. -/
def GateSys.sleep_exit (s : GateSys) (t : Nat) (p : Nat) (result : Int) : GateSys :=
  let s1 := s.set_wqh p ((s.wqh p).erase t)
  let s2 := s1.set_task t { s1.task t with state := TaskState.TASK_RUNNING }
  let s3 : GateSys := { s2 with gate := { s2.gate with events := put_event s2.gate.events p } }
  s3.lock_enter t (Pc.sleep_ret result) (Pc.sleep_lock_wait result)

/-- One pass of the wait loop of `dl_gate_sleep` by thread `t` on the channel at
`p`, from the head of the loop (both locks held) to `schedule()` or to the
end of the function: register the waiter if it is on no list, set
`TASK_INTERRUPTIBLE`, then `sleep_check`. -/
def GateSys.sleep_pass (s : GateSys) (t : Nat) (p : Nat) : GateSys :=
  let s1 := if t ∈ s.wqh p then s else s.set_wqh p (s.wqh p ++ [t])
  let s2 := s1.set_task t { s1.task t with state := TaskState.TASK_INTERRUPTIBLE }
  match sleep_check 0 (s2.task t).triggered (s2.task t).signal_pending with
  | none => s2.set_pc t (Pc.sleep_wait p)
  | some result => s2.sleep_exit t p result

/-- The start of `dl_gate_sleep` by thread `t`, which holds the gate:
`waiter.triggered = false`, `get_event(gate, key, true)`, and either the
`bail` path, or `__dl_gate_unlock` up to the point where it drops the lock
for the bottom half, or (no bottom half pending) the whole critical section
up to the first `schedule()`. -/
def GateSys.sleep_enter (hash_ptr : Nat → Fin EVENT_TABLE_SIZE) (s : GateSys) (t : Nat)
    (key : Nat) (kmalloc : Option Nat) : GateSys :=
  let s0 := s.set_task t { s.task t with triggered := false }
  let r := get_event hash_ptr s0.gate.events key true kmalloc
  match r.2 with
  | none => s0.set_pc t (Pc.sleep_ret (-ENOMEM))
  | some p =>
    let s1 : GateSys := { s0 with gate := { s0.gate with events := r.1 } }
    if s1.gate.run_bh_on_unlock then
      ({ s1 with gate := __dl_gate_unlock_clear s1.gate } : GateSys).set_pc t (Pc.sleep_bh p)
    else
      s1.unlock_tail.sleep_pass t p

/-- The walk of `dl_gate_wakeup` over the channel at `p`, under the channel
lock. -/
def GateSys.wakeup_channel (s : GateSys) (p : Nat) : GateSys :=
  let r := wakeup_walk (s.wqh p) s.task
  ({ s with task := r.1 } : GateSys).set_wqh p r.2

/-- The last critical section of `dl_gate_wakeup`: `put_event(event)`. -/
def GateSys.wakeup_put (s : GateSys) (p : Nat) : GateSys :=
  { s with gate := { s.gate with events := put_event s.gate.events p } }

/-- The function `dl_gate_wakeup` run without interference from other threads:
the lookup, and if it finds the channel, the walk and `put_event`. -/
def dl_gate_wakeup (hash_ptr : Nat → Fin EVENT_TABLE_SIZE) (s : GateSys) (key : Nat) : GateSys :=
  let r := get_event hash_ptr s.gate.events key false none
  let s1 : GateSys := { s with gate := { s.gate with events := r.1 } }
  match r.2 with
  | none => s1
  | some p => (s1.wakeup_channel p).wakeup_put p

/-- The atomic steps of the system, each named by the function that takes it and
the thread `t` that runs it. -/
inductive Action where
  /-- Step of `dl_gate_lock` up to its return or its first `schedule_timeout` -/
  | lock (t : Nat)
  /-- Step of `dl_gate_lock`: `schedule_timeout` returns after `elapsed` -/
  | lock_resume (t : Nat) (elapsed : Nat)
  /-- Step of `dl_gate_lock_interrupt` -/
  | lock_interrupt (t : Nat)
  /-- Step of `dl_gate_unlock` up to its return or to the bottom half -/
  | unlock (t : Nat)
  /-- Step of `dl_gate_unlock` from the relock after the bottom half -/
  | unlock_bh_done (t : Nat)
  /-- Step of `dl_gate_sleep(gate, key)` from its entry; `kmalloc` is the allocation -/
  | sleep (t : Nat) (key : Nat) (kmalloc : Option Nat)
  /-- Step of `dl_gate_sleep` from the relock after the bottom half -/
  | sleep_bh_done (t : Nat)
  /-- Step of `dl_gate_sleep`: `schedule()` returns -/
  | sleep_resume (t : Nat)
  /-- Step of `dl_gate_sleep`: the `schedule_timeout` of its `__dl_gate_lock` returns -/
  | sleep_lock_resume (t : Nat) (elapsed : Nat)
  /-- Step of `dl_gate_sleep` returns to its caller -/
  | sleep_return (t : Nat)
  /-- Step of `dl_gate_wakeup(gate, key)`: the lookup -/
  | wakeup (t : Nat) (key : Nat)
  /-- Step of `dl_gate_wakeup`: the walk under the channel lock -/
  | wakeup_walk (t : Nat)
  /-- Step of `dl_gate_wakeup`: the final `put_event` -/
  | wakeup_put (t : Nat)
  /-- a signal is sent to thread `t` -/
  | signal (t : Nat)
  deriving DecidableEq, Repr

/-- One atomic step; `none` when the step cannot be taken in `s`: the thread is
not at that place of the code, it is suspended, or (for `unlock` and `sleep`,
which only the holder may call) it does not hold the gate. -/
def GateSys.step (hash_ptr : Nat → Fin EVENT_TABLE_SIZE) (s : GateSys) : Action → Option GateSys
  | Action.lock t =>
    if (s.task t).pc = Pc.idle then some (s.lock_enter t Pc.idle Pc.lock_wait) else none
  | Action.lock_resume t elapsed =>
    if (s.task t).pc = Pc.lock_wait ∧ (s.task t).state = TaskState.TASK_RUNNING then
      some (s.lock_resume t elapsed Pc.idle)
    else none
  | Action.lock_interrupt t =>
    if (s.task t).pc = Pc.idle then
      let r := dl_gate_lock_interrupt s.gate
      some { s with gate := r.1, holder := if r.2 then some t else s.holder }
    else none
  | Action.unlock t =>
    if (s.task t).pc = Pc.idle ∧ s.holder = some t then
      if s.gate.run_bh_on_unlock then
        some (({ s with gate := __dl_gate_unlock_clear s.gate } : GateSys).set_pc t Pc.unlock_bh)
      else
        some s.unlock_tail
    else none
  | Action.unlock_bh_done t =>
    if (s.task t).pc = Pc.unlock_bh then some ((s.set_pc t Pc.idle).unlock_tail) else none
  | Action.sleep t key kmalloc =>
    if (s.task t).pc = Pc.idle ∧ s.holder = some t then
      some (s.sleep_enter hash_ptr t key kmalloc)
    else none
  | Action.sleep_bh_done t =>
    match (s.task t).pc with
    | Pc.sleep_bh p => some (s.unlock_tail.sleep_pass t p)
    | _ => none
  | Action.sleep_resume t =>
    match (s.task t).pc with
    | Pc.sleep_wait p =>
      if (s.task t).state = TaskState.TASK_RUNNING then some (s.sleep_pass t p) else none
    | _ => none
  | Action.sleep_lock_resume t elapsed =>
    match (s.task t).pc with
    | Pc.sleep_lock_wait result =>
      if (s.task t).state = TaskState.TASK_RUNNING then
        some (s.lock_resume t elapsed (Pc.sleep_ret result))
      else none
    | _ => none
  | Action.sleep_return t =>
    match (s.task t).pc with
    | Pc.sleep_ret _ => some (s.set_pc t Pc.idle)
    | _ => none
  | Action.wakeup t key =>
    if (s.task t).pc = Pc.idle then
      let r := get_event hash_ptr s.gate.events key false none
      let s1 : GateSys := { s with gate := { s.gate with events := r.1 } }
      match r.2 with
      | none => some s1
      | some p => some (s1.set_pc t (Pc.wake_walk p))
    else none
  | Action.wakeup_walk t =>
    match (s.task t).pc with
    | Pc.wake_walk p => some ((s.wakeup_channel p).set_pc t (Pc.wake_put p))
    | _ => none
  | Action.wakeup_put t =>
    match (s.task t).pc with
    | Pc.wake_put p => some ((s.wakeup_put p).set_pc t Pc.idle)
    | _ => none
  | Action.signal t =>
    some (s.set_task t
      { s.task t with
        signal_pending := true,
        state := if (s.task t).state = TaskState.TASK_INTERRUPTIBLE then TaskState.TASK_RUNNING
                 else (s.task t).state })

/-- The state after the steps `acts`, taken in order from `s`; `none` if one of
them cannot be taken. -/
def GateSys.run (hash_ptr : Nat → Fin EVENT_TABLE_SIZE) (s : GateSys) : List Action → Option GateSys
  | [] => some s
  | a :: rest =>
    match s.step hash_ptr a with
    | some s1 => GateSys.run hash_ptr s1 rest
    | none => none

/-- A bucket index for the examples: the key modulo the table size. -/
def hash_mod (key : Nat) : Fin EVENT_TABLE_SIZE :=
  ⟨key % 64, Nat.mod_lt key (by decide)⟩

/-! ## Histories of the event table

The registry on its own: the table together with the references that
`get_event` has returned and `put_event` has not yet taken back. -/

/-- One call on the event table. -/
inductive RegOp where
  /-- Call `get_event(gate, key, true)`; `kmalloc` is the allocation if it is reached -/
  | get_or_create (key : Nat) (kmalloc : Option Nat)
  /-- Call `get_event(gate, key, false)` -/
  | lookup (key : Nat)
  /-- Call `put_event(p)` -/
  | release (p : Nat)
  deriving DecidableEq, Repr

/-- The event table and the outstanding references, each a pair of the key that
was asked for and the pointer that was returned. -/
structure Registry where
  events : EventTable
  refs : List (Nat × Nat)

/-- The empty table of a new gate, with no reference handed out. -/
def Registry.init : Registry :=
  { events := dl_alloc_gate.events, refs := [] }

/-- The number of outstanding references to the channel of `key`. -/
def outstanding (refs : List (Nat × Nat)) (key : Nat) : Nat :=
  refs.countP (fun x => x.1 = key)

/-- The registry after a call of `get_event`: a returned pointer is one more
outstanding reference. -/
def Registry.get (hash_ptr : Nat → Fin EVENT_TABLE_SIZE) (r : Registry) (key : Nat)
    (create : Bool) (kmalloc : Option Nat) : Registry :=
  let g := get_event hash_ptr r.events key create kmalloc
  { events := g.1,
    refs := match g.2 with
      | some p => r.refs ++ [(key, p)]
      | none => r.refs }

/-- Whether `kmalloc` may return this: it fails, or it returns the address of
no object that is still allocated. -/
def kmalloc_ok (events : EventTable) : Option Nat → Bool
  | none => true
  | some a => (find_event events a).isNone

/-- One call on the registry; `none` when the call cannot happen: a `release` of
a pointer that is not an outstanding reference, or an allocation that
returns an address still in use. -/
def Registry.step (hash_ptr : Nat → Fin EVENT_TABLE_SIZE) (r : Registry) : RegOp → Option Registry
  | RegOp.get_or_create key kmalloc =>
    if kmalloc_ok r.events kmalloc then some (r.get hash_ptr key true kmalloc) else none
  | RegOp.lookup key => some (r.get hash_ptr key false none)
  | RegOp.release p =>
    match r.refs.find? (fun x => x.2 = p) with
    | some x => some { events := put_event r.events p, refs := r.refs.erase x }
    | none => none

/-- The registry after the calls `ops`, in order; `none` if one cannot happen. -/
def Registry.run (hash_ptr : Nat → Fin EVENT_TABLE_SIZE) (r : Registry) : List RegOp → Option Registry
  | [] => some r
  | op :: rest =>
    match r.step hash_ptr op with
    | some r1 => Registry.run hash_ptr r1 rest
    | none => none

/-- Whether the number of outstanding references to each channel is one that
the `int ref` of the channel can hold: at most `INT_MAX`. -/
def Registry.in_range (r : Registry) : Bool :=
  r.refs.all (fun x => decide (outstanding r.refs x.1 ≤ INT_MAX))

/-- Whether the registry stays in range all along the calls `ops`: at the
start, after every call, and at the end. -/
def Registry.bounded (hash_ptr : Nat → Fin EVENT_TABLE_SIZE) (r : Registry) : List RegOp → Bool
  | [] => r.in_range
  | op :: rest =>
    r.in_range &&
      match r.step hash_ptr op with
      | some r1 => Registry.bounded hash_ptr r1 rest
      | none => true

/-! ## Example executions -/

/-- A trace of the system: thread 0 takes the gate, a `dl_gate_lock_interrupt`
from another context fails and sets `run_bh_on_unlock`, thread 0 calls
`dl_gate_sleep` on key 7, and while its `__dl_gate_unlock` runs the bottom
half a whole `dl_gate_wakeup` on key 7 goes by; then thread 0 goes on. -/
def lost_wakeup_trace : List Action :=
  [Action.lock 0, Action.lock_interrupt 9, Action.sleep 0 7 (some 100),
   Action.wakeup 1 7, Action.wakeup_walk 1, Action.wakeup_put 1, Action.sleep_bh_done 0]

/-- A trace of the system: threads 0 and 1 each take the gate and call
`dl_gate_sleep` on key 7, so that both are suspended on the channel; then
thread 2 runs a whole `dl_gate_wakeup` on key 7. -/
def broadcast_trace : List Action :=
  [Action.lock 0, Action.sleep 0 7 (some 100), Action.lock 1, Action.sleep 1 7 none,
   Action.wakeup 2 7, Action.wakeup_walk 2, Action.wakeup_put 2]

/-- A thread suspended in the `schedule()` of `dl_gate_sleep` on the channel at
`p`, not yet triggered. -/
def Task.blocked (p : Nat) : Task :=
  { pc := Pc.sleep_wait p, state := TaskState.TASK_INTERRUPTIBLE, signal_pending := false,
    triggered := false, timeout := MAX_SCHEDULE_TIMEOUT }

/-! ## The invariant of the gate -/

/-- Whether a thread at this place of the code is the holder of the gate: inside
the bottom half of a release it has begun, or at the `return` of
`dl_gate_sleep`. -/
def Pc.needs_gate : Pc → Bool
  | Pc.unlock_bh => true
  | Pc.sleep_bh _ => true
  | Pc.sleep_ret _ => true
  | _ => false

/-- The part of the invariant that speaks of the gate alone: `count` is 0 or 1;
while a caller holds the gate `count` is 0 and the hand-off slot is empty; while
`count` is 1 nobody waits, nobody is designated and nobody holds the gate; the
waiters queued so far are, in order, those that claimed the gate, then the
designated one, then those on `wait_list`; and every wait is unbounded. -/
structure GateSys.Inv0 (s : GateSys) : Prop where
  count_le : s.gate.count ≤ 1
  held : ∀ t, s.holder = some t → s.gate.count = 0 ∧ s.gate.next = none
  free : s.gate.count = 1 → s.gate.wait_list = [] ∧ s.gate.next = none ∧ s.holder = none
  fifo : s.queued = s.granted ++ s.gate.next.toList ++ s.gate.wait_list
  tmo : ∀ t, (s.task t).timeout = MAX_SCHEDULE_TIMEOUT

/-- Thread `t` holds the gate if its place in the code says so. -/
def GateSys.PcOk (s : GateSys) (t : Nat) : Prop :=
  (s.task t).pc.needs_gate = true → s.holder = some t

/-- The invariant of the system. -/
def GateSys.Inv (s : GateSys) : Prop :=
  s.Inv0 ∧ ∀ t, s.PcOk t

/-- The state `s1` differs from `s` at most in the event table, in
`run_bh_on_unlock` and in the scheduler state, signal and `triggered` flag of
threads. -/
def GateSys.Frame (s s1 : GateSys) : Prop :=
  s1.gate.count = s.gate.count ∧ s1.gate.wait_list = s.gate.wait_list ∧
  s1.gate.next = s.gate.next ∧ s1.holder = s.holder ∧
  s1.queued = s.queued ∧ s1.granted = s.granted ∧
  ∀ t, (s1.task t).pc = (s.task t).pc ∧ (s1.task t).timeout = (s.task t).timeout

/-- A trace of the system: thread 0 holds the gate, threads 1 and 2 queue behind
it in that order; thread 0 releases (the hand-off goes to 1), a
`dl_gate_lock_interrupt` from context 9 displaces the hand-off and later
releases; then 1 and 2 claim the gate in turn. -/
def fifo_trace : List Action :=
  [Action.lock 0, Action.lock 1, Action.lock 2, Action.unlock 0, Action.lock_interrupt 9,
   Action.lock_resume 1 0, Action.unlock 9, Action.lock_resume 1 0, Action.unlock 1,
   Action.lock_resume 2 0]

/-- A trace of the system: thread 0 takes the gate and sleeps on key 7, thread 1
wakes the key, and thread 0 comes back from `dl_gate_sleep`. -/
def awakened_trace : List Action :=
  [Action.lock 0, Action.sleep 0 7 (some 100), Action.wakeup 1 7, Action.wakeup_walk 1,
   Action.wakeup_put 1, Action.sleep_resume 0]

/-- A trace of the system: thread 0 takes the gate and sleeps on key 7; thread 1
takes the gate meanwhile; a signal makes thread 0 leave the wait loop and queue
for the gate, which it gets by hand-off when thread 1 releases. -/
def interrupted_trace : List Action :=
  [Action.lock 0, Action.sleep 0 7 (some 100), Action.lock 1, Action.signal 0,
   Action.sleep_resume 0, Action.unlock 1, Action.sleep_lock_resume 0 0]

/-- A trace of the system: thread 0 takes the gate and calls `dl_gate_sleep` on
key 7, and the allocation of the channel fails. -/
def enomem_trace : List Action :=
  [Action.lock 0, Action.sleep 0 7 none]

/-! ## The invariant of the event table -/

/-- What a hit of `get_event` on `key` does to a channel: `++ev->ref` on the
channel of the key, nothing on another. -/
def bump (key : Nat) (ev : blackmagic_gate_event) : blackmagic_gate_event :=
  if ev.event = key then { ev with ref := wrap_int (ev.ref + 1) } else ev

/-- What `put_event(p)` does to a channel: the one at address `p` loses a
reference and goes when that was the last, another stays as it is. -/
def drop (p : Nat) (ev : blackmagic_gate_event) : Option blackmagic_gate_event :=
  if ev.addr = p then
    (if wrap_int (ev.ref - 1) = 0 then none else some { ev with ref := wrap_int (ev.ref - 1) })
  else some ev

/-- The invariant of the registry: every channel sits in the bucket of its key;
no bucket holds two channels of one key; an address belongs to one channel;
every outstanding reference points to the channel of its key; and `ref` of a
channel is the number of outstanding references to it, which is positive. -/
structure Registry.Inv (hash_ptr : Nat → Fin EVENT_TABLE_SIZE) (r : Registry) : Prop where
  placed : ∀ i, ∀ ev ∈ r.events i, hash_ptr ev.event = i
  keys : ∀ i, ((r.events i).map (fun ev => ev.event)).Nodup
  addrs : ∀ i j, ∀ e1 ∈ r.events i, ∀ e2 ∈ r.events j, e1.addr = e2.addr → e1.event = e2.event
  refs_live : ∀ x ∈ r.refs, ∃ ev ∈ r.events (hash_ptr x.1), ev.event = x.1 ∧ ev.addr = x.2
  counted : ∀ i, ∀ ev ∈ r.events i, ev.ref = (outstanding r.refs ev.event : Int) ∧ 0 < ev.ref

/-- A history of the registry: a channel for key 7 is created and looked up, one
for key 8 is created, both references to the first are put back, and a key
without a channel is looked up. -/
def registry_trace : List RegOp :=
  [RegOp.get_or_create 7 (some 100), RegOp.lookup 7, RegOp.get_or_create 8 (some 101),
   RegOp.release 100, RegOp.release 100, RegOp.lookup 9]

/-- Whether a thread at this place of the code is suspended in the loop of
`__dl_gate_lock`, its waiter queued or designated. -/
def Pc.waiting : Pc → Bool
  | Pc.lock_wait => true
  | Pc.sleep_lock_wait _ => true
  | _ => false

/-- The waiters the gate knows: the designated one, then the wait list. -/
def blackmagic_gate.waiters (gate : blackmagic_gate) : List Nat :=
  gate.next.toList ++ gate.wait_list

/-- The second part of the invariant: no waiter is known to the gate twice, and
every waiter known to the gate belongs to a thread suspended in
`__dl_gate_lock`. -/
structure GateSys.Inv1 (s : GateSys) : Prop where
  nodup : s.gate.waiters.Nodup
  waiting : ∀ w ∈ s.gate.waiters, (s.task w).pc.waiting = true

/-! # The serial port (`blackmagic_serial.c`)

The ring buffers of the serial port and its open state.  Pointers into
`buffer->data` are offsets from its start. -/

/-- Modelled from the spec: `EBUSY` comes from the kernel's errno headers, which
are not among the sources; it is error number 16. -/
def EBUSY : Int := 16

/-- Modelled from the spec: `ENODEV` comes from the kernel's errno headers, which
are not among the sources; it is error number 19. -/
def ENODEV : Int := 19

/-- Modelled from the spec: `enum blackmagic_serial_open_states` is declared in
`blackmagic_core.h`, which is not among the sources; the code names these
three states. -/
inductive blackmagic_serial_open_states where
  | PORT_CLOSED
  | PORT_OPEN_TTY
  | PORT_OPEN_IOCTL
  deriving DecidableEq, Repr

/-- Modelled from the spec: `struct blackmagic_serial_buffer` is declared in
`blackmagic_core.h`, which is not among the sources; the code uses the byte
array `data`, the counter `available_bytes` and the pointers `end`, `next`
(where the next byte is stored) and `last` (the oldest byte stored).  The
field `end` is called `end_` here. -/
structure blackmagic_serial_buffer where
  data : Nat → Nat
  available_bytes : Int
  end_ : Nat
  next : Nat
  last : Nat

/-- Modelled from the spec: `struct blackmagic_serial` is declared in
`blackmagic_core.h`, which is not among the sources; these are the fields the
code of the ring buffers and of open and close uses. -/
structure blackmagic_serial where
  open_state : blackmagic_serial_open_states
  tx_interrupt_pending : Int
  write_buffer : blackmagic_serial_buffer
  read_buffer : blackmagic_serial_buffer

/-- The function `test_and_change_open_state`. -/
def test_and_change_open_state (sdev : blackmagic_serial)
    (required_state new_state : blackmagic_serial_open_states) : blackmagic_serial × Int :=
  if sdev.open_state = required_state then
    ({ sdev with open_state := new_state }, 0)
  else
    (sdev, -EBUSY)

/-- What `blackmagic_serial_reset_buffers` does to one buffer.  The `memset`
clears `sizeof(BLACKMAGIC_SERIAL_BUFFER_SIZE)` bytes, the size of an `int`. -/
def reset_buffer (BLACKMAGIC_SERIAL_BUFFER_SIZE : Nat) (buffer : blackmagic_serial_buffer) :
    blackmagic_serial_buffer :=
  { data := fun i => if i < 4 then 0 else buffer.data i,
    available_bytes := 0,
    end_ := BLACKMAGIC_SERIAL_BUFFER_SIZE,
    next := 0,
    last := 0 }

/-- The function `blackmagic_serial_reset_buffers`. -/
def blackmagic_serial_reset_buffers (BLACKMAGIC_SERIAL_BUFFER_SIZE : Nat)
    (sdev : blackmagic_serial) : blackmagic_serial :=
  { sdev with
    write_buffer := reset_buffer BLACKMAGIC_SERIAL_BUFFER_SIZE sdev.write_buffer,
    read_buffer := reset_buffer BLACKMAGIC_SERIAL_BUFFER_SIZE sdev.read_buffer }

/-- The function `blackmagic_serial_open_common`; `tty` says whether the `tty`
argument is not `NULL`. -/
def blackmagic_serial_open_common (sdev : blackmagic_serial) (tty : Bool) :
    blackmagic_serial × Int :=
  let r := test_and_change_open_state sdev blackmagic_serial_open_states.PORT_CLOSED
    (if tty then blackmagic_serial_open_states.PORT_OPEN_TTY
     else blackmagic_serial_open_states.PORT_OPEN_IOCTL)
  if r.2 < 0 then r
  else ({ r.1 with tx_interrupt_pending := 0 }, r.2)

/-- The function `blackmagic_serial_close_common`. -/
def blackmagic_serial_close_common (BLACKMAGIC_SERIAL_BUFFER_SIZE : Nat)
    (sdev : blackmagic_serial) (state : blackmagic_serial_open_states) :
    blackmagic_serial × Int :=
  let r := test_and_change_open_state sdev state blackmagic_serial_open_states.PORT_CLOSED
  if r.2 < 0 then r
  else (blackmagic_serial_reset_buffers BLACKMAGIC_SERIAL_BUFFER_SIZE r.1, r.2)

/-- The step of a ring pointer: `p + 1`, or the start of `data` when that
reaches `end`. -/
def ring_next (end_ p : Nat) : Nat :=
  if p + 1 ≥ end_ then 0 else p + 1

/-- The loop of `blackmagic_serial_setup_tx`, with `fuel` passes left before
`tx_bytes` reaches `BLACKMAGIC_HW_TX_SIZE`: the buffer after the loop and the
bytes given to `blackmagic_serial_write_byte_priv`, in order. -/
def setup_tx_loop : Nat → blackmagic_serial_buffer → blackmagic_serial_buffer × List Nat
  | 0, buffer => (buffer, [])
  | fuel + 1, buffer =>
    if buffer.last = buffer.next then (buffer, [])
    else
      let r := setup_tx_loop fuel { buffer with last := ring_next buffer.end_ buffer.last }
      (r.1, buffer.data buffer.last :: r.2)

/-- The function `blackmagic_serial_setup_tx`: the device after the call and the
bytes written to the hardware registers, in order (the transfer size written
after them is their number less one). -/
def blackmagic_serial_setup_tx (BLACKMAGIC_HW_TX_SIZE : Nat) (sdev : blackmagic_serial) :
    blackmagic_serial × List Nat :=
  if sdev.tx_interrupt_pending ≠ 0 then (sdev, [])
  else
    let r := setup_tx_loop BLACKMAGIC_HW_TX_SIZE sdev.write_buffer
    if r.2.length = 0 then ({ sdev with write_buffer := r.1 }, [])
    else
      ({ sdev with
          write_buffer := { r.1 with
            available_bytes := r.1.available_bytes - (r.2.length : Int) },
          tx_interrupt_pending := 1 }, r.2)

/-- The function `blackmagic_serial_tx_interrupt` on a device that was found. -/
def blackmagic_serial_tx_interrupt (BLACKMAGIC_HW_TX_SIZE : Nat) (sdev : blackmagic_serial)
    (continue_tx : Int) : blackmagic_serial × List Nat :=
  if sdev.open_state = blackmagic_serial_open_states.PORT_CLOSED then (sdev, [])
  else
    let s1 := { sdev with tx_interrupt_pending := 0 }
    if continue_tx ≠ 0 then blackmagic_serial_setup_tx BLACKMAGIC_HW_TX_SIZE s1
    else (s1, [])

/-- The loop of `blackmagic_serial_enqueue_data` with `fuel` passes left before
`write_bytes` reaches `count`; `src` is the caller's array and `write_bytes`
the number of bytes copied so far. -/
def enqueue_loop (src : Nat → Nat) :
    Nat → Nat → blackmagic_serial_buffer → blackmagic_serial_buffer × Nat
  | 0, write_bytes, buffer => (buffer, write_bytes)
  | fuel + 1, write_bytes, buffer =>
    if ring_next buffer.end_ buffer.next = buffer.last then (buffer, write_bytes)
    else
      enqueue_loop src fuel (write_bytes + 1)
        { buffer with
          data := Function.update buffer.data buffer.next (src write_bytes),
          next := ring_next buffer.end_ buffer.next }

/-- The function `blackmagic_serial_enqueue_data` on a device that was found:
the device after the call, the value returned, and the bytes written to the
hardware registers. -/
def blackmagic_serial_enqueue_data (BLACKMAGIC_HW_TX_SIZE : Nat) (sdev : blackmagic_serial)
    (src : Nat → Nat) (count : Int) : blackmagic_serial × Int × List Nat :=
  let r := enqueue_loop src count.toNat 0 sdev.write_buffer
  let s1 := { sdev with
    write_buffer := { r.1 with available_bytes := r.1.available_bytes + (r.2 : Int) } }
  if r.2 = 0 then (s1, 0, [])
  else
    let t := blackmagic_serial_setup_tx BLACKMAGIC_HW_TX_SIZE s1
    (t.1, (r.2 : Int), t.2)

/-- The function `blackmagic_serial_write_room` on a device that was found. -/
def blackmagic_serial_write_room (BLACKMAGIC_SERIAL_BUFFER_SIZE : Nat)
    (sdev : blackmagic_serial) : Int :=
  if sdev.open_state = blackmagic_serial_open_states.PORT_CLOSED then -ENODEV
  else if sdev.open_state = blackmagic_serial_open_states.PORT_OPEN_IOCTL then -EBUSY
  else (BLACKMAGIC_SERIAL_BUFFER_SIZE : Int) - 1 - sdev.write_buffer.available_bytes

/-- The number of bytes between `last` and `next`, modulo the size of the ring. -/
def ring_used (end_ next last : Nat) : Nat :=
  (next + end_ - last) % end_

/-- The `n` bytes of the ring `data` from the pointer `p` on, oldest first. -/
def ring_read (data : Nat → Nat) (end_ : Nat) : Nat → Nat → List Nat
  | 0, _ => []
  | n + 1, p => data p :: ring_read data end_ n (ring_next end_ p)

/-- The number of bytes stored in a buffer, from its pointers. -/
def blackmagic_serial_buffer.used (buffer : blackmagic_serial_buffer) : Nat :=
  ring_used buffer.end_ buffer.next buffer.last

/-- The bytes stored in a buffer, oldest first. -/
def blackmagic_serial_buffer.stored (buffer : blackmagic_serial_buffer) : List Nat :=
  ring_read buffer.data buffer.end_ buffer.used buffer.last

/-- One call on the write side of the serial port. -/
inductive SerialOp where
  /-- Call `blackmagic_serial_enqueue_data(dev, src, count)` -/
  | enqueue (src : Nat → Nat) (count : Int)
  /-- Call `blackmagic_serial_setup_tx(sdev)` -/
  | setup_tx
  /-- Call `blackmagic_serial_tx_interrupt(driver, continue_tx)` -/
  | tx_interrupt (continue_tx : Int)

/-- The serial port with two history variables: the bytes that
`blackmagic_serial_enqueue_data` has taken from its callers so far, and the
bytes written to the hardware so far, both in order. -/
structure SerialSys where
  sdev : blackmagic_serial
  accepted : List Nat
  sent : List Nat

/-- The port just after `blackmagic_serial_reset_buffers`, its other fields as
in `sdev`. -/
def SerialSys.init (BLACKMAGIC_SERIAL_BUFFER_SIZE : Nat) (sdev : blackmagic_serial) :
    SerialSys :=
  { sdev := blackmagic_serial_reset_buffers BLACKMAGIC_SERIAL_BUFFER_SIZE sdev,
    accepted := [], sent := [] }

/-- One call on the write side. -/
def SerialSys.step (BLACKMAGIC_HW_TX_SIZE : Nat) (s : SerialSys) : SerialOp → SerialSys
  | SerialOp.enqueue src count =>
    let r := blackmagic_serial_enqueue_data BLACKMAGIC_HW_TX_SIZE s.sdev src count
    { sdev := r.1,
      accepted := s.accepted ++ (List.range r.2.1.toNat).map src,
      sent := s.sent ++ r.2.2 }
  | SerialOp.setup_tx =>
    let r := blackmagic_serial_setup_tx BLACKMAGIC_HW_TX_SIZE s.sdev
    { s with sdev := r.1, sent := s.sent ++ r.2 }
  | SerialOp.tx_interrupt continue_tx =>
    let r := blackmagic_serial_tx_interrupt BLACKMAGIC_HW_TX_SIZE s.sdev continue_tx
    { s with sdev := r.1, sent := s.sent ++ r.2 }

/-- The port after the calls `ops`, in order. -/
def SerialSys.run (BLACKMAGIC_HW_TX_SIZE : Nat) (s : SerialSys) : List SerialOp → SerialSys
  | [] => s
  | op :: rest => SerialSys.run BLACKMAGIC_HW_TX_SIZE (s.step BLACKMAGIC_HW_TX_SIZE op) rest

/-- The invariant of the write buffer: `end` is the end of `data`, both pointers
are inside `data`, `available_bytes` is the number of bytes between `last` and
`next`, and the bytes taken from the callers are those already written to the
hardware followed by those stored. -/
structure SerialSys.Inv (BLACKMAGIC_SERIAL_BUFFER_SIZE : Nat) (s : SerialSys) : Prop where
  end_eq : s.sdev.write_buffer.end_ = BLACKMAGIC_SERIAL_BUFFER_SIZE
  next_lt : s.sdev.write_buffer.next < BLACKMAGIC_SERIAL_BUFFER_SIZE
  last_lt : s.sdev.write_buffer.last < BLACKMAGIC_SERIAL_BUFFER_SIZE
  counted : s.sdev.write_buffer.available_bytes = (s.sdev.write_buffer.used : Int)
  fifo : s.accepted = s.sent ++ s.sdev.write_buffer.stored

/-- A port for the examples: closed, nothing pending, buffers not yet set up. -/
def serial_example (open_state : blackmagic_serial_open_states) : blackmagic_serial :=
  { open_state := open_state, tx_interrupt_pending := 0,
    write_buffer := { data := fun _ => 0, available_bytes := 0, end_ := 0, next := 0, last := 0 },
    read_buffer := { data := fun _ => 0, available_bytes := 0, end_ := 0, next := 0, last := 0 } }

/-- The pointers and the counter of a buffer agree: `end` is the end of `data`,
`next` and `last` are inside `data`, and `available_bytes` is the number of
bytes between `last` and `next`. -/
def blackmagic_serial_buffer.Ok (BLACKMAGIC_SERIAL_BUFFER_SIZE : Nat)
    (buffer : blackmagic_serial_buffer) : Prop :=
  buffer.end_ = BLACKMAGIC_SERIAL_BUFFER_SIZE ∧ buffer.next < BLACKMAGIC_SERIAL_BUFFER_SIZE ∧
  buffer.last < BLACKMAGIC_SERIAL_BUFFER_SIZE ∧ buffer.available_bytes = (buffer.used : Int)

end Blackmagic

/-! ## Theorems -/

namespace Blackmagic

/-! ### `dl_gate_lock_interrupt` -/

theorem to_int_pred_nonneg (c : Nat) (h0 : 0 < c) (h : c ≤ 2 ^ 31) :
    to_int ((c + UINT_MOD - 1) % UINT_MOD) = ((c - 1 : Nat) : Int) := by
  have h1 : (c + UINT_MOD - 1) % UINT_MOD = c - 1 := by
    unfold UINT_MOD
    have : c + 2 ^ 32 - 1 = (c - 1) + 2 ^ 32 := by omega
    rw [this, Nat.add_mod_right, Nat.mod_eq_of_lt (by omega)]
  rw [h1]
  unfold to_int
  rw [if_pos (by omega)]

theorem to_int_pred_zero : to_int ((0 + UINT_MOD - 1) % UINT_MOD) = -1 := by
  decide

/-- The reach of the conversion `int count = gate->count - 1`: at a `count` above
`2 ^ 31`, a value that no gate takes (`count` is 0 or 1 on every run, see
`GateSys.count_le_of_run`), the `int` is negative and the call takes the path of
a held gate. -/
theorem lock_interrupt_wrapped_count :
    (dl_gate_lock_interrupt { dl_alloc_gate with count := 2147483649 }).2 = false ∧
    ¬ (({ dl_alloc_gate with count := 2147483649 } : blackmagic_gate).count = 0 ∧
       ({ dl_alloc_gate with count := 2147483649 } : blackmagic_gate).next = none) ∧
    (dl_gate_lock_interrupt { dl_alloc_gate with count := 2147483649 }).1.count = 2147483649 := by
  decide

theorem lock_interrupt_pos (gate : blackmagic_gate) (h0 : 0 < gate.count)
    (h : gate.count ≤ 2 ^ 31) :
    dl_gate_lock_interrupt gate = ({ gate with count := gate.count - 1 }, true) := by
  have e := to_int_pred_nonneg gate.count h0 h
  simp only [dl_gate_lock_interrupt, e]
  simp

theorem lock_interrupt_steal (gate : blackmagic_gate) (w : Nat) (h0 : gate.count = 0)
    (hn : gate.next = some w) :
    dl_gate_lock_interrupt gate =
      ({ gate with wait_list := w :: gate.wait_list, next := none }, true) := by
  have e : to_int ((gate.count + UINT_MOD - 1) % UINT_MOD) = -1 := by
    rw [h0]; exact to_int_pred_zero
  simp only [dl_gate_lock_interrupt, e, hn]
  simp

theorem lock_interrupt_fail (gate : blackmagic_gate) (h0 : gate.count = 0)
    (hn : gate.next = none) :
    dl_gate_lock_interrupt gate = ({ gate with run_bh_on_unlock := true }, false) := by
  have e : to_int ((gate.count + UINT_MOD - 1) % UINT_MOD) = -1 := by
    rw [h0]; exact to_int_pred_zero
  simp only [dl_gate_lock_interrupt, e, hn]
  simp

/-- C9: for every gate whose `count` is one that the `int` of the function
holds, at most `2 ^ 31`, which is so in every state a gate takes (there `count` is
0 or 1, see `GateSys.count_le_of_run`), `dl_gate_lock_interrupt` returns false
exactly when `count` is 0 and the hand-off slot is empty; when it returns false it
sets `run_bh_on_unlock` and leaves `count`, the wait list and the hand-off slot as
they were; when `count > 0` it returns true, takes exactly one from `count` and
leaves `run_bh_on_unlock`, the wait list and the hand-off slot as they were. -/
theorem lock_interrupt_result (gate : blackmagic_gate) (h : gate.count ≤ 2 ^ 31) :
    ((dl_gate_lock_interrupt gate).2 = false ↔ gate.count = 0 ∧ gate.next = none) ∧
    ((dl_gate_lock_interrupt gate).2 = false →
      (dl_gate_lock_interrupt gate).1.run_bh_on_unlock = true ∧
      (dl_gate_lock_interrupt gate).1.count = gate.count ∧
      (dl_gate_lock_interrupt gate).1.wait_list = gate.wait_list ∧
      (dl_gate_lock_interrupt gate).1.next = gate.next) ∧
    (0 < gate.count →
      (dl_gate_lock_interrupt gate).2 = true ∧
      (dl_gate_lock_interrupt gate).1.count + 1 = gate.count ∧
      (dl_gate_lock_interrupt gate).1.run_bh_on_unlock = gate.run_bh_on_unlock ∧
      (dl_gate_lock_interrupt gate).1.wait_list = gate.wait_list ∧
      (dl_gate_lock_interrupt gate).1.next = gate.next) := by
  rcases Nat.eq_zero_or_pos gate.count with h0 | h0
  · cases hn : gate.next with
    | none =>
      rw [lock_interrupt_fail gate h0 hn]
      simp [h0, hn]
    | some w =>
      rw [lock_interrupt_steal gate w h0 hn]
      simp [h0, hn]
  · rw [lock_interrupt_pos gate h0 h]
    have hne : gate.count ≠ 0 := by omega
    simp [hne]
    omega

/-- C9 at a gate that is held with nobody designated. -/
theorem lock_interrupt_result_witness :
    ((dl_gate_lock_interrupt { dl_alloc_gate with count := 0 }).2 = false ↔
      ({ dl_alloc_gate with count := 0 } : blackmagic_gate).count = 0 ∧
      ({ dl_alloc_gate with count := 0 } : blackmagic_gate).next = none) :=
  (lock_interrupt_result { dl_alloc_gate with count := 0 } (by decide)).1

/-! ### `__dl_gate_unlock` and the deferred hook -/

theorem unlock_tail_effects (g : blackmagic_gate) :
    ∀ e ∈ (__dl_gate_unlock_tail g).2, ∃ w, e = Effect.wake_up_process w := by
  intro e he
  unfold __dl_gate_unlock_tail at he
  cases hw : g.wait_list with
  | nil => simp [hw] at he
  | cons w rest =>
    simp [hw] at he
    exact ⟨w, he⟩

theorem unlock_tail_no_tasklet (g : blackmagic_gate) :
    (__dl_gate_unlock_tail g).2.countP Effect.is_tasklet = 0 := by
  unfold __dl_gate_unlock_tail
  cases g.wait_list <;> simp [Effect.is_tasklet]

/-- C10: for a gate with a bound device, `__dl_gate_unlock` (the release of
`dl_gate_unlock` and of `dl_gate_sleep`) calls the deferred-dispatch hook exactly
once when `run_bh_on_unlock` is set on entry and not at all when it is clear; the
call is the first effect and sees the flag already cleared and `count`, the wait
list and the hand-off slot still as on entry, the increment or hand-off being done
afterwards on the gate as found at the relock; and `schedule_work` is called exactly
when the hook ran and its status has a bit of `DL_INTERRUPT_SCHED_WORK`. -/
theorem unlock_hook_once (DL_INTERRUPT_SCHED_WORK : Nat) (dl_tasklet_handler_gated : Nat → Nat)
    (window : blackmagic_gate → blackmagic_gate) (gate : blackmagic_gate)
    (dev : blackmagic_device) (hdev : gate.dev = some dev) :
    ((__dl_gate_unlock DL_INTERRUPT_SCHED_WORK dl_tasklet_handler_gated window gate).2.countP
        Effect.is_tasklet = if gate.run_bh_on_unlock then 1 else 0) ∧
    (gate.run_bh_on_unlock = true →
      ∃ rest, (__dl_gate_unlock DL_INTERRUPT_SCHED_WORK dl_tasklet_handler_gated window gate).2 =
        Effect.tasklet dev.driver gate.count gate.wait_list gate.next false :: rest) ∧
    (Effect.schedule_work dev.work ∈
        (__dl_gate_unlock DL_INTERRUPT_SCHED_WORK dl_tasklet_handler_gated window gate).2 ↔
      gate.run_bh_on_unlock = true ∧
        dl_tasklet_handler_gated dev.driver &&& DL_INTERRUPT_SCHED_WORK ≠ 0) ∧
    ((__dl_gate_unlock DL_INTERRUPT_SCHED_WORK dl_tasklet_handler_gated window gate).1 =
      (__dl_gate_unlock_tail
        (if gate.run_bh_on_unlock then window (__dl_gate_unlock_clear gate) else gate)).1) := by
  have hno : ∀ g : blackmagic_gate,
      Effect.schedule_work dev.work ∉ (__dl_gate_unlock_tail g).2 := by
    intro g hm
    obtain ⟨w, hw⟩ := unlock_tail_effects g _ hm
    cases hw
  cases hb : gate.run_bh_on_unlock with
  | false =>
    simp only [__dl_gate_unlock, hb]
    refine ⟨?_, ?_, ?_, ?_⟩
    · simpa using unlock_tail_no_tasklet gate
    · intro h; cases h
    · simpa using hno gate
    · simp
  | true =>
    have hbh : __dl_gate_unlock_bh DL_INTERRUPT_SCHED_WORK dl_tasklet_handler_gated
        (__dl_gate_unlock_clear gate) =
        Effect.tasklet dev.driver gate.count gate.wait_list gate.next false ::
          (if dl_tasklet_handler_gated dev.driver &&& DL_INTERRUPT_SCHED_WORK ≠ 0
            then [Effect.schedule_work dev.work] else []) := by
      simp [__dl_gate_unlock_bh, __dl_gate_unlock_clear, hdev]
    simp only [__dl_gate_unlock, hb, hbh]
    refine ⟨?_, ?_, ?_, ?_⟩
    · have := unlock_tail_no_tasklet (window (__dl_gate_unlock_clear gate))
      by_cases hs : dl_tasklet_handler_gated dev.driver &&& DL_INTERRUPT_SCHED_WORK ≠ 0
      · simp [hs, List.countP_cons, Effect.is_tasklet, this]
      · simp [hs, List.countP_cons, Effect.is_tasklet, this]
    · intro _
      exact ⟨_, rfl⟩
    · have := hno (window (__dl_gate_unlock_clear gate))
      by_cases hs : dl_tasklet_handler_gated dev.driver &&& DL_INTERRUPT_SCHED_WORK ≠ 0
      · simp [hs]
      · simp [hs, this]
    · simp

/-- C10 at a flagged gate with one queued waiter and a hook that asks for work. -/
theorem unlock_hook_once_witness :
    ((__dl_gate_unlock 2 (fun _ => 3) id
        { dl_alloc_gate with count := 0, wait_list := [5], dev := some ⟨7, 8⟩,
                             run_bh_on_unlock := true }).2.countP Effect.is_tasklet = 1) ∧
    (__dl_gate_unlock 2 (fun _ => 3) id
        { dl_alloc_gate with count := 0, wait_list := [5], dev := some ⟨7, 8⟩,
                             run_bh_on_unlock := true }).2 =
      [Effect.tasklet 7 0 [5] none false, Effect.schedule_work 8, Effect.wake_up_process 5] :=
  ⟨(unlock_hook_once 2 (fun _ => 3) id
      { dl_alloc_gate with count := 0, wait_list := [5], dev := some ⟨7, 8⟩,
                           run_bh_on_unlock := true } ⟨7, 8⟩ rfl).1, by decide⟩

/-! ### `dl_gate_wakeup` on a key without a channel -/

theorem get_event_scan_none (key : Nat) (l : List blackmagic_gate_event)
    (h : ∀ ev ∈ l, ev.event ≠ key) : get_event_scan key l = none := by
  induction l with
  | nil => rfl
  | cons ev rest ih =>
    have h1 : ev.event ≠ key := h ev (List.mem_cons_self _ _)
    have h2 := ih (fun e he => h e (List.mem_cons_of_mem _ he))
    simp [get_event_scan, h1, h2]

theorem get_event_lookup_absent (hash_ptr : Nat → Fin EVENT_TABLE_SIZE) (events : EventTable)
    (key : Nat) (kmalloc : Option Nat) (h : ∀ ev ∈ events (hash_ptr key), ev.event ≠ key) :
    get_event hash_ptr events key false kmalloc = (events, none) := by
  simp [get_event, get_event_scan_none key _ h]

/-- C7: if no bucket of the event table holds a channel for `key`, a whole
`dl_gate_wakeup(gate, key)` leaves the system exactly as it was (`count`, the wait
list, the hand-off slot, `run_bh_on_unlock`, every bucket of the table and every
thread), so no channel is created; and its first step is also its last. -/
theorem wakeup_absent_key (hash_ptr : Nat → Fin EVENT_TABLE_SIZE) (s : GateSys) (key : Nat)
    (h : ∀ i, ∀ ev ∈ s.gate.events i, ev.event ≠ key) :
    dl_gate_wakeup hash_ptr s key = s ∧
    ∀ t, (s.task t).pc = Pc.idle → s.step hash_ptr (Action.wakeup t key) = some s := by
  have e := get_event_lookup_absent hash_ptr s.gate.events key none (h (hash_ptr key))
  constructor
  · simp [dl_gate_wakeup, e]
  · intro t ht
    simp [GateSys.step, ht, e]

/-- C7 on a gate whose table holds a channel for key 8 only, woken on key 7. -/
theorem wakeup_absent_key_witness :
    dl_gate_wakeup hash_mod
      { GateSys.init with gate := { dl_alloc_gate with
          events := Function.update (fun _ => []) (hash_mod 8) [⟨100, 8, 1, [0]⟩] } } 7 =
      { GateSys.init with gate := { dl_alloc_gate with
          events := Function.update (fun _ => []) (hash_mod 8) [⟨100, 8, 1, [0]⟩] } } :=
  (wakeup_absent_key hash_mod _ 7 (by
    intro i ev hev
    by_cases hi : i = hash_mod 8
    · subst hi
      simp at hev
      subst hev
      decide
    · simp [Function.update_noteq hi] at hev)).1

/-! ### The outcome of the wait loop -/

theorem sleep_loop_skip (pre rest : List (Bool × Bool)) (result : Int)
    (hpre : ∀ o ∈ pre, o = (false, false)) :
    sleep_loop result (pre ++ rest) = sleep_loop result rest := by
  induction pre with
  | nil => rfl
  | cons o pre ih =>
    have ho : o = (false, false) := hpre o (List.mem_cons_self _ _)
    subst ho
    simp only [List.cons_append, sleep_loop, sleep_check]
    simpa using ih (fun o ho => hpre o (List.mem_cons_of_mem _ ho))

/-- C6: once the channel is obtained, let the passes of the wait loop of
`dl_gate_sleep` read `(false, false)` (not triggered, no signal) as long as listed
in `pre`, and then `(triggered, signal_pending)` with one of the two set.  Then
the loop is left at that pass and the call returns a result `r` with:
`r` is `THREAD_INTERRUPTED` exactly when at that pass a signal was pending and
`triggered` was still false, and `r` is `THREAD_AWAKENED` whenever `triggered`
was true there, a pending signal notwithstanding. -/
theorem sleep_outcome (pre rest : List (Bool × Bool)) (triggered signal_pending : Bool)
    (hpre : ∀ o ∈ pre, o = (false, false))
    (hexit : triggered = true ∨ signal_pending = true) :
    ∃ r, (sleep_loop 0 (pre ++ (triggered, signal_pending) :: rest)).map sleep_return = some r ∧
      (r = ThreadResult.THREAD_INTERRUPTED ↔ signal_pending = true ∧ triggered = false) ∧
      (triggered = true → r = ThreadResult.THREAD_AWAKENED) := by
  rw [sleep_loop_skip pre _ 0 hpre]
  cases triggered <;> cases signal_pending <;>
    simp_all [sleep_loop, sleep_check, sleep_return, ERESTARTSYS]

/-- C6 on a wait that sleeps twice and is then found triggered with a signal
pending as well. -/
theorem sleep_outcome_witness :
    ∃ r, (sleep_loop 0 ([(false, false), (false, false)] ++ (true, true) :: [])).map
        sleep_return = some r ∧
      (r = ThreadResult.THREAD_INTERRUPTED ↔ true = true ∧ true = false) ∧
      (true = true → r = ThreadResult.THREAD_AWAKENED) :=
  sleep_outcome [(false, false), (false, false)] [] true true (by simp) (Or.inl rfl)

/-! ### `dl_gate_sleep` when the allocation fails -/

theorem get_event_create_fails (hash_ptr : Nat → Fin EVENT_TABLE_SIZE) (events : EventTable)
    (key : Nat) (h : ∀ ev ∈ events (hash_ptr key), ev.event ≠ key) :
    get_event hash_ptr events key true none = (events, none) := by
  simp [get_event, get_event_scan_none key _ h]

/-- C5 (as stated, on a gate held by thread 0 with nobody waiting): when the
allocation fails `dl_gate_sleep` returns `THREAD_INTERRUPTED`, the very value it
returns for an interrupted wait, and the gate still has `count = 0` and thread 0
as holder, where the release logic would have made `count` 1. -/
theorem sleep_alloc_failure_counterexample :
    (GateSys.run hash_mod GateSys.init [Action.lock 0, Action.sleep 0 7 none]).map
        (fun s => ((s.task 0).pc, s.gate.count, s.holder)) =
      some (Pc.sleep_ret (-ENOMEM), 0, some 0) ∧
    sleep_return (-ENOMEM) = ThreadResult.THREAD_INTERRUPTED ∧
    sleep_return (-ERESTARTSYS) = ThreadResult.THREAD_INTERRUPTED ∧
    (GateSys.run hash_mod GateSys.init [Action.lock 0]).map
        (fun s => (__dl_gate_unlock_tail s.gate).1.count) = some 1 := by
  decide

/-- C5 (amended): for every state in which thread `t` holds the gate and the
bucket of `key` has no channel for it, a `dl_gate_sleep(gate, key)` whose
allocation fails does not run the release logic: the gate is left exactly as it
was, `t` still holds it, and the call is at its `return` with `result = -ENOMEM`,
for which it returns `THREAD_INTERRUPTED`, the value of an interrupted wait
and not `THREAD_AWAKENED`. -/
theorem sleep_alloc_failure (hash_ptr : Nat → Fin EVENT_TABLE_SIZE) (s : GateSys) (t key : Nat)
    (hpc : (s.task t).pc = Pc.idle) (hh : s.holder = some t)
    (habsent : ∀ ev ∈ s.gate.events (hash_ptr key), ev.event ≠ key) :
    ∃ s1, s.step hash_ptr (Action.sleep t key none) = some s1 ∧
      s1.gate = s.gate ∧ s1.holder = some t ∧
      (s1.task t).pc = Pc.sleep_ret (-ENOMEM) ∧
      sleep_return (-ENOMEM) = ThreadResult.THREAD_INTERRUPTED ∧
      sleep_return (-ENOMEM) = sleep_return (-ERESTARTSYS) ∧
      sleep_return (-ENOMEM) ≠ ThreadResult.THREAD_AWAKENED := by
  have e := get_event_create_fails hash_ptr s.gate.events key habsent
  refine ⟨s.sleep_enter hash_ptr t key none, ?_, ?_, ?_, ?_, ?_, ?_, ?_⟩
  · simp only [GateSys.step, hpc, hh, and_self, if_true]
  · simp [GateSys.sleep_enter, GateSys.set_task, GateSys.set_pc, e]
  · simp [GateSys.sleep_enter, GateSys.set_task, GateSys.set_pc, e, hh]
  · simp [GateSys.sleep_enter, GateSys.set_task, GateSys.set_pc, e]
  · decide
  · decide
  · decide

/-- C5 (amended) on a new gate that thread 0 has just taken. -/
theorem sleep_alloc_failure_witness :
    ∃ s1, GateSys.step hash_mod (GateSys.init.lock_enter 0 Pc.idle Pc.lock_wait)
        (Action.sleep 0 7 none) = some s1 ∧
      s1.gate = (GateSys.init.lock_enter 0 Pc.idle Pc.lock_wait).gate ∧ s1.holder = some 0 ∧
      (s1.task 0).pc = Pc.sleep_ret (-ENOMEM) ∧
      sleep_return (-ENOMEM) = ThreadResult.THREAD_INTERRUPTED ∧
      sleep_return (-ENOMEM) = sleep_return (-ERESTARTSYS) ∧
      sleep_return (-ENOMEM) ≠ ThreadResult.THREAD_AWAKENED :=
  sleep_alloc_failure hash_mod (GateSys.init.lock_enter 0 Pc.idle Pc.lock_wait) 0 7
    (by decide) (by decide) (by intro ev hev; simp [GateSys.lock_enter, GateSys.init,
      __dl_gate_lock_enter, dl_alloc_gate] at hev)

/-! ### The walk of `dl_gate_wakeup` -/

/-- C3 (what the code does): when the first waiter on the channel is suspended,
its wake function reports success and the walk of `dl_gate_wakeup` stops there:
the first waiter is triggered, woken and unlinked, and the second waiter is left as
it was, so a second waiter that was suspended with `triggered = false` still is. -/
theorem wakeup_walk_stops (tasks : Nat → Task) (w1 w2 : Nat) (rest : List Nat)
    (hblocked : (tasks w1).state ≠ TaskState.TASK_RUNNING) (hne : w2 ≠ w1) :
    ((wakeup_walk (w1 :: w2 :: rest) tasks).1 w1).triggered = true ∧
    ((wakeup_walk (w1 :: w2 :: rest) tasks).1 w1).state = TaskState.TASK_RUNNING ∧
    (wakeup_walk (w1 :: w2 :: rest) tasks).1 w2 = tasks w2 ∧
    (wakeup_walk (w1 :: w2 :: rest) tasks).2 = w2 :: rest := by
  simp [wakeup_walk, try_to_wake_up, hblocked, Function.update_noteq hne]

/-- C3 on two suspended waiters: after the walk, and after a whole
`dl_gate_wakeup` in the system, the second waiter is still suspended and not
triggered. -/
theorem wakeup_walk_stops_witness :
    (((wakeup_walk (0 :: 1 :: []) (fun _ => Task.blocked 100)).1 0).triggered = true ∧
     ((wakeup_walk (0 :: 1 :: []) (fun _ => Task.blocked 100)).1 0).state =
        TaskState.TASK_RUNNING ∧
     (wakeup_walk (0 :: 1 :: []) (fun _ => Task.blocked 100)).1 1 = Task.blocked 100 ∧
     (wakeup_walk (0 :: 1 :: []) (fun _ => Task.blocked 100)).2 = 1 :: []) ∧
    (GateSys.run hash_mod GateSys.init broadcast_trace).map
        (fun s => (s.task 1, s.wqh 100, (s.step hash_mod (Action.sleep_resume 1)).isSome)) =
      some (Task.blocked 100, [1], false) :=
  ⟨wakeup_walk_stops (fun _ => Task.blocked 100) 0 1 [] (by decide) (by decide), by decide⟩

/-! ### The window of `dl_gate_sleep` -/

/-- C1 (what the code does): after `lost_wakeup_trace`, in which a whole
`dl_gate_wakeup(gate, 7)` runs between the start of the gate release of
`dl_gate_sleep(gate, 7)` by thread 0 and the registration of its waiter, thread 0
is inside `schedule()`, registered on the channel, in `TASK_INTERRUPTIBLE` with
`triggered = false`, and cannot take a step: the wake-up is lost. -/
theorem lost_wakeup :
    (GateSys.run hash_mod GateSys.init lost_wakeup_trace).map
        (fun s => (s.task 0, s.wqh 100, (s.step hash_mod (Action.sleep_resume 0)).isSome)) =
      some (Task.blocked 100, [0], false) ∧
    (GateSys.run hash_mod GateSys.init (lost_wakeup_trace.take 3)).map
        (fun s => ((s.task 0).pc, s.wqh 100)) = some (Pc.sleep_bh 100, []) := by
  decide

/-! ### The invariant is kept by every step -/

theorem schedule_timeout_max (elapsed : Nat) :
    schedule_timeout MAX_SCHEDULE_TIMEOUT elapsed = MAX_SCHEDULE_TIMEOUT := by
  simp [schedule_timeout]

theorem max_timeout_pos : ¬ MAX_SCHEDULE_TIMEOUT ≤ 0 := by
  decide

theorem try_to_wake_up_pc (tk : Task) : (try_to_wake_up tk).1.pc = tk.pc := by
  unfold try_to_wake_up
  split <;> rfl

theorem try_to_wake_up_timeout (tk : Task) : (try_to_wake_up tk).1.timeout = tk.timeout := by
  unfold try_to_wake_up
  split <;> rfl

theorem wake_effects_frame (effects : List Effect) (tasks : Nat → Task) (t : Nat) :
    (wake_effects effects tasks t).pc = (tasks t).pc ∧
    (wake_effects effects tasks t).timeout = (tasks t).timeout := by
  induction effects generalizing tasks with
  | nil => exact ⟨rfl, rfl⟩
  | cons e rest ih =>
    cases e with
    | tasklet d c wl n b => exact ih tasks
    | schedule_work w => exact ih tasks
    | wake_up_process w =>
      simp only [wake_effects]
      rw [(ih _).1, (ih _).2]
      by_cases h : t = w
      · subst h
        simp [try_to_wake_up_pc, try_to_wake_up_timeout]
      · simp [Function.update_noteq h]

theorem wakeup_walk_frame (l : List Nat) (tasks : Nat → Task) (t : Nat) :
    ((wakeup_walk l tasks).1 t).pc = (tasks t).pc ∧
    ((wakeup_walk l tasks).1 t).timeout = (tasks t).timeout := by
  induction l generalizing tasks with
  | nil => exact ⟨rfl, rfl⟩
  | cons w rest ih =>
    simp only [wakeup_walk]
    split
    · by_cases h : t = w
      · subst h
        simp [try_to_wake_up_pc, try_to_wake_up_timeout]
      · simp [Function.update_noteq h]
    · rw [(ih _).1, (ih _).2]
      by_cases h : t = w
      · subst h
        simp [try_to_wake_up_pc, try_to_wake_up_timeout]
      · simp [Function.update_noteq h]

/-- A step that changes neither the lock fields of the gate, nor the history,
nor any thread's place or budget keeps the invariant. -/
theorem GateSys.Inv0.frame {s s1 : GateSys} (h : s.Inv0)
    (hc : s1.gate.count = s.gate.count) (hw : s1.gate.wait_list = s.gate.wait_list)
    (hn : s1.gate.next = s.gate.next) (hh : s1.holder = s.holder)
    (hq : s1.queued = s.queued) (hg : s1.granted = s.granted)
    (ht : ∀ t, (s1.task t).timeout = (s.task t).timeout) : s1.Inv0 := by
  constructor
  · rw [hc]; exact h.count_le
  · intro t; rw [hh, hc, hn]; exact h.held t
  · rw [hc, hw, hn, hh]; exact h.free
  · rw [hq, hg, hn, hw]; exact h.fifo
  · intro t; rw [ht]; exact h.tmo t

theorem GateSys.Frame.refl (s : GateSys) : s.Frame s :=
  ⟨rfl, rfl, rfl, rfl, rfl, rfl, fun _ => ⟨rfl, rfl⟩⟩

theorem GateSys.Frame.trans {s s1 s2 : GateSys} (h1 : s.Frame s1) (h2 : s1.Frame s2) :
    s.Frame s2 := by
  obtain ⟨a1, a2, a3, a4, a5, a6, a7⟩ := h1
  obtain ⟨b1, b2, b3, b4, b5, b6, b7⟩ := h2
  refine ⟨b1.trans a1, b2.trans a2, b3.trans a3, b4.trans a4, b5.trans a5, b6.trans a6, ?_⟩
  intro t
  exact ⟨(b7 t).1.trans (a7 t).1, (b7 t).2.trans (a7 t).2⟩

theorem GateSys.Frame.inv0 {s s1 : GateSys} (f : s.Frame s1) (h : s.Inv0) : s1.Inv0 :=
  h.frame f.1 f.2.1 f.2.2.1 f.2.2.2.1 f.2.2.2.2.1 f.2.2.2.2.2.1 (fun t => (f.2.2.2.2.2.2 t).2)

theorem GateSys.Frame.pcok {s s1 : GateSys} (f : s.Frame s1) (t : Nat) (h : s.PcOk t) :
    s1.PcOk t := by
  unfold GateSys.PcOk at *
  rw [(f.2.2.2.2.2.2 t).1, f.2.2.2.1]
  exact h

theorem GateSys.Frame.set_wqh (s : GateSys) (p : Nat) (l : List Nat) :
    s.Frame (s.set_wqh p l) :=
  ⟨rfl, rfl, rfl, rfl, rfl, rfl, fun _ => ⟨rfl, rfl⟩⟩

theorem GateSys.Frame.events (s : GateSys) (events : EventTable) :
    s.Frame { s with gate := { s.gate with events := events } } :=
  ⟨rfl, rfl, rfl, rfl, rfl, rfl, fun _ => ⟨rfl, rfl⟩⟩

theorem GateSys.Frame.clear (s : GateSys) :
    s.Frame { s with gate := __dl_gate_unlock_clear s.gate } :=
  ⟨rfl, rfl, rfl, rfl, rfl, rfl, fun _ => ⟨rfl, rfl⟩⟩

theorem GateSys.Frame.set_task (s : GateSys) (t : Nat) (tk : Task)
    (hpc : tk.pc = (s.task t).pc) (hto : tk.timeout = (s.task t).timeout) :
    s.Frame (s.set_task t tk) := by
  refine ⟨rfl, rfl, rfl, rfl, rfl, rfl, ?_⟩
  intro t1
  by_cases h : t1 = t
  · subst h
    simp [GateSys.set_task, hpc, hto]
  · simp [GateSys.set_task, Function.update_noteq h]

theorem GateSys.Frame.tasks (s : GateSys) (tasks : Nat → Task)
    (h : ∀ t, (tasks t).pc = (s.task t).pc ∧ (tasks t).timeout = (s.task t).timeout) :
    s.Frame { s with task := tasks } :=
  ⟨rfl, rfl, rfl, rfl, rfl, rfl, h⟩

theorem GateSys.Frame.wakeup_channel (s : GateSys) (p : Nat) : s.Frame (s.wakeup_channel p) := by
  unfold GateSys.wakeup_channel
  exact (GateSys.Frame.tasks s _ (fun t => wakeup_walk_frame _ _ t)).trans
    (GateSys.Frame.set_wqh _ _ _)

theorem GateSys.Frame.wakeup_put (s : GateSys) (p : Nat) : s.Frame (s.wakeup_put p) :=
  ⟨rfl, rfl, rfl, rfl, rfl, rfl, fun _ => ⟨rfl, rfl⟩⟩

/-- Moving the acting thread to a place that does not ask for the gate, or to any
place when it holds the gate, restores the invariant. -/
theorem GateSys.inv_set_pc {s : GateSys} (t : Nat) (pc : Pc) (h : s.Inv0)
    (ho : ∀ t1, t1 ≠ t → s.PcOk t1) (hpc : pc.needs_gate = true → s.holder = some t) :
    (s.set_pc t pc).Inv := by
  constructor
  · refine h.frame rfl rfl rfl rfl rfl rfl ?_
    intro t1
    by_cases e : t1 = t
    · subst e; simp [GateSys.set_pc, GateSys.set_task]
    · simp [GateSys.set_pc, GateSys.set_task, Function.update_noteq e]
  · intro t1
    by_cases e : t1 = t
    · subst e
      simpa [GateSys.PcOk, GateSys.set_pc, GateSys.set_task] using hpc
    · have := ho t1 e
      simpa [GateSys.PcOk, GateSys.set_pc, GateSys.set_task, Function.update_noteq e] using this

/-- The second half of a release by the holder `t`. -/
theorem GateSys.inv_unlock_tail {s : GateSys} (t : Nat) (h : s.Inv0) (hh : s.holder = some t)
    (ho : ∀ t1, t1 ≠ t → s.PcOk t1) :
    s.unlock_tail.Inv0 ∧ s.unlock_tail.holder = none ∧
      (∀ t1, t1 ≠ t → s.unlock_tail.PcOk t1) ∧
      (∀ t1, (s.unlock_tail.task t1).pc = (s.task t1).pc) := by
  obtain ⟨hc, hn⟩ := h.held t hh
  have hpcs : ∀ t1, (s.unlock_tail.task t1).pc = (s.task t1).pc := fun t1 =>
    (wake_effects_frame _ _ t1).1
  have htmo : ∀ t1, (s.unlock_tail.task t1).timeout = (s.task t1).timeout := fun t1 =>
    (wake_effects_frame _ _ t1).2
  refine ⟨?_, rfl, ?_, hpcs⟩
  · have hf := h.fifo
    constructor
    · simp only [GateSys.unlock_tail, __dl_gate_unlock_tail]
      cases hw : s.gate.wait_list <;> simp [hc, UINT_MOD]
    · intro t1 ht1
      simp [GateSys.unlock_tail] at ht1
    · simp only [GateSys.unlock_tail, __dl_gate_unlock_tail]
      cases hw : s.gate.wait_list <;> simp [hc, hn, UINT_MOD]
    · simp only [GateSys.unlock_tail, __dl_gate_unlock_tail]
      cases hw : s.gate.wait_list <;> simp [hf, hn, hw]
    · intro t1
      rw [htmo]; exact h.tmo t1
  · intro t1 ht1 hneed
    rw [hpcs] at hneed
    have := ho t1 ht1 hneed
    rw [hh] at this
    exact absurd (Option.some.inj this).symm ht1

/-- The entry of `__dl_gate_lock` by thread `t`. -/
theorem GateSys.inv_lock_enter {s : GateSys} (t : Nat) (done wait : Pc) (h : s.Inv0)
    (ho : ∀ t1, t1 ≠ t → s.PcOk t1) (hwait : wait.needs_gate = false) :
    (s.lock_enter t done wait).Inv := by
  have hle := h.count_le
  by_cases hc : 0 < s.gate.count
  · have hc1 : s.gate.count = 1 := by omega
    obtain ⟨hw, hn, hh⟩ := h.free hc1
    have hf := h.fifo
    have e : s.lock_enter t done wait =
        { s with gate := { s.gate with count := s.gate.count - 1 }, holder := some t,
                 task := Function.update s.task t
                   { s.task t with pc := done, timeout := MAX_SCHEDULE_TIMEOUT } } := by
      simp [GateSys.lock_enter, __dl_gate_lock_enter, hc]
    rw [e]
    constructor
    · constructor
      · simp [hc1]
      · intro t1 _
        simp [hc1, hn]
      · simp [hc1]
      · simpa using hf
      · intro t1
        by_cases e1 : t1 = t
        · subst e1; simp
        · simpa [Function.update_noteq e1] using h.tmo t1
    · intro t1
      by_cases e1 : t1 = t
      · subst e1; simp [GateSys.PcOk]
      · have := ho t1 e1
        simp only [GateSys.PcOk, hh] at this
        simp only [GateSys.PcOk, Function.update_noteq e1]
        intro hneed
        exact absurd (this hneed) (by simp)
  · have hc0 : s.gate.count = 0 := by omega
    have hf := h.fifo
    have e : s.lock_enter t done wait =
        { s with gate := { s.gate with wait_list := s.gate.wait_list ++ [t] },
                 queued := s.queued ++ [t],
                 task := Function.update s.task t
                   { s.task t with pc := wait, state := TaskState.TASK_UNINTERRUPTIBLE,
                                   timeout := MAX_SCHEDULE_TIMEOUT } } := by
      simp [GateSys.lock_enter, __dl_gate_lock_enter, hc]
    rw [e]
    constructor
    · constructor
      · simp [hc0]
      · intro t1 ht1
        exact h.held t1 ht1
      · intro h1
        simp [hc0] at h1
      · simp [hf]
      · intro t1
        by_cases e1 : t1 = t
        · subst e1; simp
        · simpa [Function.update_noteq e1] using h.tmo t1
    · intro t1
      by_cases e1 : t1 = t
      · subst e1; simp [GateSys.PcOk, hwait]
      · simpa [GateSys.PcOk, Function.update_noteq e1] using ho t1 e1

/-- One pass of the loop of `__dl_gate_lock` by a thread `t` that is suspended
in it. -/
theorem GateSys.inv_lock_resume {s : GateSys} (t elapsed : Nat) (done : Pc) (h : s.Inv0)
    (ho : ∀ t1, t1 ≠ t → s.PcOk t1) (hpc : (s.task t).pc.needs_gate = false) :
    (s.lock_resume t elapsed done).Inv := by
  have hto : schedule_timeout (s.task t).timeout elapsed = MAX_SCHEDULE_TIMEOUT := by
    rw [h.tmo t]; exact schedule_timeout_max elapsed
  have hf := h.fifo
  by_cases hn : s.gate.next = some t
  · have hh : s.holder = none := by
      cases hx : s.holder with
      | none => rfl
      | some u =>
        have := (h.held u hx).2
        rw [hn] at this
        cases this
    have hc0 : s.gate.count = 0 := by
      have := h.count_le
      by_contra hne
      have h1 : s.gate.count = 1 := by omega
      have := (h.free h1).2.1
      rw [hn] at this
      cases this
    have e : s.lock_resume t elapsed done =
        { s with gate := { s.gate with next := none }, holder := some t,
                 granted := s.granted ++ [t],
                 task := Function.update s.task t
                   { s.task t with pc := done, timeout := MAX_SCHEDULE_TIMEOUT } } := by
      simp [GateSys.lock_resume, __dl_gate_lock_resume, hn, hto]
    rw [e]
    constructor
    · constructor
      · simp [hc0]
      · intro t1 _
        simp [hc0]
      · intro h1
        simp [hc0] at h1
      · simpa [hn] using hf
      · intro t1
        by_cases e1 : t1 = t
        · subst e1; simp
        · simpa [Function.update_noteq e1] using h.tmo t1
    · intro t1
      by_cases e1 : t1 = t
      · subst e1; simp [GateSys.PcOk]
      · have := ho t1 e1
        simp only [GateSys.PcOk, hh] at this
        simp only [GateSys.PcOk, Function.update_noteq e1]
        intro hneed
        exact absurd (this hneed) (by simp)
  · have e : s.lock_resume t elapsed done =
        { s with task := Function.update s.task t
                   { s.task t with state := TaskState.TASK_UNINTERRUPTIBLE,
                                   timeout := MAX_SCHEDULE_TIMEOUT } } := by
      simp [GateSys.lock_resume, __dl_gate_lock_resume, hn, hto, max_timeout_pos]
    rw [e]
    constructor
    · refine h.frame rfl rfl rfl rfl rfl rfl ?_
      intro t1
      by_cases e1 : t1 = t
      · subst e1; simp [h.tmo t1]
      · simp [Function.update_noteq e1]
    · intro t1
      by_cases e1 : t1 = t
      · subst e1; simp [GateSys.PcOk, hpc]
      · simpa [GateSys.PcOk, Function.update_noteq e1] using ho t1 e1

/-- The function `dl_gate_lock_interrupt` called by thread `t`. -/
theorem GateSys.inv_lock_interrupt {s : GateSys} (t : Nat) (h : s.Inv) :
    GateSys.Inv { s with gate := (dl_gate_lock_interrupt s.gate).1,
                         holder := if (dl_gate_lock_interrupt s.gate).2 then some t
                                   else s.holder } := by
  obtain ⟨h0, hp⟩ := h
  have hle := h0.count_le
  have hf := h0.fifo
  by_cases hc : 0 < s.gate.count
  · have hc1 : s.gate.count = 1 := by omega
    obtain ⟨hw, hn, hh⟩ := h0.free hc1
    rw [lock_interrupt_pos s.gate hc (by omega)]
    constructor
    · constructor
      · simp [hc1]
      · intro t1 _
        simp [hc1, hn]
      · simp [hc1]
      · simpa using hf
      · exact h0.tmo
    · intro t1 hneed
      have := hp t1 hneed
      rw [hh] at this
      cases this
  · have hc0 : s.gate.count = 0 := by omega
    cases hn : s.gate.next with
    | none =>
      rw [lock_interrupt_fail s.gate hc0 hn]
      constructor
      · exact h0.frame rfl rfl rfl rfl rfl rfl (fun _ => rfl)
      · intro t1 hneed
        exact hp t1 hneed
    | some w =>
      have hh : s.holder = none := by
        cases hx : s.holder with
        | none => rfl
        | some u =>
          have := (h0.held u hx).2
          rw [hn] at this
          cases this
      rw [lock_interrupt_steal s.gate w hc0 hn]
      constructor
      · constructor
        · simp [hc0]
        · intro t1 _
          simp [hc0]
        · intro h1
          simp [hc0] at h1
        · simpa [hn] using hf
        · exact h0.tmo
      · intro t1 hneed
        have := hp t1 hneed
        rw [hh] at this
        cases this

theorem GateSys.Frame.others {s s1 : GateSys} (f : s.Frame s1) (t : Nat)
    (ho : ∀ t1, t1 ≠ t → s.PcOk t1) : ∀ t1, t1 ≠ t → s1.PcOk t1 :=
  fun t1 h1 => f.pcok t1 (ho t1 h1)

/-- The end of `dl_gate_sleep` by thread `t`. -/
theorem GateSys.inv_sleep_exit {s : GateSys} (t p : Nat) (result : Int) (h : s.Inv0)
    (ho : ∀ t1, t1 ≠ t → s.PcOk t1) : (s.sleep_exit t p result).Inv := by
  unfold GateSys.sleep_exit
  have f1 := GateSys.Frame.set_wqh s p ((s.wqh p).erase t)
  have f2 := GateSys.Frame.set_task (s.set_wqh p ((s.wqh p).erase t)) t
    { (s.set_wqh p ((s.wqh p).erase t)).task t with state := TaskState.TASK_RUNNING } rfl rfl
  have f3 := GateSys.Frame.events
    ((s.set_wqh p ((s.wqh p).erase t)).set_task t
      { (s.set_wqh p ((s.wqh p).erase t)).task t with state := TaskState.TASK_RUNNING })
    (put_event ((s.set_wqh p ((s.wqh p).erase t)).set_task t
      { (s.set_wqh p ((s.wqh p).erase t)).task t with
        state := TaskState.TASK_RUNNING }).gate.events p)
  have f := (f1.trans f2).trans f3
  exact GateSys.inv_lock_enter t _ _ (f.inv0 h) (f.others t ho) rfl

/-- One pass of the wait loop of `dl_gate_sleep` by thread `t`. -/
theorem GateSys.inv_sleep_pass {s : GateSys} (t p : Nat) (h : s.Inv0)
    (ho : ∀ t1, t1 ≠ t → s.PcOk t1) : (s.sleep_pass t p).Inv := by
  unfold GateSys.sleep_pass
  have f1 : s.Frame (if t ∈ s.wqh p then s else s.set_wqh p (s.wqh p ++ [t])) := by
    split
    · exact GateSys.Frame.refl s
    · exact GateSys.Frame.set_wqh _ _ _
  have f2 := GateSys.Frame.set_task (if t ∈ s.wqh p then s else s.set_wqh p (s.wqh p ++ [t])) t
    { (if t ∈ s.wqh p then s else s.set_wqh p (s.wqh p ++ [t])).task t with
      state := TaskState.TASK_INTERRUPTIBLE } rfl rfl
  have f := f1.trans f2
  simp only []
  split
  · exact GateSys.inv_set_pc t _ (f.inv0 h) (f.others t ho) (by intro hx; cases hx)
  · exact GateSys.inv_sleep_exit t p _ (f.inv0 h) (f.others t ho)

/-- The start of `dl_gate_sleep` by the holder `t`. -/
theorem GateSys.inv_sleep_enter (hash_ptr : Nat → Fin EVENT_TABLE_SIZE) {s : GateSys}
    (t key : Nat) (kmalloc : Option Nat) (h : s.Inv) (hh : s.holder = some t) :
    (s.sleep_enter hash_ptr t key kmalloc).Inv := by
  obtain ⟨h0, hp⟩ := h
  unfold GateSys.sleep_enter
  have f0 := GateSys.Frame.set_task s t { s.task t with triggered := false } rfl rfl
  have ho : ∀ t1, t1 ≠ t → s.PcOk t1 := fun t1 _ => hp t1
  have hh0 : (s.set_task t { s.task t with triggered := false }).holder = some t := hh
  simp only []
  split
  · exact GateSys.inv_set_pc t _ (f0.inv0 h0) (f0.others t ho) (fun _ => hh0)
  · rename_i p _
    have f1 := GateSys.Frame.events (s.set_task t { s.task t with triggered := false })
      (get_event hash_ptr (s.set_task t { s.task t with triggered := false }).gate.events
        key true kmalloc).1
    have f01 := f0.trans f1
    split
    · have f2 := GateSys.Frame.clear
        ({ s.set_task t { s.task t with triggered := false } with
            gate := { (s.set_task t { s.task t with triggered := false }).gate with
              events := (get_event hash_ptr
                (s.set_task t { s.task t with triggered := false }).gate.events
                key true kmalloc).1 } } : GateSys)
      have f := f01.trans f2
      exact GateSys.inv_set_pc t _ (f.inv0 h0) (f.others t ho) (fun _ => hh0)
    · obtain ⟨a, _, c, _⟩ := GateSys.inv_unlock_tail t (f01.inv0 h0) hh0 (f01.others t ho)
      exact GateSys.inv_sleep_pass t p a c

theorem GateSys.inv_init : GateSys.init.Inv := by
  constructor
  · constructor
    · decide
    · intro t ht
      cases ht
    · intro _
      exact ⟨rfl, rfl, rfl⟩
    · rfl
    · intro t
      rfl
  · intro t ht
    cases ht

/-- Every atomic step keeps the invariant. -/
theorem GateSys.inv_step (hash_ptr : Nat → Fin EVENT_TABLE_SIZE) {s s1 : GateSys} (a : Action)
    (h : s.Inv) (hs : s.step hash_ptr a = some s1) : s1.Inv := by
  have ho : ∀ t t1, t1 ≠ t → s.PcOk t1 := fun _ t1 _ => h.2 t1
  cases a with
  | lock t =>
    simp only [GateSys.step] at hs
    split at hs
    · cases hs
      exact GateSys.inv_lock_enter t _ _ h.1 (ho t) rfl
    · cases hs
  | lock_resume t elapsed =>
    simp only [GateSys.step] at hs
    split at hs
    · rename_i hg
      cases hs
      exact GateSys.inv_lock_resume t elapsed _ h.1 (ho t) (by rw [hg.1]; rfl)
    · cases hs
  | lock_interrupt t =>
    simp only [GateSys.step] at hs
    split at hs
    · rw [← Option.some.inj hs]
      exact GateSys.inv_lock_interrupt t h
    · cases hs
  | unlock t =>
    simp only [GateSys.step] at hs
    split at hs
    · rename_i hg
      split at hs
      · cases hs
        exact GateSys.inv_set_pc t _ ((GateSys.Frame.clear s).inv0 h.1)
          ((GateSys.Frame.clear s).others t (ho t)) (fun _ => hg.2)
      · cases hs
        obtain ⟨a, b, c, d⟩ := GateSys.inv_unlock_tail t h.1 hg.2 (ho t)
        refine ⟨a, ?_⟩
        intro t1
        by_cases e : t1 = t
        · subst e
          intro hneed
          rw [d, hg.1] at hneed
          cases hneed
        · exact c t1 e
    · cases hs
  | unlock_bh_done t =>
    simp only [GateSys.step] at hs
    split at hs
    · rename_i hg
      cases hs
      have hh : s.holder = some t := h.2 t (by rw [hg]; rfl)
      have hi := GateSys.inv_set_pc t Pc.idle h.1 (ho t) (by intro hx; cases hx)
      obtain ⟨a, b, c, d⟩ := GateSys.inv_unlock_tail t hi.1 hh (fun t1 _ => hi.2 t1)
      refine ⟨a, ?_⟩
      intro t1
      by_cases e : t1 = t
      · subst e
        intro hneed
        rw [d] at hneed
        simp [GateSys.set_pc, GateSys.set_task] at hneed
        cases hneed
      · exact c t1 e
    · cases hs
  | sleep t key kmalloc =>
    simp only [GateSys.step] at hs
    split at hs
    · rename_i hg
      cases hs
      exact GateSys.inv_sleep_enter hash_ptr t key kmalloc h hg.2
    · cases hs
  | sleep_bh_done t =>
    simp only [GateSys.step] at hs
    split at hs
    · rename_i p hg
      cases hs
      have hh : s.holder = some t := h.2 t (by rw [hg]; rfl)
      obtain ⟨a, _, c, _⟩ := GateSys.inv_unlock_tail t h.1 hh (ho t)
      exact GateSys.inv_sleep_pass t p a c
    · cases hs
  | sleep_resume t =>
    simp only [GateSys.step] at hs
    split at hs
    · split at hs
      · rename_i p _ _
        cases hs
        exact GateSys.inv_sleep_pass t p h.1 (ho t)
      · cases hs
    · cases hs
  | sleep_lock_resume t elapsed =>
    simp only [GateSys.step] at hs
    split at hs
    · rename_i r hg
      split at hs
      · cases hs
        exact GateSys.inv_lock_resume t elapsed _ h.1 (ho t) (by rw [hg]; rfl)
      · cases hs
    · cases hs
  | sleep_return t =>
    simp only [GateSys.step] at hs
    split at hs
    · cases hs
      exact GateSys.inv_set_pc t _ h.1 (ho t) (by intro hx; cases hx)
    · cases hs
  | wakeup t key =>
    simp only [GateSys.step] at hs
    split at hs
    · have f := GateSys.Frame.events s (get_event hash_ptr s.gate.events key false none).1
      split at hs
      · cases hs
        exact ⟨f.inv0 h.1, fun t1 => f.pcok t1 (h.2 t1)⟩
      · cases hs
        exact GateSys.inv_set_pc t _ (f.inv0 h.1) (f.others t (ho t)) (by intro hx; cases hx)
    · cases hs
  | wakeup_walk t =>
    simp only [GateSys.step] at hs
    split at hs
    · rename_i p _
      cases hs
      have f := GateSys.Frame.wakeup_channel s p
      exact GateSys.inv_set_pc t _ (f.inv0 h.1) (f.others t (ho t)) (by intro hx; cases hx)
    · cases hs
  | wakeup_put t =>
    simp only [GateSys.step] at hs
    split at hs
    · rename_i p _
      cases hs
      have f := GateSys.Frame.wakeup_put s p
      exact GateSys.inv_set_pc t _ (f.inv0 h.1) (f.others t (ho t)) (by intro hx; cases hx)
    · cases hs
  | signal t =>
    simp only [GateSys.step] at hs
    cases hs
    have f := GateSys.Frame.set_task s t
      { s.task t with
        signal_pending := true,
        state := if (s.task t).state = TaskState.TASK_INTERRUPTIBLE then TaskState.TASK_RUNNING
                 else (s.task t).state } rfl rfl
    exact ⟨f.inv0 h.1, fun t1 => f.pcok t1 (h.2 t1)⟩

/-- The invariant holds after every sequence of steps from a state that has it. -/
theorem GateSys.inv_run (hash_ptr : Nat → Fin EVENT_TABLE_SIZE) (acts : List Action) :
    ∀ {s s1 : GateSys}, s.Inv → GateSys.run hash_ptr s acts = some s1 → s1.Inv := by
  induction acts with
  | nil =>
    intro s s1 h hr
    cases hr
    exact h
  | cons a rest ih =>
    intro s s1 h hr
    simp only [GateSys.run] at hr
    split at hr
    · rename_i s2 hs
      exact ih (GateSys.inv_step hash_ptr a h hs) hr
    · cases hr

/-- On every run from a new gate `count` is 0 or 1: no gate takes a `count` that
the `int` in `dl_gate_lock_interrupt` does not hold. -/
theorem GateSys.count_le_of_run (hash_ptr : Nat → Fin EVENT_TABLE_SIZE) (acts : List Action)
    (s : GateSys) (hrun : GateSys.run hash_ptr GateSys.init acts = some s) :
    s.gate.count ≤ 1 ∧ s.gate.count ≤ 2 ^ 31 := by
  have h := (GateSys.inv_run hash_ptr acts GateSys.inv_init hrun).1.count_le
  exact ⟨h, Nat.le_trans h Nat.one_le_two_pow⟩

/-! ### FIFO order of the hand-offs -/

/-- C2: in every state reached from a freshly created gate by steps of
`dl_gate_lock`, `dl_gate_lock_interrupt`, `dl_gate_unlock` by the holder (and of
`dl_gate_sleep` and `dl_gate_wakeup`), the waiters that `__dl_gate_lock` appended
to the wait list are, in the order of their appending: first those that have
claimed the gate, in the order of their claims, then the designated waiter, then
the wait list.  So the `k`-th claim is by the `k`-th waiter queued: no waiter is
granted the gate before one that queued earlier, whatever the number of
waiters and also when `dl_gate_lock_interrupt` displaces a pending hand-off. -/
theorem fifo_grant_order (hash_ptr : Nat → Fin EVENT_TABLE_SIZE) (acts : List Action)
    (s : GateSys) (hrun : GateSys.run hash_ptr GateSys.init acts = some s) :
    s.queued = s.granted ++ s.gate.next.toList ++ s.gate.wait_list ∧
    ∀ k, k < s.granted.length → s.granted[k]? = s.queued[k]? := by
  have h := (GateSys.inv_run hash_ptr acts GateSys.inv_init hrun).1.fifo
  refine ⟨h, ?_⟩
  intro k hk
  rw [h, List.append_assoc, List.getElem?_append_left hk]

/-- C2 on `fifo_trace`: two waiters, a displaced hand-off, and the claims in the
order of queueing. -/
theorem fifo_grant_order_witness :
    ∃ s, GateSys.run hash_mod GateSys.init fifo_trace = some s ∧
      s.queued = [1, 2] ∧ s.granted = [1, 2] ∧
      (s.queued = s.granted ++ s.gate.next.toList ++ s.gate.wait_list ∧
       ∀ k, k < s.granted.length → s.granted[k]? = s.queued[k]?) := by
  have h1 : (GateSys.run hash_mod GateSys.init fifo_trace).map
      (fun s => (s.queued, s.granted)) = some ([1, 2], [1, 2]) := by decide
  obtain ⟨s, hs⟩ := Option.isSome_iff_exists.mp
    (show (GateSys.run hash_mod GateSys.init fifo_trace).isSome = true by decide)
  rw [hs] at h1
  simp only [Option.map_some', Option.some.injEq, Prod.mk.injEq] at h1
  exact ⟨s, hs, h1.1, h1.2, fifo_grant_order hash_mod fifo_trace s hs⟩

/-! ### `dl_gate_sleep` returns holding the gate -/

/-- C4: in every state reached from a freshly created gate in which a call of
`dl_gate_sleep` by thread `t` (made while `t` held the gate) is at its `return`,
whatever the value of its local `result` (0: awakened, `-ERESTARTSYS`: a pending
signal, `-ENOMEM`: the allocation of the channel failed), `t` is the holder of the
gate, `count` is 0 and no hand-off is pending. -/
theorem sleep_returns_holding (hash_ptr : Nat → Fin EVENT_TABLE_SIZE) (acts : List Action)
    (s : GateSys) (t : Nat) (result : Int)
    (hrun : GateSys.run hash_ptr GateSys.init acts = some s)
    (hret : (s.task t).pc = Pc.sleep_ret result) :
    s.holder = some t ∧ s.gate.count = 0 ∧ s.gate.next = none := by
  have h := GateSys.inv_run hash_ptr acts GateSys.inv_init hrun
  have hh : s.holder = some t := h.2 t (by rw [hret]; rfl)
  exact ⟨hh, h.1.held t hh⟩

/-- C4 on three calls that return: awakened, interrupted (after queueing for
the gate behind another holder), and with the allocation failed. -/
theorem sleep_returns_holding_witness :
    (∃ s, GateSys.run hash_mod GateSys.init awakened_trace = some s ∧
      (s.task 0).pc = Pc.sleep_ret 0 ∧
      (s.holder = some 0 ∧ s.gate.count = 0 ∧ s.gate.next = none)) ∧
    (∃ s, GateSys.run hash_mod GateSys.init interrupted_trace = some s ∧
      (s.task 0).pc = Pc.sleep_ret (-ERESTARTSYS) ∧
      (s.holder = some 0 ∧ s.gate.count = 0 ∧ s.gate.next = none)) ∧
    (∃ s, GateSys.run hash_mod GateSys.init enomem_trace = some s ∧
      (s.task 0).pc = Pc.sleep_ret (-ENOMEM) ∧
      (s.holder = some 0 ∧ s.gate.count = 0 ∧ s.gate.next = none)) := by
  refine ⟨?_, ?_, ?_⟩
  · have h1 : (GateSys.run hash_mod GateSys.init awakened_trace).map
        (fun s => (s.task 0).pc) = some (Pc.sleep_ret 0) := by decide
    obtain ⟨s, hs⟩ := Option.isSome_iff_exists.mp
      (show (GateSys.run hash_mod GateSys.init awakened_trace).isSome = true by decide)
    rw [hs] at h1
    simp only [Option.map_some', Option.some.injEq] at h1
    exact ⟨s, hs, h1, sleep_returns_holding hash_mod awakened_trace s 0 0 hs h1⟩
  · have h1 : (GateSys.run hash_mod GateSys.init interrupted_trace).map
        (fun s => (s.task 0).pc) = some (Pc.sleep_ret (-ERESTARTSYS)) := by decide
    obtain ⟨s, hs⟩ := Option.isSome_iff_exists.mp
      (show (GateSys.run hash_mod GateSys.init interrupted_trace).isSome = true by decide)
    rw [hs] at h1
    simp only [Option.map_some', Option.some.injEq] at h1
    exact ⟨s, hs, h1, sleep_returns_holding hash_mod interrupted_trace s 0 _ hs h1⟩
  · have h1 : (GateSys.run hash_mod GateSys.init enomem_trace).map
        (fun s => (s.task 0).pc) = some (Pc.sleep_ret (-ENOMEM)) := by decide
    obtain ⟨s, hs⟩ := Option.isSome_iff_exists.mp
      (show (GateSys.run hash_mod GateSys.init enomem_trace).isSome = true by decide)
    rw [hs] at h1
    simp only [Option.map_some', Option.some.injEq] at h1
    exact ⟨s, hs, h1, sleep_returns_holding hash_mod enomem_trace s 0 _ hs h1⟩

/-! ### The event table: buckets -/

/-- Within the range of `int` the arithmetic of `int` is that of the integers. -/
theorem wrap_int_of_range (x : Int) (h1 : -2147483648 ≤ x) (h2 : x ≤ 2147483647) :
    wrap_int x = x := by
  unfold wrap_int
  rw [Int.emod_eq_of_lt (by omega) (by omega)]
  omega

/-- Past `INT_MAX` the increment of an `int` does not give the next integer. -/
theorem wrap_int_overflow : wrap_int (2147483647 + 1) = -2147483648 := by
  decide

theorem outstanding_le_of_in_range (r : Registry) (h : r.in_range = true) (key : Nat) :
    outstanding r.refs key ≤ INT_MAX := by
  by_cases hex : ∃ x ∈ r.refs, x.1 = key
  · obtain ⟨x, hx, hk⟩ := hex
    unfold Registry.in_range at h
    rw [List.all_eq_true] at h
    have := h x hx
    rw [hk] at this
    exact of_decide_eq_true this
  · have h0 : outstanding r.refs key = 0 := by
      unfold outstanding
      rw [List.countP_eq_zero]
      intro x hx hxk
      exact hex ⟨x, hx, by simpa using hxk⟩
    rw [h0]
    exact Nat.zero_le _

theorem bump_event (key : Nat) (ev : blackmagic_gate_event) : (bump key ev).event = ev.event := by
  unfold bump; split <;> rfl

theorem bump_addr (key : Nat) (ev : blackmagic_gate_event) : (bump key ev).addr = ev.addr := by
  unfold bump; split <;> rfl

theorem bump_of_ne (key : Nat) (ev : blackmagic_gate_event) (h : ev.event ≠ key) :
    bump key ev = ev := by
  simp [bump, h]

theorem map_bump_of_absent (key : Nat) (l : List blackmagic_gate_event)
    (h : ∀ ev ∈ l, ev.event ≠ key) : l.map (bump key) = l := by
  induction l with
  | nil => rfl
  | cons x rest ih =>
    simp only [List.map_cons]
    rw [bump_of_ne key x (h x (List.mem_cons_self _ _)),
      ih (fun e he => h e (List.mem_cons_of_mem _ he))]

theorem drop_event (p : Nat) (ev ev1 : blackmagic_gate_event) (h : drop p ev = some ev1) :
    ev1.event = ev.event ∧ ev1.addr = ev.addr := by
  unfold drop at h
  split at h
  · split at h
    · cases h
    · cases h; exact ⟨rfl, rfl⟩
  · cases h; exact ⟨rfl, rfl⟩

theorem drop_of_ne (p : Nat) (ev : blackmagic_gate_event) (h : ev.addr ≠ p) :
    drop p ev = some ev := by
  simp [drop, h]

theorem filterMap_drop_of_absent (p : Nat) (l : List blackmagic_gate_event)
    (h : ∀ ev ∈ l, ev.addr ≠ p) : l.filterMap (drop p) = l := by
  induction l with
  | nil => rfl
  | cons x rest ih =>
    rw [List.filterMap_cons, drop_of_ne p x (h x (List.mem_cons_self _ _))]
    simp only
    rw [ih (fun e he => h e (List.mem_cons_of_mem _ he))]

/-- A hit of the scan of `get_event` in a bucket without two channels of one key. -/
theorem get_event_scan_hit (key : Nat) (l : List blackmagic_gate_event)
    (ev : blackmagic_gate_event) (hn : (l.map (fun e => e.event)).Nodup) (hm : ev ∈ l)
    (hk : ev.event = key) :
    get_event_scan key l = some (l.map (bump key), ev.addr) := by
  induction l with
  | nil => cases hm
  | cons x rest ih =>
    rw [List.map_cons, List.nodup_cons] at hn
    by_cases hx : x.event = key
    · have hev : ev = x := by
        rcases List.mem_cons.mp hm with h | h
        · exact h
        · exfalso
          apply hn.1
          rw [hx, ← hk]
          exact List.mem_map_of_mem (fun e => e.event) h
      subst hev
      have hrest : ∀ e ∈ rest, e.event ≠ key := by
        intro e he hek
        apply hn.1
        rw [hx, ← hek]
        exact List.mem_map_of_mem (fun e => e.event) he
      simp [get_event_scan, hx, bump, map_bump_of_absent key rest hrest]
    · have hm1 : ev ∈ rest := by
        rcases List.mem_cons.mp hm with h | h
        · subst h; exact absurd hk hx
        · exact h
      simp [get_event_scan, hx, ih hn.2 hm1, bump_of_ne key x hx]

/-- The effect of `put_event` on a bucket whose channels have distinct addresses. -/
theorem put_event_bucket_eq (p : Nat) (l : List blackmagic_gate_event)
    (hn : (l.map (fun e => e.addr)).Nodup) :
    put_event_bucket p l = l.filterMap (drop p) := by
  induction l with
  | nil => rfl
  | cons x rest ih =>
    rw [List.map_cons, List.nodup_cons] at hn
    by_cases hx : x.addr = p
    · have hrest : ∀ e ∈ rest, e.addr ≠ p := by
        intro e he hep
        apply hn.1
        rw [hx, ← hep]
        exact List.mem_map_of_mem (fun e => e.addr) he
      rw [List.filterMap_cons, filterMap_drop_of_absent p rest hrest]
      by_cases hr : wrap_int (x.ref - 1) = 0
      · simp [put_event_bucket, drop, hx, hr]
      · simp [put_event_bucket, drop, hx, hr]
    · rw [List.filterMap_cons, drop_of_ne p x hx]
      simp [put_event_bucket, hx, ih hn.2]

theorem put_event_bucket_absent (p : Nat) (l : List blackmagic_gate_event)
    (h : ∀ ev ∈ l, ev.addr ≠ p) : put_event_bucket p l = l := by
  induction l with
  | nil => rfl
  | cons x rest ih =>
    simp [put_event_bucket, h x (List.mem_cons_self _ _),
      ih (fun e he => h e (List.mem_cons_of_mem _ he))]

theorem filterMap_drop_keys (p : Nat) (l : List blackmagic_gate_event) :
    ((l.filterMap (drop p)).map (fun e => e.event)).Sublist (l.map (fun e => e.event)) := by
  induction l with
  | nil => exact List.Sublist.refl _
  | cons x rest ih =>
    rw [List.filterMap_cons]
    cases hd : drop p x with
    | none =>
      simp only [List.map_cons]
      exact List.Sublist.cons _ ih
    | some y =>
      simp only [List.map_cons]
      rw [(drop_event p x y hd).1]
      exact List.Sublist.cons₂ _ ih

theorem find_event_none (events : EventTable) (a : Nat) :
    find_event events a = none ↔ ∀ i, ∀ ev ∈ events i, ev.addr ≠ a := by
  unfold find_event
  rw [List.findSome?_eq_none_iff]
  constructor
  · intro h i ev hev
    have := h i (List.mem_finRange i)
    rw [List.find?_eq_none] at this
    simpa using this ev hev
  · intro h i _
    rw [List.find?_eq_none]
    intro ev hev
    simpa using h i ev hev

theorem countP_erase_of_pos {α : Type} [BEq α] [LawfulBEq α] (q : α → Bool) (l : List α) (x : α)
    (hx : x ∈ l) (hq : q x = true) : (l.erase x).countP q + 1 = l.countP q := by
  induction l with
  | nil => cases hx
  | cons y rest ih =>
    by_cases hy : y = x
    · subst hy
      simp [List.countP_cons, hq]
    · have hx1 : x ∈ rest := by
        rcases List.mem_cons.mp hx with h | h
        · exact absurd h.symm hy
        · exact h
      have hbeq : (y == x) = false := by simpa using hy
      rw [List.erase_cons, hbeq]
      simp only [Bool.false_eq_true, if_false, List.countP_cons]
      have := ih hx1
      omega

theorem countP_erase_of_neg {α : Type} [BEq α] [LawfulBEq α] (q : α → Bool) (l : List α) (x : α)
    (hq : q x = false) : (l.erase x).countP q = l.countP q := by
  induction l with
  | nil => rfl
  | cons y rest ih =>
    by_cases hy : y = x
    · subst hy
      simp [List.countP_cons, hq]
    · have hbeq : (y == x) = false := by simpa using hy
      rw [List.erase_cons, hbeq]
      simp only [Bool.false_eq_true, if_false, List.countP_cons]
      rw [ih]

/-! ### The event table: the invariant -/

theorem Registry.Inv.key_unique {hash_ptr : Nat → Fin EVENT_TABLE_SIZE} {r : Registry}
    (h : r.Inv hash_ptr) {i : Fin EVENT_TABLE_SIZE} {e1 e2 : blackmagic_gate_event}
    (h1 : e1 ∈ r.events i) (h2 : e2 ∈ r.events i) (he : e1.event = e2.event) : e1 = e2 :=
  List.inj_on_of_nodup_map (h.keys i) h1 h2 he

theorem Registry.Inv.addr_unique {hash_ptr : Nat → Fin EVENT_TABLE_SIZE} {r : Registry}
    (h : r.Inv hash_ptr) {i j : Fin EVENT_TABLE_SIZE} {e1 e2 : blackmagic_gate_event}
    (h1 : e1 ∈ r.events i) (h2 : e2 ∈ r.events j) (he : e1.addr = e2.addr) :
    i = j ∧ e1 = e2 := by
  have hk := h.addrs i j e1 h1 e2 h2 he
  have hij : i = j := by
    rw [← h.placed i e1 h1, ← h.placed j e2 h2, hk]
  subst hij
  exact ⟨rfl, h.key_unique h1 h2 hk⟩

theorem Registry.Inv.addr_nodup {hash_ptr : Nat → Fin EVENT_TABLE_SIZE} {r : Registry}
    (h : r.Inv hash_ptr) (i : Fin EVENT_TABLE_SIZE) :
    ((r.events i).map (fun e => e.addr)).Nodup :=
  List.Nodup.map_on (fun _ hx _ hy hxy => (h.addr_unique hx hy hxy).2)
    (List.Nodup.of_map _ (h.keys i))

/-- A channel of `key` can only be in the bucket of `key`. -/
theorem Registry.Inv.absent_elsewhere {hash_ptr : Nat → Fin EVENT_TABLE_SIZE} {r : Registry}
    (h : r.Inv hash_ptr) (key : Nat) (i : Fin EVENT_TABLE_SIZE) (hi : i ≠ hash_ptr key) :
    ∀ ev ∈ r.events i, ev.event ≠ key := by
  intro ev hev hk
  apply hi
  rw [← h.placed i ev hev, hk]

theorem Registry.Inv.get_hit {hash_ptr : Nat → Fin EVENT_TABLE_SIZE} {r : Registry}
    (h : r.Inv hash_ptr) (key : Nat) (create : Bool) (kmalloc : Option Nat)
    (ev : blackmagic_gate_event) (hm : ev ∈ r.events (hash_ptr key)) (hk : ev.event = key) :
    get_event hash_ptr r.events key create kmalloc =
      (fun i => (r.events i).map (bump key), some ev.addr) := by
  simp only [get_event, get_event_scan_hit key _ ev (h.keys _) hm hk]
  congr 1
  funext i
  by_cases hi : i = hash_ptr key
  · subst hi; simp
  · rw [Function.update_noteq hi, map_bump_of_absent key _ (h.absent_elsewhere key i hi)]

theorem get_event_create (hash_ptr : Nat → Fin EVENT_TABLE_SIZE) (events : EventTable)
    (key a : Nat) (h : ∀ ev ∈ events (hash_ptr key), ev.event ≠ key) :
    get_event hash_ptr events key true (some a) =
      (Function.update events (hash_ptr key)
        ({ addr := a, event := key, ref := 1, wqh := [] } :: events (hash_ptr key)), some a) := by
  simp [get_event, get_event_scan_none key _ h]

theorem Registry.Inv.put {hash_ptr : Nat → Fin EVENT_TABLE_SIZE} {r : Registry}
    (h : r.Inv hash_ptr) (p : Nat) :
    put_event r.events p = fun i => (r.events i).filterMap (drop p) := by
  funext i
  exact put_event_bucket_eq p _ (h.addr_nodup i)

theorem outstanding_append (refs : List (Nat × Nat)) (key a k : Nat) :
    outstanding (refs ++ [(key, a)]) k = outstanding refs k + (if key = k then 1 else 0) := by
  unfold outstanding
  rw [List.countP_append]
  by_cases hk : key = k <;> simp [List.countP_cons, hk]

/-- A hit of `get_event` keeps the invariant, if the count of the channel is
below `INT_MAX`. -/
theorem Registry.Inv.hit {hash_ptr : Nat → Fin EVENT_TABLE_SIZE} {r : Registry}
    (h : r.Inv hash_ptr) (key : Nat) (ev : blackmagic_gate_event)
    (hm : ev ∈ r.events (hash_ptr key)) (hk : ev.event = key)
    (hb : outstanding r.refs key < INT_MAX) :
    Registry.Inv hash_ptr
      { events := fun i => (r.events i).map (bump key), refs := r.refs ++ [(key, ev.addr)] } := by
  constructor
  · intro i e he
    obtain ⟨x, hx, rfl⟩ := List.mem_map.mp he
    rw [bump_event]
    exact h.placed i x hx
  · intro i
    have : ((r.events i).map (bump key)).map (fun e => e.event) =
        (r.events i).map (fun e => e.event) := by
      rw [List.map_map]
      apply List.map_congr_left
      intro x _
      exact bump_event key x
    simp only [this]
    exact h.keys i
  · intro i j e1 h1 e2 h2
    obtain ⟨x1, hx1, rfl⟩ := List.mem_map.mp h1
    obtain ⟨x2, hx2, rfl⟩ := List.mem_map.mp h2
    rw [bump_addr, bump_addr, bump_event, bump_event]
    exact h.addrs i j x1 hx1 x2 hx2
  · intro x hx
    rcases List.mem_append.mp hx with hx | hx
    · obtain ⟨e, he, h1, h2⟩ := h.refs_live x hx
      exact ⟨bump key e, List.mem_map_of_mem _ he, by rw [bump_event]; exact h1,
        by rw [bump_addr]; exact h2⟩
    · have hx1 : x = (key, ev.addr) := by simpa using hx
      subst hx1
      exact ⟨bump key ev, List.mem_map_of_mem _ hm, by rw [bump_event]; exact hk,
        by rw [bump_addr]⟩
  · intro i e he
    obtain ⟨x, hx, rfl⟩ := List.mem_map.mp he
    obtain ⟨c1, c2⟩ := h.counted i x hx
    rw [bump_event]
    simp only [outstanding_append]
    by_cases hxk : x.event = key
    · subst hxk
      have hw : wrap_int (x.ref + 1) = x.ref + 1 := by
        unfold INT_MAX at hb
        apply wrap_int_of_range <;> omega
      have hb1 : (bump x.event x).ref = x.ref + 1 := by simp [bump, hw]
      rw [hb1]
      simp only [if_true]
      constructor
      · rw [c1]; push_cast; rfl
      · omega
    · have hkx : ¬ key = x.event := fun e => hxk e.symm
      rw [bump_of_ne key x hxk]
      simp only [hkx, if_false, Nat.add_zero]
      exact ⟨c1, c2⟩

theorem mem_update_cons (events : EventTable) (idx i : Fin EVENT_TABLE_SIZE)
    (new ev : blackmagic_gate_event) :
    ev ∈ Function.update events idx (new :: events idx) i ↔
      (i = idx ∧ ev = new) ∨ ev ∈ events i := by
  by_cases hi : i = idx
  · subst hi
    simp
  · simp [Function.update_noteq hi, hi]

/-- No reference to a key without a channel is outstanding. -/
theorem Registry.Inv.outstanding_absent {hash_ptr : Nat → Fin EVENT_TABLE_SIZE} {r : Registry}
    (h : r.Inv hash_ptr) (key : Nat) (habs : ∀ ev ∈ r.events (hash_ptr key), ev.event ≠ key) :
    outstanding r.refs key = 0 := by
  unfold outstanding
  rw [List.countP_eq_zero]
  intro x hx hxk
  have hxk1 : x.1 = key := by simpa using hxk
  obtain ⟨e, he, h1, _⟩ := h.refs_live x hx
  rw [hxk1] at he h1
  exact habs e he h1

/-- A miss of `get_event` that creates the channel keeps the invariant. -/
theorem Registry.Inv.create {hash_ptr : Nat → Fin EVENT_TABLE_SIZE} {r : Registry}
    (h : r.Inv hash_ptr) (key a : Nat)
    (habs : ∀ ev ∈ r.events (hash_ptr key), ev.event ≠ key)
    (hfresh : ∀ i, ∀ ev ∈ r.events i, ev.addr ≠ a) :
    Registry.Inv hash_ptr
      { events := Function.update r.events (hash_ptr key)
          ({ addr := a, event := key, ref := 1, wqh := [] } :: r.events (hash_ptr key)),
        refs := r.refs ++ [(key, a)] } := by
  have h0 := h.outstanding_absent key habs
  constructor
  · intro i e he
    rcases (mem_update_cons _ _ _ _ _).mp he with ⟨hi, rfl⟩ | he
    · exact hi.symm
    · exact h.placed i e he
  · intro i
    by_cases hi : i = hash_ptr key
    · subst hi
      simp only [Function.update_same, List.map_cons, List.nodup_cons]
      refine ⟨?_, h.keys _⟩
      intro hmem
      obtain ⟨e, he, hek⟩ := List.mem_map.mp hmem
      exact habs e he hek
    · simp only [Function.update_noteq hi]
      exact h.keys i
  · intro i j e1 h1 e2 h2 hadd
    rcases (mem_update_cons _ _ _ _ _).mp h1 with ⟨_, rfl⟩ | h1
    · rcases (mem_update_cons _ _ _ _ _).mp h2 with ⟨_, rfl⟩ | h2
      · rfl
      · exact absurd hadd.symm (hfresh j e2 h2)
    · rcases (mem_update_cons _ _ _ _ _).mp h2 with ⟨_, rfl⟩ | h2
      · exact absurd hadd (hfresh i e1 h1)
      · exact h.addrs i j e1 h1 e2 h2 hadd
  · intro x hx
    rcases List.mem_append.mp hx with hx | hx
    · obtain ⟨e, he, h1, h2⟩ := h.refs_live x hx
      exact ⟨e, (mem_update_cons _ _ _ _ _).mpr (Or.inr he), h1, h2⟩
    · have hx1 : x = (key, a) := by simpa using hx
      subst hx1
      exact ⟨_, (mem_update_cons _ _ _ _ _).mpr (Or.inl ⟨rfl, rfl⟩), rfl, rfl⟩
  · intro i e he
    simp only [outstanding_append]
    rcases (mem_update_cons _ _ _ _ _).mp he with ⟨_, rfl⟩ | he
    · simp [h0]
    · have hek : ¬ key = e.event := by
        intro hk
        have hi : i = hash_ptr key := by rw [← h.placed i e he, hk]
        subst hi
        exact habs e he hk.symm
      simp only [hek, if_false, Nat.add_zero]
      exact h.counted i e he

/-- A call of `put_event` on an outstanding reference keeps the invariant. -/
theorem Registry.Inv.release {hash_ptr : Nat → Fin EVENT_TABLE_SIZE} {r : Registry}
    (h : r.Inv hash_ptr) (x : Nat × Nat) (hx : x ∈ r.refs)
    (hb : outstanding r.refs x.1 ≤ INT_MAX) :
    Registry.Inv hash_ptr
      { events := fun i => (r.events i).filterMap (drop x.2), refs := r.refs.erase x } := by
  obtain ⟨ev, hev, hek, hea⟩ := h.refs_live x hx
  have hself : ∀ i, ∀ e ∈ r.events i, e.addr = x.2 → e = ev := by
    intro i e he hadd
    exact (h.addr_unique he hev (hadd.trans hea.symm)).2
  have hother : ∀ i, ∀ e ∈ r.events i, e.addr ≠ x.2 → e.event ≠ x.1 := by
    intro i e he hadd hk
    have hi : i = hash_ptr x.1 := by rw [← h.placed i e he, hk]
    subst hi
    exact hadd ((h.key_unique he hev (hk.trans hek.symm)) ▸ hea)
  have hcnt : outstanding (r.refs.erase x) x.1 + 1 = outstanding r.refs x.1 := by
    unfold outstanding
    exact countP_erase_of_pos (fun y => decide (y.1 = x.1)) r.refs x hx (by simp)
  have hw : wrap_int (ev.ref - 1) = ev.ref - 1 := by
    have hc := (h.counted _ ev hev).1
    rw [hek] at hc
    unfold INT_MAX at hb
    apply wrap_int_of_range <;> omega
  constructor
  · intro i e he
    obtain ⟨y, hy, hd⟩ := List.mem_filterMap.mp he
    rw [(drop_event _ y e hd).1]
    exact h.placed i y hy
  · intro i
    exact List.Nodup.sublist (filterMap_drop_keys x.2 (r.events i)) (h.keys i)
  · intro i j e1 h1 e2 h2
    obtain ⟨y1, hy1, hd1⟩ := List.mem_filterMap.mp h1
    obtain ⟨y2, hy2, hd2⟩ := List.mem_filterMap.mp h2
    rw [(drop_event _ y1 e1 hd1).1, (drop_event _ y2 e2 hd2).1, (drop_event _ y1 e1 hd1).2,
      (drop_event _ y2 e2 hd2).2]
    exact h.addrs i j y1 hy1 y2 hy2
  · intro z hz
    have hz0 : z ∈ r.refs := List.mem_of_mem_erase hz
    obtain ⟨e, he, h1, h2⟩ := h.refs_live z hz0
    by_cases hadd : e.addr = x.2
    · have hee := hself _ e he hadd
      subst hee
      have hzx : z = x := Prod.ext (h1.symm.trans hek) (h2.symm.trans hea)
      subst hzx
      have hpos : 0 < outstanding (r.refs.erase z) z.1 := by
        unfold outstanding
        rw [List.countP_pos_iff]
        exact ⟨z, hz, by simp⟩
      have hc := (h.counted _ e he).1
      rw [hek] at hc
      have hne : ¬ wrap_int (e.ref - 1) = 0 := by
        rw [hw, hc, ← hcnt]; push_cast; omega
      refine ⟨{ e with ref := wrap_int (e.ref - 1) }, ?_, h1, h2⟩
      apply List.mem_filterMap.mpr
      exact ⟨e, he, by simp [drop, hadd, hne]⟩
    · exact ⟨e, List.mem_filterMap.mpr ⟨e, he, drop_of_ne _ e hadd⟩, h1, h2⟩
  · intro i e he
    obtain ⟨y, hy, hd⟩ := List.mem_filterMap.mp he
    obtain ⟨c1, c2⟩ := h.counted i y hy
    by_cases hadd : y.addr = x.2
    · have hye := hself i y hy hadd
      subst hye
      unfold drop at hd
      rw [if_pos hadd] at hd
      split at hd
      · cases hd
      · rename_i hne
        cases hd
        simp only
        rw [hw] at hne ⊢
        rw [hek] at c1 ⊢
        constructor
        · rw [c1, ← hcnt]; push_cast; omega
        · omega
    · rw [drop_of_ne _ y hadd] at hd
      have hye : y = e := Option.some.inj hd
      subst hye
      have hk := hother i y hy hadd
      have : outstanding (r.refs.erase x) y.event = outstanding r.refs y.event := by
        unfold outstanding
        exact countP_erase_of_neg (fun z => decide (z.1 = y.event)) r.refs x
          (by simpa using fun e => hk e.symm)
      rw [this]
      exact ⟨c1, c2⟩

theorem Registry.reg_inv_init (hash_ptr : Nat → Fin EVENT_TABLE_SIZE) :
    Registry.init.Inv hash_ptr := by
  constructor
  · intro i e he
    cases he
  · intro i
    exact List.nodup_nil
  · intro i j e1 h1
    cases h1
  · intro x hx
    cases hx
  · intro i e he
    cases he

/-- A call of `get_event` keeps the invariant, if the registry is in range
after it. -/
theorem Registry.Inv.get {hash_ptr : Nat → Fin EVENT_TABLE_SIZE} {r : Registry}
    (h : r.Inv hash_ptr) (key : Nat) (create : Bool) (kmalloc : Option Nat)
    (hok : kmalloc_ok r.events kmalloc = true)
    (hb : (r.get hash_ptr key create kmalloc).in_range = true) :
    (r.get hash_ptr key create kmalloc).Inv hash_ptr := by
  by_cases hex : ∃ ev ∈ r.events (hash_ptr key), ev.event = key
  · obtain ⟨ev, hm, hk⟩ := hex
    have e := h.get_hit key create kmalloc ev hm hk
    have hb1 := outstanding_le_of_in_range _ hb key
    simp only [Registry.get, e] at hb1 ⊢
    rw [outstanding_append, if_pos rfl] at hb1
    exact h.hit key ev hm hk hb1
  · have habs : ∀ ev ∈ r.events (hash_ptr key), ev.event ≠ key := by
      intro ev hm hk
      exact hex ⟨ev, hm, hk⟩
    have hsame : Registry.Inv hash_ptr { events := r.events, refs := r.refs } := h
    cases create with
    | false =>
      simp only [Registry.get, get_event_lookup_absent hash_ptr r.events key kmalloc habs]
      exact hsame
    | true =>
      cases kmalloc with
      | none =>
        simp only [Registry.get, get_event_create_fails hash_ptr r.events key habs]
        exact hsame
      | some a =>
        have hfresh : ∀ i, ∀ ev ∈ r.events i, ev.addr ≠ a := by
          apply (find_event_none r.events a).mp
          simpa [kmalloc_ok] using hok
        simp only [Registry.get, get_event_create hash_ptr r.events key a habs]
        exact h.create key a habs hfresh

/-- Every call on the registry keeps the invariant, if the registry is in range
before and after it. -/
theorem Registry.reg_inv_step (hash_ptr : Nat → Fin EVENT_TABLE_SIZE) {r r1 : Registry} (op : RegOp)
    (h : r.Inv hash_ptr) (hs : r.step hash_ptr op = some r1)
    (hb : r.in_range = true) (hb1 : r1.in_range = true) : r1.Inv hash_ptr := by
  cases op with
  | get_or_create key kmalloc =>
    simp only [Registry.step] at hs
    split at hs
    · rename_i hok
      rw [← Option.some.inj hs] at hb1 ⊢
      exact h.get key true kmalloc hok hb1
    · cases hs
  | lookup key =>
    simp only [Registry.step] at hs
    rw [← Option.some.inj hs] at hb1 ⊢
    exact h.get key false none rfl hb1
  | release p =>
    simp only [Registry.step] at hs
    split at hs
    · rename_i x hx
      rw [← Option.some.inj hs]
      have hp : x.2 = p := by simpa using List.find?_some hx
      have hm : x ∈ r.refs := List.mem_of_find?_eq_some hx
      rw [h.put p, ← hp]
      exact h.release x hm (outstanding_le_of_in_range r hb x.1)
    · cases hs

/-- A history that stays in range ends in range. -/
theorem Registry.in_range_of_bounded (hash_ptr : Nat → Fin EVENT_TABLE_SIZE) (ops : List RegOp) :
    ∀ {r r1 : Registry}, Registry.bounded hash_ptr r ops = true →
      Registry.run hash_ptr r ops = some r1 → r1.in_range = true := by
  induction ops with
  | nil =>
    intro r r1 hb hr
    cases hr
    exact hb
  | cons op rest ih =>
    intro r r1 hb hr
    simp only [Registry.run] at hr
    simp only [Registry.bounded, Bool.and_eq_true] at hb
    split at hr
    · rename_i r2 hs
      rw [hs] at hb
      exact ih hb.2 hr
    · cases hr

theorem Registry.bounded_head (hash_ptr : Nat → Fin EVENT_TABLE_SIZE) (ops : List RegOp)
    (r : Registry) (hb : Registry.bounded hash_ptr r ops = true) : r.in_range = true := by
  cases ops with
  | nil => exact hb
  | cons op rest =>
    simp only [Registry.bounded, Bool.and_eq_true] at hb
    exact hb.1

theorem Registry.reg_inv_run (hash_ptr : Nat → Fin EVENT_TABLE_SIZE) (ops : List RegOp) :
    ∀ {r r1 : Registry}, r.Inv hash_ptr → Registry.bounded hash_ptr r ops = true →
      Registry.run hash_ptr r ops = some r1 → r1.Inv hash_ptr := by
  induction ops with
  | nil =>
    intro r r1 h _ hr
    cases hr
    exact h
  | cons op rest ih =>
    intro r r1 h hb hr
    simp only [Registry.run] at hr
    simp only [Registry.bounded, Bool.and_eq_true] at hb
    split at hr
    · rename_i r2 hs
      rw [hs] at hb
      exact ih (Registry.reg_inv_step hash_ptr op h hs hb.1
        (Registry.bounded_head hash_ptr rest r2 hb.2)) hb.2 hr
    · cases hr

theorem filterMap_eq_self_of {α : Type} (f : α → Option α) (l : List α)
    (h : ∀ x ∈ l, f x = some x) : l.filterMap f = l := by
  induction l with
  | nil => rfl
  | cons x rest ih =>
    rw [List.filterMap_cons, h x (List.mem_cons_self _ _)]
    simp only
    rw [ih (fun y hy => h y (List.mem_cons_of_mem _ hy))]

/-- A `get_event` that returns a pointer, followed by `put_event` on it, gives
back the table, if the count of the channel is below `INT_MAX`. -/
theorem Registry.Inv.get_put {hash_ptr : Nat → Fin EVENT_TABLE_SIZE} {r : Registry}
    (h : r.Inv hash_ptr) (key : Nat) (create : Bool) (kmalloc : Option Nat) (p : Nat)
    (hb : outstanding r.refs key < INT_MAX)
    (hok : kmalloc_ok r.events kmalloc = true)
    (hp : (get_event hash_ptr r.events key create kmalloc).2 = some p) :
    put_event (get_event hash_ptr r.events key create kmalloc).1 p = r.events := by
  by_cases hex : ∃ ev ∈ r.events (hash_ptr key), ev.event = key
  · obtain ⟨ev, hm, hk⟩ := hex
    have e := h.get_hit key create kmalloc ev hm hk
    rw [e] at hp ⊢
    have hpe : ev.addr = p := Option.some.inj hp
    have h1 := (h.hit key ev hm hk hb).put p
    simp only at h1 ⊢
    rw [h1]
    funext i
    rw [List.filterMap_map]
    apply filterMap_eq_self_of
    intro y hy
    by_cases hyk : y.event = key
    · have hye : y = ev := by
        have hi : i = hash_ptr key := by rw [← h.placed i y hy, hyk]
        subst hi
        exact h.key_unique hy hm (hyk.trans hk.symm)
      subst hye
      obtain ⟨hc, hpos⟩ := h.counted i y hy
      rw [hyk] at hc
      have hne0 : ¬ y.ref = 0 := by omega
      have hw1 : wrap_int (y.ref + 1) = y.ref + 1 := by
        unfold INT_MAX at hb
        apply wrap_int_of_range <;> omega
      have hw2 : wrap_int y.ref = y.ref := by
        unfold INT_MAX at hb
        apply wrap_int_of_range <;> omega
      cases y with
      | mk ya ye yr yw =>
        simp only at hyk hpe hne0 hw1 hw2
        subst hyk hpe
        simp [bump, drop, hne0, hw1, hw2]
    · have hadd : y.addr ≠ p := by
        intro hadd
        have := (h.addr_unique hy hm (hadd.trans hpe.symm)).2
        exact hyk (this ▸ hk)
      simp [bump_of_ne key y hyk, drop_of_ne p y hadd]
  · have habs : ∀ ev ∈ r.events (hash_ptr key), ev.event ≠ key := by
      intro ev hm hk
      exact hex ⟨ev, hm, hk⟩
    cases create with
    | false =>
      rw [get_event_lookup_absent hash_ptr r.events key kmalloc habs] at hp
      cases hp
    | true =>
      cases kmalloc with
      | none =>
        rw [get_event_create_fails hash_ptr r.events key habs] at hp
        cases hp
      | some a =>
        have hfresh : ∀ i, ∀ ev ∈ r.events i, ev.addr ≠ a := by
          apply (find_event_none r.events a).mp
          simpa [kmalloc_ok] using hok
        rw [get_event_create hash_ptr r.events key a habs] at hp ⊢
        have hpa : a = p := Option.some.inj hp
        subst hpa
        funext i
        by_cases hi : i = hash_ptr key
        · subst hi
          have hw0 : wrap_int 0 = 0 := by decide
          simp [put_event, put_event_bucket, hw0]
        · simp only [put_event, Function.update_noteq hi]
          exact put_event_bucket_absent a _ (hfresh i)

/-! ### The reference counts of the event table -/

/-- C8: after every sequence of `get_event(create = true)`, `get_event(create =
false)` and `put_event` from the empty table, each `put_event` on a reference
returned earlier and not yet put back, all along which no channel has more
than `INT_MAX` outstanding references (the most its `int ref` can count):
every bucket holds at most one channel per key, and a channel sits in the bucket
of its key only; a channel for a key is in the table exactly when the number of
outstanding references to it is positive; the `ref` field of every channel is
that number; and a `get_event` on a key with fewer than `INT_MAX` outstanding
references that returns a pointer, followed at once by `put_event` on it, gives
back the table exactly. -/
theorem registry_refcount (hash_ptr : Nat → Fin EVENT_TABLE_SIZE) (ops : List RegOp)
    (r : Registry) (hrun : Registry.run hash_ptr Registry.init ops = some r)
    (hbound : Registry.bounded hash_ptr Registry.init ops = true) :
    (∀ i, ((r.events i).map (fun ev => ev.event)).Nodup ∧
      ∀ ev ∈ r.events i, hash_ptr ev.event = i) ∧
    (∀ key, (∃ i, ∃ ev ∈ r.events i, ev.event = key) ↔ 0 < outstanding r.refs key) ∧
    (∀ i, ∀ ev ∈ r.events i, ev.ref = (outstanding r.refs ev.event : Int)) ∧
    (∀ key create kmalloc p, outstanding r.refs key < INT_MAX →
      kmalloc_ok r.events kmalloc = true →
      (get_event hash_ptr r.events key create kmalloc).2 = some p →
      put_event (get_event hash_ptr r.events key create kmalloc).1 p = r.events) := by
  have h := Registry.reg_inv_run hash_ptr ops (Registry.reg_inv_init hash_ptr) hbound hrun
  refine ⟨fun i => ⟨h.keys i, h.placed i⟩, ?_, fun i ev hev => (h.counted i ev hev).1, ?_⟩
  · intro key
    constructor
    · rintro ⟨i, ev, hev, hk⟩
      have := h.counted i ev hev
      rw [hk] at this
      omega
    · intro hpos
      unfold outstanding at hpos
      rw [List.countP_pos_iff] at hpos
      obtain ⟨x, hx, hxk⟩ := hpos
      have hxk1 : x.1 = key := by simpa using hxk
      obtain ⟨ev, hev, h1, _⟩ := h.refs_live x hx
      exact ⟨_, ev, hev, h1.trans hxk1⟩
  · intro key create kmalloc p hb hok hp
    exact h.get_put key create kmalloc p hb hok hp

/-- C8 on `registry_trace`: at its end the table holds the channel of key 8
alone, with one reference. -/
theorem registry_refcount_witness :
    Registry.bounded hash_mod Registry.init registry_trace = true ∧
    ∃ r, Registry.run hash_mod Registry.init registry_trace = some r ∧
      r.events (hash_mod 8) = [⟨101, 8, 1, []⟩] ∧ r.events (hash_mod 7) = [] ∧
      r.refs = [(8, 101)] ∧
      ((∀ i, ((r.events i).map (fun ev => ev.event)).Nodup ∧
        ∀ ev ∈ r.events i, hash_mod ev.event = i) ∧
      (∀ key, (∃ i, ∃ ev ∈ r.events i, ev.event = key) ↔ 0 < outstanding r.refs key) ∧
      (∀ i, ∀ ev ∈ r.events i, ev.ref = (outstanding r.refs ev.event : Int)) ∧
      (∀ key create kmalloc p, outstanding r.refs key < INT_MAX →
        kmalloc_ok r.events kmalloc = true →
        (get_event hash_mod r.events key create kmalloc).2 = some p →
        put_event (get_event hash_mod r.events key create kmalloc).1 p = r.events)) := by
  have h1 : (Registry.run hash_mod Registry.init registry_trace).map
      (fun r => (r.events (hash_mod 8), r.events (hash_mod 7), r.refs)) =
      some ([⟨101, 8, 1, []⟩], [], [(8, 101)]) := by decide
  obtain ⟨r, hr⟩ := Option.isSome_iff_exists.mp
    (show (Registry.run hash_mod Registry.init registry_trace).isSome = true by decide)
  rw [hr] at h1
  simp only [Option.map_some', Option.some.injEq, Prod.mk.injEq] at h1
  have hb : Registry.bounded hash_mod Registry.init registry_trace = true := by decide
  exact ⟨hb, r, hr, h1.1, h1.2.1, h1.2.2, registry_refcount hash_mod registry_trace r hr hb⟩

/-! ### The steal path of `dl_gate_lock_interrupt` -/

/-- C12: for every gate with `count = 0` and a designated waiter `w`,
`dl_gate_lock_interrupt` returns true, empties the hand-off slot, leaves `count`
and `run_bh_on_unlock` as they were and puts `w` at the head of the wait list,
before every waiter already queued; the call is one step that leaves the caller
where it was, holding the gate; and the next release (with nothing changed in
between) takes `w` off the head again, designates it and wakes it, the wait
list being the one before the steal. -/
theorem lock_interrupt_steals (gate : blackmagic_gate) (w : Nat) (h0 : gate.count = 0)
    (hn : gate.next = some w) :
    (dl_gate_lock_interrupt gate).2 = true ∧
    (dl_gate_lock_interrupt gate).1.next = none ∧
    (dl_gate_lock_interrupt gate).1.count = gate.count ∧
    (dl_gate_lock_interrupt gate).1.run_bh_on_unlock = gate.run_bh_on_unlock ∧
    (dl_gate_lock_interrupt gate).1.wait_list = w :: gate.wait_list ∧
    (∀ (hash_ptr : Nat → Fin EVENT_TABLE_SIZE) (s : GateSys) (t : Nat), s.gate = gate →
      (s.task t).pc = Pc.idle →
      ∃ s1, s.step hash_ptr (Action.lock_interrupt t) = some s1 ∧ s1.task = s.task ∧
        s1.holder = some t) ∧
    (∀ (mask : Nat) (handler : Nat → Nat),
      (__dl_gate_unlock mask handler id (dl_gate_lock_interrupt gate).1).1.next = some w ∧
      (__dl_gate_unlock mask handler id (dl_gate_lock_interrupt gate).1).1.wait_list =
        gate.wait_list ∧
      Effect.wake_up_process w ∈
        (__dl_gate_unlock mask handler id (dl_gate_lock_interrupt gate).1).2) := by
  have e := lock_interrupt_steal gate w h0 hn
  refine ⟨?_, ?_, ?_, ?_, ?_, ?_, ?_⟩
  · rw [e]
  · rw [e]
  · rw [e]
  · rw [e]
  · rw [e]
  · intro hash_ptr s t hs ht
    refine ⟨{ s with gate := (dl_gate_lock_interrupt s.gate).1,
                     holder := if (dl_gate_lock_interrupt s.gate).2 then some t
                               else s.holder }, ?_, ?_, ?_⟩
    · simp only [GateSys.step, ht, if_true]
    · rfl
    · simp only [hs, e, if_true]
  · intro mask handler
    rw [e]
    cases hb : gate.run_bh_on_unlock <;>
      simp [__dl_gate_unlock, __dl_gate_unlock_tail, __dl_gate_unlock_clear, hb]

/-- C12 on a held gate with waiter 1 designated and waiter 2 queued. -/
theorem lock_interrupt_steals_witness :
    (dl_gate_lock_interrupt
      { dl_alloc_gate with count := 0, wait_list := [2], next := some 1 }).1.wait_list = [1, 2] ∧
    (__dl_gate_unlock 0 id id (dl_gate_lock_interrupt
      { dl_alloc_gate with count := 0, wait_list := [2], next := some 1 }).1).1.next = some 1 :=
  ⟨(lock_interrupt_steals { dl_alloc_gate with count := 0, wait_list := [2], next := some 1 } 1
      rfl rfl).2.2.2.2.1,
   ((lock_interrupt_steals { dl_alloc_gate with count := 0, wait_list := [2], next := some 1 } 1
      rfl rfl).2.2.2.2.2.2 0 id).1⟩

/-! ### Waiters are queued once -/

theorem GateSys.Frame.inv1 {s s1 : GateSys} (f : s.Frame s1) (h : s.Inv1) : s1.Inv1 := by
  obtain ⟨_, hw, hn, _, _, _, hp⟩ := f
  have e : s1.gate.waiters = s.gate.waiters := by
    simp only [blackmagic_gate.waiters, hw, hn]
  constructor
  · rw [e]; exact h.nodup
  · intro w hm
    rw [e] at hm
    rw [(hp w).1]
    exact h.waiting w hm

theorem GateSys.Inv1.not_mem {s : GateSys} (h : s.Inv1) (t : Nat)
    (ht : (s.task t).pc.waiting = false) : t ∉ s.gate.waiters := by
  intro hm
  have := h.waiting t hm
  rw [ht] at this
  cases this

theorem GateSys.inv1_set_pc {s : GateSys} (t : Nat) (pc : Pc) (h : s.Inv1)
    (ht : (s.task t).pc.waiting = false) : (s.set_pc t pc).Inv1 := by
  have hnm := h.not_mem t ht
  constructor
  · exact h.nodup
  · intro w hm
    have hm0 : w ∈ s.gate.waiters := hm
    have hwt : w ≠ t := fun e => hnm (e ▸ hm0)
    simpa [GateSys.set_pc, GateSys.set_task, Function.update_noteq hwt] using h.waiting w hm0

theorem GateSys.inv1_unlock_tail {s : GateSys} (h : s.Inv1) (hn : s.gate.next = none) :
    s.unlock_tail.Inv1 := by
  have e : s.unlock_tail.gate.waiters = s.gate.waiters := by
    simp only [GateSys.unlock_tail, __dl_gate_unlock_tail, blackmagic_gate.waiters]
    cases hw : s.gate.wait_list <;> simp [hn]
  constructor
  · rw [e]; exact h.nodup
  · intro w hm
    rw [e] at hm
    have : (s.unlock_tail.task w).pc = (s.task w).pc := (wake_effects_frame _ _ w).1
    rw [this]
    exact h.waiting w hm

theorem GateSys.inv1_lock_enter {s : GateSys} (t : Nat) (done wait : Pc) (h : s.Inv1)
    (ht : (s.task t).pc.waiting = false) (hwait : wait.waiting = true) :
    (s.lock_enter t done wait).Inv1 := by
  have hnm := h.not_mem t ht
  by_cases hc : 0 < s.gate.count
  · have e : s.lock_enter t done wait =
        { s with gate := { s.gate with count := s.gate.count - 1 }, holder := some t,
                 task := Function.update s.task t
                   { s.task t with pc := done, timeout := MAX_SCHEDULE_TIMEOUT } } := by
      simp [GateSys.lock_enter, __dl_gate_lock_enter, hc]
    rw [e]
    constructor
    · exact h.nodup
    · intro w hm
      have hm0 : w ∈ s.gate.waiters := hm
      have hwt : w ≠ t := fun e => hnm (e ▸ hm0)
      simpa [Function.update_noteq hwt] using h.waiting w hm0
  · have e : s.lock_enter t done wait =
        { s with gate := { s.gate with wait_list := s.gate.wait_list ++ [t] },
                 queued := s.queued ++ [t],
                 task := Function.update s.task t
                   { s.task t with pc := wait, state := TaskState.TASK_UNINTERRUPTIBLE,
                                   timeout := MAX_SCHEDULE_TIMEOUT } } := by
      simp [GateSys.lock_enter, __dl_gate_lock_enter, hc]
    have ew : ∀ g : blackmagic_gate,
        ({ g with wait_list := g.wait_list ++ [t] } : blackmagic_gate).waiters =
          g.waiters ++ [t] := by
      intro g
      simp [blackmagic_gate.waiters]
    rw [e]
    constructor
    · simp only [ew]
      rw [List.nodup_append]
      refine ⟨h.nodup, List.nodup_singleton t, ?_⟩
      intro a ha hb
      have : a = t := by simpa using hb
      exact hnm (this ▸ ha)
    · intro w hm
      simp only [ew, List.mem_append, List.mem_singleton] at hm
      rcases hm with hm | hm
      · have hwt : w ≠ t := fun e => hnm (e ▸ hm)
        simpa [Function.update_noteq hwt] using h.waiting w hm
      · subst hm
        simpa using hwait

theorem GateSys.inv1_lock_resume {s : GateSys} (t elapsed : Nat) (done : Pc) (h : s.Inv1)
    (h0 : s.Inv0) : (s.lock_resume t elapsed done).Inv1 := by
  have hto : schedule_timeout (s.task t).timeout elapsed = MAX_SCHEDULE_TIMEOUT := by
    rw [h0.tmo t]; exact schedule_timeout_max elapsed
  by_cases hn : s.gate.next = some t
  · have e : s.lock_resume t elapsed done =
        { s with gate := { s.gate with next := none }, holder := some t,
                 granted := s.granted ++ [t],
                 task := Function.update s.task t
                   { s.task t with pc := done, timeout := MAX_SCHEDULE_TIMEOUT } } := by
      simp [GateSys.lock_resume, __dl_gate_lock_resume, hn, hto]
    have hw : s.gate.waiters = t :: s.gate.wait_list := by
      simp [blackmagic_gate.waiters, hn]
    have hnd := h.nodup
    rw [hw, List.nodup_cons] at hnd
    rw [e]
    constructor
    · simpa [blackmagic_gate.waiters] using hnd.2
    · intro w hm
      have hm1 : w ∈ s.gate.wait_list := by simpa [blackmagic_gate.waiters] using hm
      have hwt : w ≠ t := fun e => hnd.1 (e ▸ hm1)
      have hm0 : w ∈ s.gate.waiters := by rw [hw]; exact List.mem_cons_of_mem _ hm1
      simpa [Function.update_noteq hwt] using h.waiting w hm0
  · have e : s.lock_resume t elapsed done =
        { s with task := Function.update s.task t
                   { s.task t with state := TaskState.TASK_UNINTERRUPTIBLE,
                                   timeout := MAX_SCHEDULE_TIMEOUT } } := by
      simp [GateSys.lock_resume, __dl_gate_lock_resume, hn, hto, max_timeout_pos]
    rw [e]
    constructor
    · exact h.nodup
    · intro w hm
      have hm0 : w ∈ s.gate.waiters := hm
      by_cases hwt : w = t
      · subst hwt
        simpa using h.waiting w hm0
      · simpa [Function.update_noteq hwt] using h.waiting w hm0

theorem GateSys.Frame.pc_eq {s s1 : GateSys} (f : s.Frame s1) (t : Nat) :
    (s1.task t).pc = (s.task t).pc :=
  (f.2.2.2.2.2.2 t).1

theorem GateSys.inv1_sleep_exit {s : GateSys} (t p : Nat) (result : Int) (h : s.Inv1)
    (ht : (s.task t).pc.waiting = false) : (s.sleep_exit t p result).Inv1 := by
  unfold GateSys.sleep_exit
  have f1 := GateSys.Frame.set_wqh s p ((s.wqh p).erase t)
  have f2 := GateSys.Frame.set_task (s.set_wqh p ((s.wqh p).erase t)) t
    { (s.set_wqh p ((s.wqh p).erase t)).task t with state := TaskState.TASK_RUNNING } rfl rfl
  have f3 := GateSys.Frame.events
    ((s.set_wqh p ((s.wqh p).erase t)).set_task t
      { (s.set_wqh p ((s.wqh p).erase t)).task t with state := TaskState.TASK_RUNNING })
    (put_event ((s.set_wqh p ((s.wqh p).erase t)).set_task t
      { (s.set_wqh p ((s.wqh p).erase t)).task t with
        state := TaskState.TASK_RUNNING }).gate.events p)
  have f := (f1.trans f2).trans f3
  exact GateSys.inv1_lock_enter t _ _ (f.inv1 h) (by rw [f.pc_eq t]; exact ht) rfl

theorem GateSys.inv1_sleep_pass {s : GateSys} (t p : Nat) (h : s.Inv1)
    (ht : (s.task t).pc.waiting = false) : (s.sleep_pass t p).Inv1 := by
  unfold GateSys.sleep_pass
  have f1 : s.Frame (if t ∈ s.wqh p then s else s.set_wqh p (s.wqh p ++ [t])) := by
    split
    · exact GateSys.Frame.refl s
    · exact GateSys.Frame.set_wqh _ _ _
  have f2 := GateSys.Frame.set_task (if t ∈ s.wqh p then s else s.set_wqh p (s.wqh p ++ [t])) t
    { (if t ∈ s.wqh p then s else s.set_wqh p (s.wqh p ++ [t])).task t with
      state := TaskState.TASK_INTERRUPTIBLE } rfl rfl
  have f := f1.trans f2
  simp only []
  split
  · exact GateSys.inv1_set_pc t _ (f.inv1 h) (by rw [f.pc_eq t]; exact ht)
  · exact GateSys.inv1_sleep_exit t p _ (f.inv1 h) (by rw [f.pc_eq t]; exact ht)

theorem GateSys.inv1_sleep_enter (hash_ptr : Nat → Fin EVENT_TABLE_SIZE) {s : GateSys}
    (t key : Nat) (kmalloc : Option Nat) (h : s.Inv1) (h0 : s.Inv0) (hh : s.holder = some t)
    (ht : (s.task t).pc.waiting = false) : (s.sleep_enter hash_ptr t key kmalloc).Inv1 := by
  unfold GateSys.sleep_enter
  have f0 := GateSys.Frame.set_task s t { s.task t with triggered := false } rfl rfl
  simp only []
  split
  · exact GateSys.inv1_set_pc t _ (f0.inv1 h) (by rw [f0.pc_eq t]; exact ht)
  · rename_i p _
    have f1 := GateSys.Frame.events (s.set_task t { s.task t with triggered := false })
      (get_event hash_ptr (s.set_task t { s.task t with triggered := false }).gate.events
        key true kmalloc).1
    have f01 := f0.trans f1
    split
    · have f2 := GateSys.Frame.clear
        ({ s.set_task t { s.task t with triggered := false } with
            gate := { (s.set_task t { s.task t with triggered := false }).gate with
              events := (get_event hash_ptr
                (s.set_task t { s.task t with triggered := false }).gate.events
                key true kmalloc).1 } } : GateSys)
      have f := f01.trans f2
      exact GateSys.inv1_set_pc t _ (f.inv1 h) (by rw [f.pc_eq t]; exact ht)
    · have hn : s.gate.next = none := (h0.held t hh).2
      have hu := GateSys.inv1_unlock_tail (f01.inv1 h) hn
      refine GateSys.inv1_sleep_pass t p hu ?_
      have e1 : ∀ x : GateSys, (x.unlock_tail.task t).pc = (x.task t).pc :=
        fun x => (wake_effects_frame _ _ t).1
      rw [e1, f01.pc_eq t]
      exact ht

theorem GateSys.inv1_init : GateSys.init.Inv1 := by
  constructor
  · exact List.nodup_nil
  · intro w hw
    cases hw

theorem one_le_two_pow : (1 : Nat) ≤ 2 ^ 31 := by
  norm_num

theorem GateSys.inv1_lock_interrupt {s : GateSys} (t : Nat) (h0 : s.Inv0) (h1 : s.Inv1) :
    GateSys.Inv1 { s with gate := (dl_gate_lock_interrupt s.gate).1,
                          holder := if (dl_gate_lock_interrupt s.gate).2 then some t
                                    else s.holder } := by
  have hle := h0.count_le
  by_cases hc : 0 < s.gate.count
  · rw [lock_interrupt_pos s.gate hc (Nat.le_trans hle one_le_two_pow)]
    exact ⟨h1.nodup, h1.waiting⟩
  · have hc0 : s.gate.count = 0 := by omega
    cases hn : s.gate.next with
    | none =>
      rw [lock_interrupt_fail s.gate hc0 hn]
      exact ⟨h1.nodup, h1.waiting⟩
    | some w =>
      rw [lock_interrupt_steal s.gate w hc0 hn]
      have e : s.gate.waiters = w :: s.gate.wait_list := by
        simp [blackmagic_gate.waiters, hn]
      constructor
      · have := h1.nodup
        rw [e] at this
        simpa [blackmagic_gate.waiters] using this
      · intro x hx
        have hx0 : x ∈ s.gate.waiters := by
          rw [e]
          simpa [blackmagic_gate.waiters] using hx
        exact h1.waiting x hx0

/-- Every atomic step keeps the second part of the invariant. -/
theorem GateSys.inv1_step (hash_ptr : Nat → Fin EVENT_TABLE_SIZE) {s s1 : GateSys} (a : Action)
    (h : s.Inv) (h1 : s.Inv1) (hs : s.step hash_ptr a = some s1) : s1.Inv1 := by
  cases a with
  | lock t =>
    simp only [GateSys.step] at hs
    split at hs
    · rename_i hg
      cases hs
      exact GateSys.inv1_lock_enter t _ _ h1 (by rw [hg]; rfl) rfl
    · cases hs
  | lock_resume t elapsed =>
    simp only [GateSys.step] at hs
    split at hs
    · cases hs
      exact GateSys.inv1_lock_resume t elapsed _ h1 h.1
    · cases hs
  | lock_interrupt t =>
    simp only [GateSys.step] at hs
    split at hs
    · rw [← Option.some.inj hs]
      exact GateSys.inv1_lock_interrupt t h.1 h1
    · cases hs
  | unlock t =>
    simp only [GateSys.step] at hs
    split at hs
    · rename_i hg
      split at hs
      · cases hs
        exact GateSys.inv1_set_pc t _ ((GateSys.Frame.clear s).inv1 h1) (by
          rw [(GateSys.Frame.clear s).pc_eq t, hg.1]; rfl)
      · cases hs
        exact GateSys.inv1_unlock_tail h1 (h.1.held t hg.2).2
    · cases hs
  | unlock_bh_done t =>
    simp only [GateSys.step] at hs
    split at hs
    · rename_i hg
      cases hs
      have hh : s.holder = some t := h.2 t (by rw [hg]; rfl)
      exact GateSys.inv1_unlock_tail (GateSys.inv1_set_pc t Pc.idle h1 (by rw [hg]; rfl))
        (h.1.held t hh).2
    · cases hs
  | sleep t key kmalloc =>
    simp only [GateSys.step] at hs
    split at hs
    · rename_i hg
      cases hs
      exact GateSys.inv1_sleep_enter hash_ptr t key kmalloc h1 h.1 hg.2 (by rw [hg.1]; rfl)
    · cases hs
  | sleep_bh_done t =>
    simp only [GateSys.step] at hs
    split at hs
    · rename_i p hg
      cases hs
      have hh : s.holder = some t := h.2 t (by rw [hg]; rfl)
      refine GateSys.inv1_sleep_pass t p (GateSys.inv1_unlock_tail h1 (h.1.held t hh).2) ?_
      have e1 : (s.unlock_tail.task t).pc = (s.task t).pc := (wake_effects_frame _ _ t).1
      rw [e1, hg]; rfl
    · cases hs
  | sleep_resume t =>
    simp only [GateSys.step] at hs
    split at hs
    · split at hs
      · rename_i p hg _
        cases hs
        exact GateSys.inv1_sleep_pass t p h1 (by rw [hg]; rfl)
      · cases hs
    · cases hs
  | sleep_lock_resume t elapsed =>
    simp only [GateSys.step] at hs
    split at hs
    · split at hs
      · cases hs
        exact GateSys.inv1_lock_resume t elapsed _ h1 h.1
      · cases hs
    · cases hs
  | sleep_return t =>
    simp only [GateSys.step] at hs
    split at hs
    · rename_i r hg
      cases hs
      exact GateSys.inv1_set_pc t _ h1 (by rw [hg]; rfl)
    · cases hs
  | wakeup t key =>
    simp only [GateSys.step] at hs
    split at hs
    · rename_i hg
      have f := GateSys.Frame.events s (get_event hash_ptr s.gate.events key false none).1
      split at hs
      · cases hs
        exact f.inv1 h1
      · cases hs
        exact GateSys.inv1_set_pc t _ (f.inv1 h1) (by rw [f.pc_eq t, hg]; rfl)
    · cases hs
  | wakeup_walk t =>
    simp only [GateSys.step] at hs
    split at hs
    · rename_i p hg
      cases hs
      have f := GateSys.Frame.wakeup_channel s p
      exact GateSys.inv1_set_pc t _ (f.inv1 h1) (by rw [f.pc_eq t, hg]; rfl)
    · cases hs
  | wakeup_put t =>
    simp only [GateSys.step] at hs
    split at hs
    · rename_i p hg
      cases hs
      have f := GateSys.Frame.wakeup_put s p
      exact GateSys.inv1_set_pc t _ (f.inv1 h1) (by rw [f.pc_eq t, hg]; rfl)
    · cases hs
  | signal t =>
    simp only [GateSys.step] at hs
    cases hs
    have f := GateSys.Frame.set_task s t
      { s.task t with
        signal_pending := true,
        state := if (s.task t).state = TaskState.TASK_INTERRUPTIBLE then TaskState.TASK_RUNNING
                 else (s.task t).state } rfl rfl
    exact f.inv1 h1

theorem GateSys.inv1_run (hash_ptr : Nat → Fin EVENT_TABLE_SIZE) (acts : List Action) :
    ∀ {s s1 : GateSys}, s.Inv → s.Inv1 → GateSys.run hash_ptr s acts = some s1 → s1.Inv1 := by
  induction acts with
  | nil =>
    intro s s1 _ h1 hr
    cases hr
    exact h1
  | cons a rest ih =>
    intro s s1 h h1 hr
    simp only [GateSys.run] at hr
    split at hr
    · rename_i s2 hs
      exact ih (GateSys.inv_step hash_ptr a h hs) (GateSys.inv1_step hash_ptr a h h1 hs) hr
    · cases hr

/-! ### Nobody takes a gate that is held -/

theorem GateSys.lock_enter_holder (s : GateSys) (t : Nat) (done wait : Pc) :
    (s.lock_enter t done wait).holder = s.holder ∨
      ((s.lock_enter t done wait).holder = some t ∧ 0 < s.gate.count) := by
  by_cases hc : 0 < s.gate.count
  · right
    simp [GateSys.lock_enter, __dl_gate_lock_enter, hc]
  · left
    simp [GateSys.lock_enter, __dl_gate_lock_enter, hc]

theorem GateSys.lock_resume_holder (s : GateSys) (t elapsed : Nat) (done : Pc) :
    (s.lock_resume t elapsed done).holder = s.holder ∨
      ((s.lock_resume t elapsed done).holder = some t ∧ s.gate.next = some t) := by
  by_cases hn : s.gate.next = some t
  · right
    simp [GateSys.lock_resume, __dl_gate_lock_resume, hn]
  · left
    by_cases hto : schedule_timeout (s.task t).timeout elapsed ≤ 0
    · simp [GateSys.lock_resume, __dl_gate_lock_resume, hn, hto]
    · simp [GateSys.lock_resume, __dl_gate_lock_resume, hn, hto]

theorem GateSys.sleep_exit_holder (s : GateSys) (t p : Nat) (result : Int) :
    (s.sleep_exit t p result).holder = s.holder ∨
      ((s.sleep_exit t p result).holder = some t ∧ 0 < s.gate.count) := by
  unfold GateSys.sleep_exit
  exact GateSys.lock_enter_holder _ t _ _

theorem GateSys.sleep_pass_holder (s : GateSys) (t p : Nat) :
    (s.sleep_pass t p).holder = s.holder ∨
      ((s.sleep_pass t p).holder = some t ∧ 0 < s.gate.count) := by
  unfold GateSys.sleep_pass
  have f1 : s.Frame (if t ∈ s.wqh p then s else s.set_wqh p (s.wqh p ++ [t])) := by
    split
    · exact GateSys.Frame.refl s
    · exact GateSys.Frame.set_wqh _ _ _
  have f2 := GateSys.Frame.set_task (if t ∈ s.wqh p then s else s.set_wqh p (s.wqh p ++ [t])) t
    { (if t ∈ s.wqh p then s else s.set_wqh p (s.wqh p ++ [t])).task t with
      state := TaskState.TASK_INTERRUPTIBLE } rfl rfl
  have f := f1.trans f2
  simp only []
  split
  · left
    exact f.2.2.2.1
  · rcases GateSys.sleep_exit_holder
      ((if t ∈ s.wqh p then s else s.set_wqh p (s.wqh p ++ [t])).set_task t
        { (if t ∈ s.wqh p then s else s.set_wqh p (s.wqh p ++ [t])).task t with
          state := TaskState.TASK_INTERRUPTIBLE }) t p _ with h | h
    · left
      rw [h]
      exact f.2.2.2.1
    · right
      refine ⟨h.1, ?_⟩
      have := h.2
      rw [f.1] at this
      exact this

/-- The holder after `dl_gate_sleep` has started: as before, nobody, or the
caller again. -/
theorem GateSys.sleep_enter_holder (hash_ptr : Nat → Fin EVENT_TABLE_SIZE) (s : GateSys)
    (t key : Nat) (kmalloc : Option Nat) :
    (s.sleep_enter hash_ptr t key kmalloc).holder = s.holder ∨
      (s.sleep_enter hash_ptr t key kmalloc).holder = none ∨
      (s.sleep_enter hash_ptr t key kmalloc).holder = some t := by
  unfold GateSys.sleep_enter
  simp only []
  split
  · left; rfl
  · split
    · left; rfl
    · rename_i p _ _
      rcases GateSys.sleep_pass_holder
        (GateSys.unlock_tail
          { s.set_task t { s.task t with triggered := false } with
            gate := { (s.set_task t { s.task t with triggered := false }).gate with
              events := (get_event hash_ptr
                (s.set_task t { s.task t with triggered := false }).gate.events
                key true kmalloc).1 } }) t p with h | h
      · right; left
        rw [h]; rfl
      · right; right
        exact h.1

theorem GateSys.Inv0.no_holder_of_count {s : GateSys} (h : s.Inv0) (hc : 0 < s.gate.count) :
    s.holder = none := by
  have := h.count_le
  exact (h.free (by omega)).2.2

theorem GateSys.Inv0.no_holder_of_next {s : GateSys} (h : s.Inv0) (w : Nat)
    (hn : s.gate.next = some w) : s.holder = none := by
  cases hx : s.holder with
  | none => rfl
  | some u =>
    have := (h.held u hx).2
    rw [hn] at this
    cases this

/-- A step makes a caller the holder only from a state in which nobody held
the gate, unless that caller held it already. -/
theorem GateSys.holder_step (hash_ptr : Nat → Fin EVENT_TABLE_SIZE) {s s1 : GateSys}
    (a : Action) (h : s.Inv) (hs : s.step hash_ptr a = some s1) (u : Nat)
    (hu : s1.holder = some u) : s.holder = none ∨ s.holder = some u := by
  cases a with
  | lock t =>
    simp only [GateSys.step] at hs
    split at hs
    · cases hs
      rcases GateSys.lock_enter_holder s t Pc.idle Pc.lock_wait with e | e
      · right; rw [← e]; exact hu
      · left; exact h.1.no_holder_of_count e.2
    · cases hs
  | lock_resume t elapsed =>
    simp only [GateSys.step] at hs
    split at hs
    · cases hs
      rcases GateSys.lock_resume_holder s t elapsed Pc.idle with e | e
      · right; rw [← e]; exact hu
      · left; exact h.1.no_holder_of_next t e.2
    · cases hs
  | lock_interrupt t =>
    simp only [GateSys.step] at hs
    split at hs
    · rw [← Option.some.inj hs] at hu
      have hle := h.1.count_le
      by_cases hc : 0 < s.gate.count
      · left; exact h.1.no_holder_of_count hc
      · have hc0 : s.gate.count = 0 := by omega
        cases hn : s.gate.next with
        | none =>
          rw [lock_interrupt_fail s.gate hc0 hn] at hu
          right
          simpa using hu
        | some w =>
          left; exact h.1.no_holder_of_next w hn
    · cases hs
  | unlock t =>
    simp only [GateSys.step] at hs
    split at hs
    · split at hs
      · cases hs
        right; exact hu
      · cases hs
        cases hu
    · cases hs
  | unlock_bh_done t =>
    simp only [GateSys.step] at hs
    split at hs
    · cases hs
      cases hu
    · cases hs
  | sleep t key kmalloc =>
    simp only [GateSys.step] at hs
    split at hs
    · rename_i hg
      cases hs
      right
      rcases GateSys.sleep_enter_holder hash_ptr s t key kmalloc with e | e | e
      · rw [← e]; exact hu
      · rw [e] at hu; cases hu
      · rw [e] at hu
        rw [hg.2]; exact hu
    · cases hs
  | sleep_bh_done t =>
    simp only [GateSys.step] at hs
    split at hs
    · rename_i p hg
      cases hs
      have hh : s.holder = some t := h.2 t (by rw [hg]; rfl)
      right
      rcases GateSys.sleep_pass_holder s.unlock_tail t p with e | e
      · rw [e] at hu
        cases hu
      · rw [e.1] at hu
        rw [hh]; exact hu
    · cases hs
  | sleep_resume t =>
    simp only [GateSys.step] at hs
    split at hs
    · split at hs
      · rename_i p _ _
        cases hs
        rcases GateSys.sleep_pass_holder s t p with e | e
        · right; rw [← e]; exact hu
        · left; exact h.1.no_holder_of_count e.2
      · cases hs
    · cases hs
  | sleep_lock_resume t elapsed =>
    simp only [GateSys.step] at hs
    split at hs
    · rename_i r _
      split at hs
      · cases hs
        rcases GateSys.lock_resume_holder s t elapsed (Pc.sleep_ret r) with e | e
        · right; rw [← e]; exact hu
        · left; exact h.1.no_holder_of_next t e.2
      · cases hs
    · cases hs
  | sleep_return t =>
    simp only [GateSys.step] at hs
    split at hs
    · cases hs
      right; exact hu
    · cases hs
  | wakeup t key =>
    simp only [GateSys.step] at hs
    split at hs
    · split at hs
      · cases hs
        right; exact hu
      · cases hs
        right; exact hu
    · cases hs
  | wakeup_walk t =>
    simp only [GateSys.step] at hs
    split at hs
    · cases hs
      right; exact hu
    · cases hs
  | wakeup_put t =>
    simp only [GateSys.step] at hs
    split at hs
    · cases hs
      right; exact hu
    · cases hs
  | signal t =>
    simp only [GateSys.step] at hs
    cases hs
    right; exact hu

/-! ### The state of the gate -/

/-- C11: in every state reached from a freshly created gate by steps of
`dl_gate_lock`, `dl_gate_lock_interrupt`, hand-off claims and `dl_gate_unlock` by
the holder (and of `dl_gate_sleep` and `dl_gate_wakeup`): `count` is 0 or 1; if
`count` is 1 the wait list is empty, the hand-off slot is empty and nobody holds
the gate; if a waiter is designated then `count` is 0, nobody holds the gate and
that waiter is not on the wait list; the holder is one caller at most, with `count`
0 and the hand-off slot empty while it holds; and no step makes a caller the
holder while another one holds the gate. -/
theorem gate_invariant (hash_ptr : Nat → Fin EVENT_TABLE_SIZE) (acts : List Action)
    (s : GateSys) (hrun : GateSys.run hash_ptr GateSys.init acts = some s) :
    (s.gate.count = 0 ∨ s.gate.count = 1) ∧
    (s.gate.count = 1 → s.gate.wait_list = [] ∧ s.gate.next = none ∧ s.holder = none) ∧
    (∀ w, s.gate.next = some w →
      s.gate.count = 0 ∧ s.holder = none ∧ w ∉ s.gate.wait_list) ∧
    (∀ t, s.holder = some t → s.gate.count = 0 ∧ s.gate.next = none) ∧
    (∀ a s1 u, s.step hash_ptr a = some s1 → s1.holder = some u →
      s.holder = none ∨ s.holder = some u) := by
  have h := GateSys.inv_run hash_ptr acts GateSys.inv_init hrun
  have h1 := GateSys.inv1_run hash_ptr acts GateSys.inv_init GateSys.inv1_init hrun
  have hle := h.1.count_le
  refine ⟨by omega, h.1.free, ?_, h.1.held, ?_⟩
  · intro w hn
    have hh := h.1.no_holder_of_next w hn
    refine ⟨?_, hh, ?_⟩
    · by_contra hc
      have := (h.1.free (by omega)).2.1
      rw [hn] at this
      cases this
    · have hnd := h1.nodup
      have e : s.gate.waiters = w :: s.gate.wait_list := by
        simp [blackmagic_gate.waiters, hn]
      rw [e, List.nodup_cons] at hnd
      exact hnd.1
  · intro a s1 u hs hu
    exact GateSys.holder_step hash_ptr a h hs u hu

/-- C11 on `fifo_trace` cut after the first release: waiter 1 is designated,
waiter 2 is on the wait list, `count` is 0 and nobody holds the gate. -/
theorem gate_invariant_witness :
    ∃ s, GateSys.run hash_mod GateSys.init (fifo_trace.take 4) = some s ∧
      s.gate.next = some 1 ∧ s.gate.wait_list = [2] ∧
      ((s.gate.count = 0 ∨ s.gate.count = 1) ∧
      (s.gate.count = 1 → s.gate.wait_list = [] ∧ s.gate.next = none ∧ s.holder = none) ∧
      (∀ w, s.gate.next = some w →
        s.gate.count = 0 ∧ s.holder = none ∧ w ∉ s.gate.wait_list) ∧
      (∀ t, s.holder = some t → s.gate.count = 0 ∧ s.gate.next = none) ∧
      (∀ a s1 u, s.step hash_mod a = some s1 → s1.holder = some u →
        s.holder = none ∨ s.holder = some u)) := by
  have h1 : (GateSys.run hash_mod GateSys.init (fifo_trace.take 4)).map
      (fun s => (s.gate.next, s.gate.wait_list)) = some (some 1, [2]) := by decide
  obtain ⟨s, hs⟩ := Option.isSome_iff_exists.mp
    (show (GateSys.run hash_mod GateSys.init (fifo_trace.take 4)).isSome = true by decide)
  rw [hs] at h1
  simp only [Option.map_some', Option.some.injEq, Prod.mk.injEq] at h1
  exact ⟨s, hs, h1.1, h1.2, gate_invariant hash_mod (fifo_trace.take 4) s hs⟩

/-! ### Opening and closing the serial port -/

theorem test_and_change_hit (sdev : blackmagic_serial)
    (required_state new_state : blackmagic_serial_open_states)
    (h : sdev.open_state = required_state) :
    test_and_change_open_state sdev required_state new_state =
      ({ sdev with open_state := new_state }, 0) := by
  simp [test_and_change_open_state, h]

theorem test_and_change_miss (sdev : blackmagic_serial)
    (required_state new_state : blackmagic_serial_open_states)
    (h : sdev.open_state ≠ required_state) :
    test_and_change_open_state sdev required_state new_state = (sdev, -EBUSY) := by
  simp [test_and_change_open_state, h]

theorem open_common_closed (sdev : blackmagic_serial) (tty : Bool)
    (h : sdev.open_state = blackmagic_serial_open_states.PORT_CLOSED) :
    blackmagic_serial_open_common sdev tty =
      ({ sdev with
          open_state := if tty then blackmagic_serial_open_states.PORT_OPEN_TTY
                        else blackmagic_serial_open_states.PORT_OPEN_IOCTL,
          tx_interrupt_pending := 0 }, 0) := by
  simp [blackmagic_serial_open_common, test_and_change_hit sdev _ _ h]

theorem open_common_busy (sdev : blackmagic_serial) (tty : Bool)
    (h : sdev.open_state ≠ blackmagic_serial_open_states.PORT_CLOSED) :
    blackmagic_serial_open_common sdev tty = (sdev, -EBUSY) := by
  simp [blackmagic_serial_open_common, test_and_change_miss sdev _ _ h, EBUSY]

theorem close_common_match (size : Nat) (sdev : blackmagic_serial)
    (state : blackmagic_serial_open_states) (h : sdev.open_state = state) :
    blackmagic_serial_close_common size sdev state =
      (blackmagic_serial_reset_buffers size
        { sdev with open_state := blackmagic_serial_open_states.PORT_CLOSED }, 0) := by
  simp [blackmagic_serial_close_common, test_and_change_hit sdev _ _ h]

theorem close_common_busy (size : Nat) (sdev : blackmagic_serial)
    (state : blackmagic_serial_open_states) (h : sdev.open_state ≠ state) :
    blackmagic_serial_close_common size sdev state = (sdev, -EBUSY) := by
  simp [blackmagic_serial_close_common, test_and_change_miss sdev _ _ h, EBUSY]

/-- C14: for every port state, `blackmagic_serial_open_common` returns 0 exactly
when `open_state` is `PORT_CLOSED`, and then sets it to `PORT_OPEN_TTY` (a tty is
given) or `PORT_OPEN_IOCTL` (none); `blackmagic_serial_close_common` in mode
`state` returns 0 exactly when `open_state` is `state`, and then sets it to
`PORT_CLOSED` and leaves both ring buffers empty (`available_bytes = 0`, `next`
and `last` at the start of `data`); a failing open or close returns `-EBUSY` and
leaves the whole port, `open_state` and both ring buffers included, as it was; so
a port that was opened in one mode can neither be closed in the other mode nor
opened again. -/
theorem open_close_state_machine (size : Nat) (sdev : blackmagic_serial) :
    (∀ tty : Bool,
      ((blackmagic_serial_open_common sdev tty).2 = 0 ↔
        sdev.open_state = blackmagic_serial_open_states.PORT_CLOSED) ∧
      ((blackmagic_serial_open_common sdev tty).2 = 0 →
        (blackmagic_serial_open_common sdev tty).1.open_state =
          (if tty then blackmagic_serial_open_states.PORT_OPEN_TTY
           else blackmagic_serial_open_states.PORT_OPEN_IOCTL)) ∧
      ((blackmagic_serial_open_common sdev tty).2 ≠ 0 →
        (blackmagic_serial_open_common sdev tty).2 = -EBUSY ∧
        (blackmagic_serial_open_common sdev tty).1 = sdev) ∧
      ((blackmagic_serial_open_common sdev tty).2 = 0 →
        (∀ tty2 : Bool, (blackmagic_serial_open_common
          (blackmagic_serial_open_common sdev tty).1 tty2).2 = -EBUSY) ∧
        (blackmagic_serial_close_common size (blackmagic_serial_open_common sdev tty).1
          (if tty then blackmagic_serial_open_states.PORT_OPEN_IOCTL
           else blackmagic_serial_open_states.PORT_OPEN_TTY)).2 = -EBUSY)) ∧
    (∀ state : blackmagic_serial_open_states,
      ((blackmagic_serial_close_common size sdev state).2 = 0 ↔ sdev.open_state = state) ∧
      ((blackmagic_serial_close_common size sdev state).2 = 0 →
        (blackmagic_serial_close_common size sdev state).1.open_state =
          blackmagic_serial_open_states.PORT_CLOSED ∧
        (blackmagic_serial_close_common size sdev state).1.write_buffer.available_bytes = 0 ∧
        (blackmagic_serial_close_common size sdev state).1.write_buffer.next = 0 ∧
        (blackmagic_serial_close_common size sdev state).1.write_buffer.last = 0 ∧
        (blackmagic_serial_close_common size sdev state).1.read_buffer.available_bytes = 0 ∧
        (blackmagic_serial_close_common size sdev state).1.read_buffer.next = 0 ∧
        (blackmagic_serial_close_common size sdev state).1.read_buffer.last = 0) ∧
      ((blackmagic_serial_close_common size sdev state).2 ≠ 0 →
        (blackmagic_serial_close_common size sdev state).2 = -EBUSY ∧
        (blackmagic_serial_close_common size sdev state).1 = sdev)) := by
  constructor
  · intro tty
    by_cases h : sdev.open_state = blackmagic_serial_open_states.PORT_CLOSED
    · rw [open_common_closed sdev tty h]
      refine ⟨by simp [h], by simp, by simp, ?_⟩
      intro _
      constructor
      · intro tty2
        rw [open_common_busy _ tty2 (by cases tty <;> simp)]
      · rw [close_common_busy size _ _ (by cases tty <;> simp)]
    · rw [open_common_busy sdev tty h]
      refine ⟨by simp [h, EBUSY], by simp [EBUSY], by simp, by simp [EBUSY]⟩
  · intro state
    by_cases h : sdev.open_state = state
    · rw [close_common_match size sdev state h]
      refine ⟨by simp [h], ?_, by simp⟩
      intro _
      simp [blackmagic_serial_reset_buffers, reset_buffer]
    · rw [close_common_busy size sdev state h]
      refine ⟨by simp [h, EBUSY], by simp [EBUSY], by simp⟩

/-! ### The write ring buffer: pointers -/

theorem ring_used_eq (e next last : Nat) (hn : next < e) (hl : last < e) :
    ring_used e next last = if last ≤ next then next - last else next + e - last := by
  unfold ring_used
  split
  · have h1 : next + e - last = (next - last) + e := by omega
    rw [h1, Nat.add_mod_right, Nat.mod_eq_of_lt (by omega)]
  · rw [Nat.mod_eq_of_lt (by omega)]

theorem ring_used_lt (e next last : Nat) (he : 0 < e) : ring_used e next last < e :=
  Nat.mod_lt _ he

theorem ring_used_zero (e next last : Nat) (hn : next < e) (hl : last < e) :
    ring_used e next last = 0 ↔ last = next := by
  rw [ring_used_eq e next last hn hl]
  split <;> omega

theorem ring_next_lt (e p : Nat) (he : 0 < e) : ring_next e p < e := by
  unfold ring_next
  split <;> omega

theorem ring_used_pop (e next last : Nat) (hn : next < e) (hl : last < e) (hne : last ≠ next) :
    ring_used e next (ring_next e last) + 1 = ring_used e next last := by
  have hl1 : ring_next e last < e := ring_next_lt e last (by omega)
  rw [ring_used_eq e next last hn hl, ring_used_eq e next _ hn hl1]
  unfold ring_next at *
  split_ifs <;> omega

theorem ring_full_iff (e next last : Nat) (hn : next < e) (hl : last < e) :
    ring_next e next = last ↔ ring_used e next last = e - 1 := by
  rw [ring_used_eq e next last hn hl]
  unfold ring_next
  split_ifs <;> omega

theorem ring_used_push (e next last : Nat) (hn : next < e) (hl : last < e)
    (hne : ring_next e next ≠ last) :
    ring_used e (ring_next e next) last = ring_used e next last + 1 := by
  have hn1 : ring_next e next < e := ring_next_lt e next (by omega)
  rw [ring_used_eq e next last hn hl, ring_used_eq e _ last hn1 hl]
  unfold ring_next at *
  split_ifs at * <;> omega

/-- Storing a byte at `next` appends it to what is stored. -/
theorem ring_read_push (data : Nat → Nat) (e next x : Nat) (hn : next < e) :
    ∀ (n last : Nat), last < e → ring_used e next last = n →
      ring_read (Function.update data next x) e (n + 1) last = ring_read data e n last ++ [x] := by
  intro n
  induction n with
  | zero =>
    intro last hl hu
    have : last = next := (ring_used_zero e next last hn hl).mp hu
    subst this
    simp [ring_read]
  | succ n ih =>
    intro last hl hu
    have hne : last ≠ next := by
      intro h
      have := (ring_used_zero e next last hn hl).mpr h
      omega
    have hp := ring_used_pop e next last hn hl hne
    have hl1 : ring_next e last < e := ring_next_lt e last (by omega)
    have := ih (ring_next e last) hl1 (by omega)
    rw [ring_read, this, Function.update_noteq hne]
    rfl

/-! ### The write ring buffer: the two loops -/

theorem stored_push (b : blackmagic_serial_buffer) (x : Nat) (hn : b.next < b.end_)
    (hl : b.last < b.end_) (hne : ring_next b.end_ b.next ≠ b.last) :
    ({ b with data := Function.update b.data b.next x,
              next := ring_next b.end_ b.next } : blackmagic_serial_buffer).stored =
      b.stored ++ [x] := by
  simp only [blackmagic_serial_buffer.stored, blackmagic_serial_buffer.used]
  rw [ring_used_push b.end_ b.next b.last hn hl hne]
  exact ring_read_push b.data b.end_ b.next x hn _ b.last hl rfl

theorem stored_pop (b : blackmagic_serial_buffer) (hn : b.next < b.end_)
    (hl : b.last < b.end_) (hne : b.last ≠ b.next) :
    b.stored = b.data b.last ::
      ({ b with last := ring_next b.end_ b.last } : blackmagic_serial_buffer).stored := by
  simp only [blackmagic_serial_buffer.stored, blackmagic_serial_buffer.used]
  rw [← ring_used_pop b.end_ b.next b.last hn hl hne]
  rfl

/-- The loop of `blackmagic_serial_enqueue_data` copies as many bytes as are asked
for and fit, and appends them to what is stored. -/
theorem enqueue_loop_spec (src : Nat → Nat) :
    ∀ (fuel write_bytes : Nat) (b : blackmagic_serial_buffer),
      b.next < b.end_ → b.last < b.end_ →
      (enqueue_loop src fuel write_bytes b).2 =
        write_bytes + min fuel (b.end_ - 1 - b.used) ∧
      (enqueue_loop src fuel write_bytes b).1.end_ = b.end_ ∧
      (enqueue_loop src fuel write_bytes b).1.last = b.last ∧
      (enqueue_loop src fuel write_bytes b).1.next < b.end_ ∧
      (enqueue_loop src fuel write_bytes b).1.available_bytes = b.available_bytes ∧
      (enqueue_loop src fuel write_bytes b).1.used =
        b.used + min fuel (b.end_ - 1 - b.used) ∧
      (enqueue_loop src fuel write_bytes b).1.stored =
        b.stored ++ (List.range (min fuel (b.end_ - 1 - b.used))).map
          (fun k => src (write_bytes + k)) := by
  intro fuel
  induction fuel with
  | zero =>
    intro wb b hn hl
    simp [enqueue_loop, hn]
  | succ fuel ih =>
    intro wb b hn hl
    have hult : b.used < b.end_ := ring_used_lt _ _ _ (by omega)
    by_cases hf : ring_next b.end_ b.next = b.last
    · have hu : b.used = b.end_ - 1 := (ring_full_iff b.end_ b.next b.last hn hl).mp hf
      have hm : min (fuel + 1) (b.end_ - 1 - b.used) = 0 := by omega
      rw [enqueue_loop, if_pos hf, hm]
      simp [hn]
    · have hu : b.used ≠ b.end_ - 1 := fun h =>
        hf ((ring_full_iff b.end_ b.next b.last hn hl).mpr h)
      have hn1 : ring_next b.end_ b.next < b.end_ := ring_next_lt _ _ (by omega)
      have hused : blackmagic_serial_buffer.used
          { b with data := Function.update b.data b.next (src wb),
                   next := ring_next b.end_ b.next } = b.used + 1 :=
        ring_used_push b.end_ b.next b.last hn hl hf
      have hst := stored_push b (src wb) hn hl hf
      obtain ⟨i1, i2, i3, i4, i5, i6, i7⟩ := ih (wb + 1)
        { b with data := Function.update b.data b.next (src wb),
                 next := ring_next b.end_ b.next } hn1 hl
      rw [hused] at i1 i6 i7
      dsimp only at i1 i2 i3 i4 i5 i6 i7
      rw [hst] at i7
      have hm : min (fuel + 1) (b.end_ - 1 - b.used) =
          min fuel (b.end_ - 1 - (b.used + 1)) + 1 := by omega
      rw [enqueue_loop, if_neg hf, hm]
      refine ⟨by rw [i1]; omega, i2, i3, i4, i5, by rw [i6]; omega, ?_⟩
      rw [i7, List.range_succ_eq_map, List.map_cons, List.map_map, List.append_assoc]
      simp only [List.singleton_append, Nat.add_zero, List.cons.injEq, true_and,
        List.append_cancel_left_eq]
      apply List.map_congr_left
      intro k _
      simp only [Function.comp, Nat.succ_eq_add_one]
      congr 1
      omega

/-- The loop of `blackmagic_serial_setup_tx` hands the oldest stored bytes to the
hardware, as many as the limit allows. -/
theorem setup_tx_loop_spec :
    ∀ (fuel : Nat) (b : blackmagic_serial_buffer), b.next < b.end_ → b.last < b.end_ →
      (setup_tx_loop fuel b).2.length = min fuel b.used ∧
      (setup_tx_loop fuel b).1.next = b.next ∧
      (setup_tx_loop fuel b).1.end_ = b.end_ ∧
      (setup_tx_loop fuel b).1.last < b.end_ ∧
      (setup_tx_loop fuel b).1.available_bytes = b.available_bytes ∧
      (setup_tx_loop fuel b).1.used + min fuel b.used = b.used ∧
      b.stored = (setup_tx_loop fuel b).2 ++ (setup_tx_loop fuel b).1.stored := by
  intro fuel
  induction fuel with
  | zero =>
    intro b hn hl
    simp [setup_tx_loop, hl]
  | succ fuel ih =>
    intro b hn hl
    by_cases he : b.last = b.next
    · have hu : b.used = 0 := (ring_used_zero b.end_ b.next b.last hn hl).mpr he
      rw [setup_tx_loop, if_pos he]
      simp [hu, hl]
    · have hl1 : ring_next b.end_ b.last < b.end_ := ring_next_lt _ _ (by omega)
      have hused : ({ b with last := ring_next b.end_ b.last } :
          blackmagic_serial_buffer).used + 1 = b.used :=
        ring_used_pop b.end_ b.next b.last hn hl he
      have hst := stored_pop b hn hl he
      obtain ⟨i1, i2, i3, i4, i5, i6, i7⟩ := ih { b with last := ring_next b.end_ b.last } hn hl1
      dsimp only at i1 i2 i3 i4 i5 i6 i7
      rw [setup_tx_loop, if_neg he]
      refine ⟨?_, i2, i3, i4, i5, ?_, ?_⟩
      · simp only [List.length_cons]
        rw [i1]; omega
      · simp only
        omega
      · rw [hst, i7]
        rfl

/-! ### The write ring buffer: the calls -/

theorem setup_tx_pending (hw : Nat) (sdev : blackmagic_serial)
    (hp : sdev.tx_interrupt_pending ≠ 0) : blackmagic_serial_setup_tx hw sdev = (sdev, []) := by
  unfold blackmagic_serial_setup_tx
  rw [if_pos hp]

theorem setup_tx_idle (hw : Nat) (sdev : blackmagic_serial)
    (hp : sdev.tx_interrupt_pending = 0)
    (hz : (setup_tx_loop hw sdev.write_buffer).2.length = 0) :
    blackmagic_serial_setup_tx hw sdev =
      ({ sdev with write_buffer := (setup_tx_loop hw sdev.write_buffer).1 }, []) := by
  unfold blackmagic_serial_setup_tx
  rw [if_neg (by simp [hp])]
  simp only
  rw [if_pos hz]

theorem setup_tx_send (hw : Nat) (sdev : blackmagic_serial)
    (hp : sdev.tx_interrupt_pending = 0)
    (hz : (setup_tx_loop hw sdev.write_buffer).2.length ≠ 0) :
    blackmagic_serial_setup_tx hw sdev =
      ({ sdev with
          write_buffer := { (setup_tx_loop hw sdev.write_buffer).1 with
            available_bytes := (setup_tx_loop hw sdev.write_buffer).1.available_bytes -
              ((setup_tx_loop hw sdev.write_buffer).2.length : Int) },
          tx_interrupt_pending := 1 }, (setup_tx_loop hw sdev.write_buffer).2) := by
  unfold blackmagic_serial_setup_tx
  rw [if_neg (by simp [hp])]
  simp only
  rw [if_neg hz]

theorem setup_tx_spec (size hw : Nat) (sdev : blackmagic_serial)
    (h : sdev.write_buffer.Ok size) :
    (blackmagic_serial_setup_tx hw sdev).1.write_buffer.Ok size ∧
    sdev.write_buffer.stored =
      (blackmagic_serial_setup_tx hw sdev).2 ++
        (blackmagic_serial_setup_tx hw sdev).1.write_buffer.stored ∧
    (blackmagic_serial_setup_tx hw sdev).1.open_state = sdev.open_state := by
  obtain ⟨he, hn, hl, hc⟩ := h
  by_cases hp : sdev.tx_interrupt_pending = 0
  · obtain ⟨i1, i2, i3, i4, i5, i6, i7⟩ :=
      setup_tx_loop_spec hw sdev.write_buffer (by rw [he]; exact hn) (by rw [he]; exact hl)
    rw [he] at i3 i4
    by_cases hz : (setup_tx_loop hw sdev.write_buffer).2.length = 0
    · rw [setup_tx_idle hw sdev hp hz]
      have hnil : (setup_tx_loop hw sdev.write_buffer).2 = [] := List.length_eq_zero.mp hz
      refine ⟨⟨i3, by rw [i2]; exact hn, i4, ?_⟩, ?_, rfl⟩
      · simp only
        rw [i5, hc]
        have : (setup_tx_loop hw sdev.write_buffer).1.used = sdev.write_buffer.used := by omega
        rw [this]
      · rw [i7, hnil]
    · rw [setup_tx_send hw sdev hp hz]
      refine ⟨⟨i3, by rw [i2]; exact hn, i4, ?_⟩, i7, rfl⟩
      have hu : blackmagic_serial_buffer.used
          { (setup_tx_loop hw sdev.write_buffer).1 with
            available_bytes := (setup_tx_loop hw sdev.write_buffer).1.available_bytes -
              ((setup_tx_loop hw sdev.write_buffer).2.length : Int) } =
          (setup_tx_loop hw sdev.write_buffer).1.used := rfl
      simp only
      rw [hu, i5, hc]
      omega
  · rw [setup_tx_pending hw sdev hp]
    exact ⟨⟨he, hn, hl, hc⟩, by simp, rfl⟩

theorem tx_interrupt_spec (size hw : Nat) (sdev : blackmagic_serial) (continue_tx : Int)
    (h : sdev.write_buffer.Ok size) :
    (blackmagic_serial_tx_interrupt hw sdev continue_tx).1.write_buffer.Ok size ∧
    sdev.write_buffer.stored =
      (blackmagic_serial_tx_interrupt hw sdev continue_tx).2 ++
        (blackmagic_serial_tx_interrupt hw sdev continue_tx).1.write_buffer.stored ∧
    (blackmagic_serial_tx_interrupt hw sdev continue_tx).1.open_state = sdev.open_state := by
  unfold blackmagic_serial_tx_interrupt
  split
  · exact ⟨h, by simp, rfl⟩
  · simp only
    split
    · exact setup_tx_spec size hw { sdev with tx_interrupt_pending := 0 } h
    · exact ⟨h, by simp, rfl⟩

theorem enqueue_data_zero (hw : Nat) (sdev : blackmagic_serial) (src : Nat → Nat) (count : Int)
    (hz : (enqueue_loop src count.toNat 0 sdev.write_buffer).2 = 0) :
    blackmagic_serial_enqueue_data hw sdev src count =
      ({ sdev with write_buffer :=
          { (enqueue_loop src count.toNat 0 sdev.write_buffer).1 with
            available_bytes :=
              (enqueue_loop src count.toNat 0 sdev.write_buffer).1.available_bytes +
              ((enqueue_loop src count.toNat 0 sdev.write_buffer).2 : Int) } }, 0, []) := by
  unfold blackmagic_serial_enqueue_data
  simp only
  rw [if_pos hz]

theorem enqueue_data_pos (hw : Nat) (sdev : blackmagic_serial) (src : Nat → Nat) (count : Int)
    (hz : (enqueue_loop src count.toNat 0 sdev.write_buffer).2 ≠ 0) :
    blackmagic_serial_enqueue_data hw sdev src count =
      ((blackmagic_serial_setup_tx hw
        { sdev with write_buffer :=
          { (enqueue_loop src count.toNat 0 sdev.write_buffer).1 with
            available_bytes :=
              (enqueue_loop src count.toNat 0 sdev.write_buffer).1.available_bytes +
              ((enqueue_loop src count.toNat 0 sdev.write_buffer).2 : Int) } }).1,
       ((enqueue_loop src count.toNat 0 sdev.write_buffer).2 : Int),
       (blackmagic_serial_setup_tx hw
        { sdev with write_buffer :=
          { (enqueue_loop src count.toNat 0 sdev.write_buffer).1 with
            available_bytes :=
              (enqueue_loop src count.toNat 0 sdev.write_buffer).1.available_bytes +
              ((enqueue_loop src count.toNat 0 sdev.write_buffer).2 : Int) } }).2) := by
  unfold blackmagic_serial_enqueue_data
  simp only
  rw [if_neg hz]

theorem enqueue_data_spec (size hw : Nat) (sdev : blackmagic_serial) (src : Nat → Nat)
    (count : Int) (h : sdev.write_buffer.Ok size) :
    (blackmagic_serial_enqueue_data hw sdev src count).1.write_buffer.Ok size ∧
    (blackmagic_serial_enqueue_data hw sdev src count).2.1 =
      ((min count.toNat (size - 1 - sdev.write_buffer.used) : Nat) : Int) ∧
    sdev.write_buffer.stored ++
        (List.range (blackmagic_serial_enqueue_data hw sdev src count).2.1.toNat).map src =
      (blackmagic_serial_enqueue_data hw sdev src count).2.2 ++
        (blackmagic_serial_enqueue_data hw sdev src count).1.write_buffer.stored ∧
    (blackmagic_serial_enqueue_data hw sdev src count).1.open_state = sdev.open_state := by
  obtain ⟨he, hn, hl, hc⟩ := h
  obtain ⟨i1, i2, i3, i4, i5, i6, i7⟩ :=
    enqueue_loop_spec src count.toNat 0 sdev.write_buffer (by rw [he]; exact hn)
      (by rw [he]; exact hl)
  rw [he] at i1 i2 i4 i6 i7
  simp only [Nat.zero_add] at i1 i7
  have hok : blackmagic_serial_buffer.Ok size
      { (enqueue_loop src count.toNat 0 sdev.write_buffer).1 with
        available_bytes := (enqueue_loop src count.toNat 0 sdev.write_buffer).1.available_bytes +
          ((enqueue_loop src count.toNat 0 sdev.write_buffer).2 : Int) } := by
    refine ⟨i2, i4, by rw [i3]; exact hl, ?_⟩
    have hu : blackmagic_serial_buffer.used
        { (enqueue_loop src count.toNat 0 sdev.write_buffer).1 with
          available_bytes :=
            (enqueue_loop src count.toNat 0 sdev.write_buffer).1.available_bytes +
            ((enqueue_loop src count.toNat 0 sdev.write_buffer).2 : Int) } =
        (enqueue_loop src count.toNat 0 sdev.write_buffer).1.used := rfl
    rw [hu]
    simp only
    rw [i5, hc, i6, i1]
    push_cast
    rfl
  have hst : blackmagic_serial_buffer.stored
      { (enqueue_loop src count.toNat 0 sdev.write_buffer).1 with
        available_bytes := (enqueue_loop src count.toNat 0 sdev.write_buffer).1.available_bytes +
          ((enqueue_loop src count.toNat 0 sdev.write_buffer).2 : Int) } =
      (enqueue_loop src count.toNat 0 sdev.write_buffer).1.stored := rfl
  by_cases hz : (enqueue_loop src count.toNat 0 sdev.write_buffer).2 = 0
  · rw [enqueue_data_zero hw sdev src count hz]
    refine ⟨hok, ?_, ?_, rfl⟩
    · simp only
      rw [← i1, hz]
      rfl
    · have hm : min count.toNat (size - 1 - sdev.write_buffer.used) = 0 := by omega
      simp only
      rw [hst, i7, hm]
      simp
  · rw [enqueue_data_pos hw sdev src count hz]
    obtain ⟨t1, t2, t3⟩ := setup_tx_spec size hw
      { sdev with write_buffer :=
        { (enqueue_loop src count.toNat 0 sdev.write_buffer).1 with
          available_bytes :=
            (enqueue_loop src count.toNat 0 sdev.write_buffer).1.available_bytes +
            ((enqueue_loop src count.toNat 0 sdev.write_buffer).2 : Int) } } hok
    refine ⟨t1, by simp only; rw [i1], ?_, t3⟩
    simp only
    rw [← t2]
    simp only [Int.toNat_ofNat]
    rw [hst, i7, i1]

theorem SerialSys.Inv.ok {size : Nat} {s : SerialSys} (h : s.Inv size) :
    s.sdev.write_buffer.Ok size :=
  ⟨h.end_eq, h.next_lt, h.last_lt, h.counted⟩

theorem SerialSys.serial_inv_init (size : Nat) (hsize : 0 < size) (sdev : blackmagic_serial) :
    (SerialSys.init size sdev).Inv size := by
  have hu : ring_used size 0 0 = 0 := by
    simp [ring_used]
  constructor
  · rfl
  · exact hsize
  · exact hsize
  · simp [SerialSys.init, blackmagic_serial_reset_buffers, reset_buffer,
      blackmagic_serial_buffer.used, hu]
  · simp [SerialSys.init, blackmagic_serial_reset_buffers, reset_buffer,
      blackmagic_serial_buffer.stored, blackmagic_serial_buffer.used, hu, ring_read]

theorem SerialSys.serial_inv_step (size hw : Nat) (s : SerialSys) (op : SerialOp)
    (h : s.Inv size) : (s.step hw op).Inv size := by
  cases op with
  | enqueue src count =>
    obtain ⟨⟨a1, a2, a3, a4⟩, _, c, _⟩ := enqueue_data_spec size hw s.sdev src count h.ok
    refine ⟨a1, a2, a3, a4, ?_⟩
    simp only [SerialSys.step]
    rw [h.fifo, List.append_assoc, c, List.append_assoc]
  | setup_tx =>
    obtain ⟨⟨a1, a2, a3, a4⟩, c, _⟩ := setup_tx_spec size hw s.sdev h.ok
    refine ⟨a1, a2, a3, a4, ?_⟩
    simp only [SerialSys.step]
    rw [h.fifo, c, List.append_assoc]
  | tx_interrupt continue_tx =>
    obtain ⟨⟨a1, a2, a3, a4⟩, c, _⟩ := tx_interrupt_spec size hw s.sdev continue_tx h.ok
    refine ⟨a1, a2, a3, a4, ?_⟩
    simp only [SerialSys.step]
    rw [h.fifo, c, List.append_assoc]

theorem SerialSys.serial_inv_run (size hw : Nat) (ops : List SerialOp) :
    ∀ s : SerialSys, s.Inv size → (SerialSys.run hw s ops).Inv size := by
  induction ops with
  | nil =>
    intro s h
    exact h
  | cons op rest ih =>
    intro s h
    exact ih _ (SerialSys.serial_inv_step size hw s op h)

/-! ### The accounting of the write ring buffer -/

/-- C13 (as stated, on a port in ioctl mode just after
`blackmagic_serial_reset_buffers`, with a buffer of 8 bytes):
`blackmagic_serial_enqueue_data` with `count = 3` returns 3, which is
`min(count, 8 - 1 - available_bytes)`, while `blackmagic_serial_write_room`
reports `-EBUSY`; on a closed port it reports `-ENODEV`. -/
theorem serial_write_room_counterexample :
    (blackmagic_serial_enqueue_data 4
      (SerialSys.init 8 (serial_example blackmagic_serial_open_states.PORT_OPEN_IOCTL)).sdev
      (fun k => k + 65) 3).2.1 = 3 ∧
    blackmagic_serial_write_room 8
      (SerialSys.init 8 (serial_example blackmagic_serial_open_states.PORT_OPEN_IOCTL)).sdev =
      -EBUSY ∧
    blackmagic_serial_write_room 8
      (SerialSys.init 8 (serial_example blackmagic_serial_open_states.PORT_CLOSED)).sdev =
      -ENODEV ∧
    (8 : Int) - 1 - (SerialSys.init 8
      (serial_example blackmagic_serial_open_states.PORT_OPEN_IOCTL)).sdev.write_buffer.available_bytes
      = 7 := by
  decide

/-- C13 (amended): let the buffer size be positive.  In every state reached from
`blackmagic_serial_reset_buffers` by calls of `blackmagic_serial_enqueue_data`,
`blackmagic_serial_setup_tx` and `blackmagic_serial_tx_interrupt`:
`available_bytes` of the write buffer is the number of bytes between `last` and
`next` modulo the buffer size, and at most the size less one; for every
`count ≥ 0`, `blackmagic_serial_enqueue_data` returns
`min(count, size - 1 - available_bytes)`; that bound is what
`blackmagic_serial_write_room` reports when the port is open in tty mode; and the
bytes taken from the callers so far are, in order, the bytes written to the
hardware so far followed by the bytes stored in the ring. -/
theorem serial_write_accounting (size hw : Nat) (hsize : 0 < size) (sdev : blackmagic_serial)
    (ops : List SerialOp) (s : SerialSys)
    (hrun : SerialSys.run hw (SerialSys.init size sdev) ops = s) :
    (s.sdev.write_buffer.available_bytes =
        (ring_used size s.sdev.write_buffer.next s.sdev.write_buffer.last : Int) ∧
      s.sdev.write_buffer.available_bytes ≤ (size : Int) - 1) ∧
    (∀ (src : Nat → Nat) (count : Int), 0 ≤ count →
      (blackmagic_serial_enqueue_data hw s.sdev src count).2.1 =
        min count ((size : Int) - 1 - s.sdev.write_buffer.available_bytes)) ∧
    (s.sdev.open_state = blackmagic_serial_open_states.PORT_OPEN_TTY →
      blackmagic_serial_write_room size s.sdev =
        (size : Int) - 1 - s.sdev.write_buffer.available_bytes) ∧
    s.accepted = s.sent ++ s.sdev.write_buffer.stored := by
  have h := SerialSys.serial_inv_run size hw ops _ (SerialSys.serial_inv_init size hsize sdev)
  rw [hrun] at h
  have hc := h.counted
  have hlt : s.sdev.write_buffer.used < size := by
    unfold blackmagic_serial_buffer.used
    rw [h.end_eq]
    exact ring_used_lt size _ _ hsize
  refine ⟨⟨?_, ?_⟩, ?_, ?_, h.fifo⟩
  · rw [hc]
    unfold blackmagic_serial_buffer.used
    rw [h.end_eq]
  · rw [hc]; omega
  · intro src count hcount
    rw [(enqueue_data_spec size hw s.sdev src count h.ok).2.1, hc]
    omega
  · intro ho
    simp [blackmagic_serial_write_room, ho]

/-- C13 (amended) on a port in tty mode with a buffer of 8 bytes and transfers of
4: five bytes are queued (four go to the hardware at once), then nine more
are offered, of which six fit. -/
theorem serial_write_accounting_witness :
    (SerialSys.run 4 (SerialSys.init 8 (serial_example blackmagic_serial_open_states.PORT_OPEN_TTY))
      [SerialOp.enqueue (fun k => k + 65) 5]).sent = [65, 66, 67, 68] ∧
    (blackmagic_serial_enqueue_data 4
      (SerialSys.run 4
        (SerialSys.init 8 (serial_example blackmagic_serial_open_states.PORT_OPEN_TTY))
        [SerialOp.enqueue (fun k => k + 65) 5]).sdev (fun k => k + 97) 9).2.1 =
      min 9 ((8 : Int) - 1 -
        (SerialSys.run 4
          (SerialSys.init 8 (serial_example blackmagic_serial_open_states.PORT_OPEN_TTY))
          [SerialOp.enqueue (fun k => k + 65) 5]).sdev.write_buffer.available_bytes) :=
  ⟨by decide,
   (serial_write_accounting 8 4 (by decide)
      (serial_example blackmagic_serial_open_states.PORT_OPEN_TTY)
      [SerialOp.enqueue (fun k => k + 65) 5] _ rfl).2.1 (fun k => k + 97) 9 (by decide)⟩

end Blackmagic
